import Mathlib

/-!
LichenScript core runtime: a shallow embedding of `runtime/c/runtime.c`.

Bytes, code units and machine words are natural numbers; a store into a
`uint8_t` or `uint16_t` cell is an explicit reduction modulo `2^8` or `2^16`.
A C buffer is a list of bytes together with an offset into it.  Functions that
can `abort()` return `Except Fault _`.
-/

namespace Lichen

/-! ## UTF-8 codec -/

/-- Store into a `uint8_t` cell. -/
def u8 (x : Nat) : Nat := x % 256

/-- Store into a `uint16_t` cell. -/
def u16 (x : Nat) : Nat := x % 65536

/-- Conversion of an `int` to `uint32_t`. -/
def toU32 (x : Int) : Nat := (x % 4294967296).toNat

/-- Conversion of a wide integer to a 32-bit `int` (two's complement). -/
def toI32 (x : Int) : Int := (x + 2147483648) % 4294967296 - 2147483648

/-- Byte `buf[i]`; a read past the end of the list yields `0`. -/
def byteAt (buf : List Nat) (i : Nat) : Nat := buf.getD i 0

/-- Model of `unicode_to_utf8(buf, c)`: the pair of the returned `int` and the
bytes that were written to `buf`, in order. -/
def unicode_to_utf8 (c : Nat) : Nat × List Nat :=
  if c < 0x80 then
    (1, [u8 c])
  else if c < 0x800 then
    (2, [u8 ((c >>> 6) ||| 0xc0), u8 ((c &&& 0x3f) ||| 0x80)])
  else if c < 0x10000 then
    (3, [u8 ((c >>> 12) ||| 0xe0), u8 (((c >>> 6) &&& 0x3f) ||| 0x80),
         u8 ((c &&& 0x3f) ||| 0x80)])
  else if c < 0x00200000 then
    (4, [u8 ((c >>> 18) ||| 0xf0), u8 (((c >>> 12) &&& 0x3f) ||| 0x80),
         u8 (((c >>> 6) &&& 0x3f) ||| 0x80), u8 ((c &&& 0x3f) ||| 0x80)])
  else if c < 0x04000000 then
    (5, [u8 ((c >>> 24) ||| 0xf8), u8 (((c >>> 18) &&& 0x3f) ||| 0x80),
         u8 (((c >>> 12) &&& 0x3f) ||| 0x80), u8 (((c >>> 6) &&& 0x3f) ||| 0x80),
         u8 ((c &&& 0x3f) ||| 0x80)])
  else if c < 0x80000000 then
    (6, [u8 ((c >>> 30) ||| 0xfc), u8 (((c >>> 24) &&& 0x3f) ||| 0x80),
         u8 (((c >>> 18) &&& 0x3f) ||| 0x80), u8 (((c >>> 12) &&& 0x3f) ||| 0x80),
         u8 (((c >>> 6) &&& 0x3f) ||| 0x80), u8 ((c &&& 0x3f) ||| 0x80)])
  else
    (0, [])

/-- Table `utf8_min_code[5]`. -/
def utf8_min_code : List Nat := [0x80, 0x800, 0x10000, 0x00200000, 0x04000000]

/-- Table `utf8_first_code_mask[5]`. -/
def utf8_first_code_mask : List Nat := [0x1f, 0xf, 0x7, 0x3, 0x1]

/-- The `switch (c)` of `unicode_from_utf8`: the number `l` of continuation
bytes for a lead byte `c >= 0x80`, or `none` for the `default:` label. -/
def utf8_switch (c : Nat) : Option Nat :=
  if 0xc0 ≤ c ∧ c ≤ 0xdf then some 1
  else if 0xe0 ≤ c ∧ c ≤ 0xef then some 2
  else if 0xf0 ≤ c ∧ c ≤ 0xf7 then some 3
  else if 0xf8 ≤ c ∧ c ≤ 0xfb then some 4
  else if 0xfc ≤ c ∧ c ≤ 0xfd then some 5
  else none

/-- The `for (i = 0; i < l; i++)` loop of `unicode_from_utf8`, with `n = l - i`
iterations left, read cursor `q` and accumulator `c`; `none` is the
`return -1` inside the loop. -/
def utf8_cont_loop (buf : List Nat) : Nat → Nat → Nat → Option Nat
  | 0, _, c => some c
  | n + 1, q, c =>
    let b := byteAt buf q
    if b < 0x80 ∨ b ≥ 0xc0 then none
    else utf8_cont_loop buf n (q + 1) ((c <<< 6) ||| (b &&& 0x3f))

/-- Model of `unicode_from_utf8(buf + p, max_len, &pp)`: the returned `int` and
the value of `*pp` after the call (`pp` is its value before the call). -/
def unicode_from_utf8 (buf : List Nat) (p : Nat) (max_len : Int) (pp : Nat) : Int × Nat :=
  let c := byteAt buf p
  if c < 0x80 then (c, p + 1)
  else
    match utf8_switch c with
    | none => (-1, pp)
    | some l =>
      if (l : Int) > max_len - 1 then (-1, pp)
      else
        match utf8_cont_loop buf l (p + 1) (c &&& utf8_first_code_mask.getD (l - 1) 0) with
        | none => (-1, pp)
        | some c1 =>
          if c1 < utf8_min_code.getD (l - 1) 0 then (-1, pp)
          else (c1, p + 1 + l)

/-! ### Reference notions used to state the codec properties -/

/-- Length the encoder is expected to return: the index of the first bound
among `0x80, 0x800, 0x10000, 0x200000, 0x4000000, 0x80000000` that `c` is
below, and `0` when `c` is below none of them. -/
def utf8_expected_len (c : Nat) : Nat :=
  if c < 0x80 then 1 else if c < 0x800 then 2 else if c < 0x10000 then 3
  else if c < 0x200000 then 4 else if c < 0x4000000 then 5
  else if c < 0x80000000 then 6 else 0

/-- The lead byte `b` carries the prefix `0`, `110`, `1110`, `11110`, `111110`
or `1111110` that belongs to an encoding of `n` bytes. -/
def utf8_lead_ok (n b : Nat) : Bool :=
  match n with
  | 1 => b / 128 == 0
  | 2 => b / 32 == 6
  | 3 => b / 16 == 14
  | 4 => b / 8 == 30
  | 5 => b / 4 == 62
  | 6 => b / 2 == 126
  | _ => false

/-- The byte `b` has the form `10xxxxxx`. -/
def utf8_is_cont (b : Nat) : Bool := decide (0x80 ≤ b) && decide (b < 0xc0)

/-- Number of continuation bytes a lead byte announces (`0` for ASCII). -/
def utf8_announced (b0 : Nat) : Nat :=
  if b0 < 0xc0 then 0 else if b0 < 0xe0 then 1 else if b0 < 0xf0 then 2
  else if b0 < 0xf8 then 3 else if b0 < 0xfc then 4 else 5

/-- Number of payload bits in a lead byte that announces `l` continuation bytes. -/
def utf8_lead_bits (l : Nat) : Nat := if l = 0 then 7 else 6 - l

/-- Appends to `acc` the low six bits of each of the `n` bytes from offset `q`. -/
def utf8_payload (buf : List Nat) : Nat → Nat → Nat → Nat
  | 0, _, acc => acc
  | n + 1, q, acc => utf8_payload buf n (q + 1) (acc * 64 + byteAt buf q % 64)

/-- Value assembled from the payload bits of a lead byte that announces `l`
continuation bytes and of the `l` bytes after it. -/
def utf8_assembled (buf : List Nat) (p l : Nat) : Nat :=
  utf8_payload buf l (p + 1) (byteAt buf p % 2 ^ utf8_lead_bits l)

/-- The rejection condition of the decoder, as the specification words it. -/
def utf8_rejected (buf : List Nat) (p : Nat) (max_len : Int) : Prop :=
  let b0 := byteAt buf p
  let l := utf8_announced b0
  (0x80 ≤ b0 ∧ b0 < 0xc0) ∨ b0 = 0xfe ∨ b0 = 0xff ∨
  (l : Int) > max_len - 1 ∨
  (∃ i, i < l ∧ utf8_is_cont (byteAt buf (p + 1 + i)) = false) ∨
  (1 ≤ l ∧ utf8_assembled buf p l < utf8_min_code.getD (l - 1) 0)


/-! ## Data model -/

/-- Ways in which a call does not return normally: `abort()`, behaviour that C
leaves undefined (a read through a dangling or mistyped pointer), and a model
loop that ran out of its iteration bound. -/
inductive Fault
  | abort
  | undefined
  | out_of_fuel
  deriving DecidableEq, Repr

/-- The tags of `LCObjectType` used by `runtime.c`. -/
inductive LCObjectType
  | LC_TY_UNION
  | LC_TY_CHAR
  | LC_TY_F32
  | LC_TY_I32
  | LC_TY_BOOL
  | LC_TY_NULL
  | LC_TY_STRING
  | LC_TY_SYMBOL
  | LC_TY_REFCELL
  | LC_TY_UNION_OBJECT
  | LC_TY_LAMBDA
  | LC_TY_ARRAY
  | LC_TY_MAP
  | LC_TY_CLASS_OBJECT
  | LC_TY_CLASS_OBJECT_META
  | LC_TY_BOXED_I64
  | LC_TY_BOXED_U64
  | LC_TY_BOXED_F64
  deriving DecidableEq, Repr

open LCObjectType

/-- Modelled from the spec: the enumeration `LCObjectType` is declared in
`runtime.h`, which is not among the sources.  The test `val.tag <= 0` of
`LCRetain`, `LCRelease` and `LCInvokeStr` holds exactly for the primitive tags
(null, boolean, 32-bit integer, 32-bit float, character, small union). -/
def LCObjectType.is_primitive : LCObjectType → Bool
  | LC_TY_UNION | LC_TY_CHAR | LC_TY_F32 | LC_TY_I32 | LC_TY_BOOL | LC_TY_NULL => true
  | _ => false

/-- An `LCValue`: the tag and the payload word, which is `int_val` for an
immediate and the address `ptr_val` of the heap object for a pointer tag. -/
structure LCValue where
  tag : LCObjectType
  payload : Int
  deriving DecidableEq, Repr

/-- Field `int_val` of the payload union. -/
def LCValue.int_val (v : LCValue) : Int := v.payload

/-- Field `ptr_val` of the payload union, as a heap address. -/
def LCValue.ptr_val (v : LCValue) : Nat := v.payload.toNat

/-- Value made of zero bytes (a slot of a `lc_mallocz` block).  Its tag is
`LC_TY_NULL`: `LCNewSymbolLen` tests a zero-filled bucket with
`content.tag == LC_TY_NULL`. -/
def LCValue.zero : LCValue := ⟨LC_TY_NULL, 0⟩

/-- Macro `MK_NULL()`. -/
def MK_NULL : LCValue := ⟨LC_TY_NULL, 0⟩

/-- Macro `MK_STRING(v)`. -/
def MK_STRING (p : Nat) : LCValue := ⟨LC_TY_STRING, p⟩

/-- Modelled from the spec: `LCTrue` is declared in `runtime.h`; a boolean value
whose `int_val` is non-zero (`LCMapKeyEq` tests `.int_val != 0`). -/
def LCTrue : LCValue := ⟨LC_TY_BOOL, 1⟩

/-- Modelled from the spec: `LCFalse` is declared in `runtime.h`; the boolean
value whose `int_val` is zero. -/
def LCFalse : LCValue := ⟨LC_TY_BOOL, 0⟩

/-- The header `LC_OBJ_HEADER` that starts every heap object.  The count is
kept as an exact integer. -/
structure LCObjectHeader where
  count : Int
  class_id : Nat
  deriving DecidableEq, Repr

/-- An `LCString`.  The list `str` is the inline storage `u.str8` / `u.str16` as
far as it has been written: for a narrow string the `length` code units and
the zero byte that ends them, for a wide string the `length` code units. -/
structure LCString where
  header : LCObjectHeader
  is_wide_char : Bool
  length : Nat
  hash : Nat
  str : List Nat
  deriving DecidableEq, Repr

/-- The code units of a string: the first `length` cells of its storage. -/
def LCString.units (s : LCString) : List Nat := s.str.take s.length

/-- An `LCArray`; `data` is `none` for a `NULL` block. -/
structure LCArray where
  header : LCObjectHeader
  len : Nat
  capacity : Nat
  data : Option (List LCValue)
  deriving DecidableEq, Repr

/-- An `LCRefCell`. -/
structure LCRefCell where
  header : LCObjectHeader
  value : LCValue
  deriving DecidableEq, Repr

/-- An `LCLambda`; `c_fun` identifies the function pointer. -/
structure LCLambda where
  header : LCObjectHeader
  c_fun : Nat
  captured_values_size : Nat
  captured_values : List LCValue
  deriving DecidableEq, Repr

/-- An `LCUnionObject`. -/
structure LCUnionObject where
  header : LCObjectHeader
  tag : Int
  size : Int
  value : List LCValue
  deriving DecidableEq, Repr

/-- An `LCMap`; `head`, `last` and the bucket slots are addresses of
`LCMapTuple` and `LCMapBucket` cells, `none` being `NULL`. -/
structure LCMap where
  header : LCObjectHeader
  key_ty : LCObjectType
  is_small : Bool
  head : Option Nat
  last : Option Nat
  size : Int
  buckets : Option (List (Option Nat))
  bucket_size : Int
  deriving DecidableEq, Repr

/-- An `LCMapTuple`. -/
structure LCMapTuple where
  prev : Option Nat
  next : Option Nat
  key : LCValue
  value : LCValue
  deriving DecidableEq, Repr

/-- An `LCMapBucket`. -/
structure LCMapBucket where
  hash : Nat
  next : Option Nat
  data : Option Nat
  deriving DecidableEq, Repr

/-- What an allocated block holds. -/
inductive LCObject
  | string (s : LCString)
  | array (a : LCArray)
  | refcell (c : LCRefCell)
  | lambda (l : LCLambda)
  | union_object (u : LCUnionObject)
  | map (m : LCMap)
  | map_tuple (t : LCMapTuple)
  | map_bucket (b : LCMapBucket)
  | class_object (h : LCObjectHeader)
  | boxed64 (h : LCObjectHeader) (bits : Int)
  deriving DecidableEq, Repr

/-- The header of a heap object; tuples and buckets have none. -/
def LCObject.header : LCObject → Option LCObjectHeader
  | .string s => some s.header
  | .array a => some a.header
  | .refcell c => some c.header
  | .lambda l => some l.header
  | .union_object u => some u.header
  | .map m => some m.header
  | .map_tuple _ => none
  | .map_bucket _ => none
  | .class_object h => some h
  | .boxed64 h _ => some h

/-- Writes `header.count`. -/
def LCObject.set_count (o : LCObject) (c : Int) : LCObject :=
  match o with
  | .string s => .string { s with header := { s.header with count := c } }
  | .array a => .array { a with header := { a.header with count := c } }
  | .refcell r => .refcell { r with header := { r.header with count := c } }
  | .lambda l => .lambda { l with header := { l.header with count := c } }
  | .union_object u => .union_object { u with header := { u.header with count := c } }
  | .map m => .map { m with header := { m.header with count := c } }
  | .map_tuple t => .map_tuple t
  | .map_bucket b => .map_bucket b
  | .class_object h => .class_object { h with count := c }
  | .boxed64 h bits => .boxed64 { h with count := c } bits

/-- An `LCClassDef`: the display name and the finalizer (a function pointer,
`none` for `NULL`). -/
structure LCClassDef where
  name : String
  finalizer : Option Nat
  deriving DecidableEq, Repr

/-- An `LCClassMethodDef`: the method name (the bytes of the C string before its
terminating zero), the flags and the function pointer, identified by a number. -/
structure LCClassMethodDef where
  name : List Nat
  flags : Nat
  fun_ptr : Nat
  deriving DecidableEq, Repr

/-- An `LCClassMeta`.  The method table is `none` as long as
`LCDefineClassMethod` has not assigned `cls_method` and `cls_method_size`: the
slots of the class vector come from `lc_malloc` and `lc_realloc`, which do not
clear them. -/
structure LCClassMeta where
  cls_def : LCClassDef
  cls_method : Option (List LCClassMethodDef) := none
  deriving DecidableEq, Repr

/-- What the build fixes outside `runtime.c`: the sentinel count `LC_NO_GC` and
`sizeof(LCString)` of `runtime.h`, the headroom `lc_malloc_usable_size` reports
beyond a request of a given number of bytes (`0` unless built for Apple), and
whether `malloc(0)` returns `NULL`. -/
structure Platform where
  LC_NO_GC : Int
  sizeof_LCString : Nat
  usable_slack : Nat → Nat
  malloc_zero_null : Bool

/-- The `LCRuntime` together with the heap it manages.  `heap` maps an address
to the live block at it, `next` is the first address never handed out, and
`finalized` lists the class objects handed to a class finalizer (the finalizer
itself is code outside the runtime).  An element of `symbol_buckets` is one
slot of the bucket array with its chain: the list of the `content` values of
the head bucket, which is stored in the array itself, and of the buckets
linked after it through `next`; a zero-filled slot is `[LCValue.zero]`.
`cls_meta_data` lists the slots of the class vector that have been written,
which are the slots `0 .. cls_meta_size - 1`: its length stands for
`cls_meta_size`, and `cls_meta_cap` is the number of slots of the block. -/
structure LCRuntime where
  malloc_count : Int
  seed : Nat
  heap : Nat → Option LCObject
  next : Nat
  cls_meta_data : List LCClassMeta
  finalized : List LCValue
  symbol_buckets : List (List LCValue) := []
  symbol_bucket_size : Nat := 0
  symbol_len : Nat := 0
  cls_meta_cap : Nat := 0

/-! ## Memory manager -/

/-- Model of `lc_malloc(rt, size)`: the runtime after the call and whether the
result is non-`NULL`.  A request succeeds unless it is a request for zero
bytes on a platform whose `malloc(0)` is `NULL`. -/
def lc_malloc (pf : Platform) (rt : LCRuntime) (size : Nat) : LCRuntime × Bool :=
  if size = 0 ∧ pf.malloc_zero_null = true then (rt, false)
  else ({ rt with malloc_count := rt.malloc_count + 1 }, true)

/-- Model of `lc_mallocz(rt, size)`; the block it returns is zero-filled. -/
def lc_mallocz (pf : Platform) (rt : LCRuntime) (size : Nat) : LCRuntime × Bool :=
  lc_malloc pf rt size

/-- Model of `lc_free(rt, ptr)` for a block that is not an object of `heap`
(a string under construction, the data block of an array). -/
def lc_free (rt : LCRuntime) : LCRuntime :=
  { rt with malloc_count := rt.malloc_count - 1 }

/-- Model of `lc_free(rt, ptr)` for the heap object at address `p`. -/
def lc_free_at (rt : LCRuntime) (p : Nat) : LCRuntime :=
  { rt with malloc_count := rt.malloc_count - 1,
            heap := fun q => if q = p then none else rt.heap q }

/-- Overwrites the object at address `p`. -/
def heap_store (rt : LCRuntime) (p : Nat) (o : LCObject) : LCRuntime :=
  { rt with heap := fun q => if q = p then some o else rt.heap q }

/-- Gives the block of a successful allocation its address: the object is put
at the first unused address, which is returned. -/
def heap_new (rt : LCRuntime) (o : LCObject) : LCRuntime × Nat :=
  ({ rt with heap := fun q => if q = rt.next then some o else rt.heap q,
             next := rt.next + 1 }, rt.next)

/-- Model of `max_int`. -/
def max_int (a b : Int) : Int := if a > b then a else b

/-- Model of `min_int`. -/
def min_int (a b : Int) : Int := if a < b then a else b

/-! ## String builder -/

/-- Model of `lc_alloc_string_rt(rt, max_len, is_wide_char)`; the contents are
uninitialised, so no storage cell is recorded as written. -/
def lc_alloc_string_rt (pf : Platform) (rt : LCRuntime) (max_len : Int) (is_wide_char : Bool) :
    LCRuntime × LCString :=
  ((lc_malloc pf rt (pf.sizeof_LCString + (max_len.toNat <<< is_wide_char.toNat) + 1
      - is_wide_char.toNat)).1,
   { header := { count := 1, class_id := 0 }, is_wide_char := is_wide_char,
     length := max_len.toNat, hash := 0, str := [] })

/-- A `StringBuffer`.  The field `len` of the C struct is the number of storage
cells written so far, `str.str.length`; the runtime pointer `rt` is passed to
the functions that use it. -/
structure StringBuffer where
  str : LCString
  size : Int
  is_wide_char : Bool
  error_status : Int
  deriving DecidableEq, Repr

/-- Field `len` of a `StringBuffer`. -/
def StringBuffer.len (s : StringBuffer) : Int := s.str.str.length

/-- Model of `string_buffer_init2`. -/
def string_buffer_init2 (pf : Platform) (rt : LCRuntime) (size : Int) (is_wide : Bool) :
    LCRuntime × Int × StringBuffer :=
  let r := lc_alloc_string_rt pf rt size is_wide
  (r.1, 0, { str := r.2, size := size, is_wide_char := is_wide, error_status := 0 })

/-- Model of `string_buffer_init`. -/
def string_buffer_init (pf : Platform) (rt : LCRuntime) (size : Int) :
    LCRuntime × Int × StringBuffer :=
  string_buffer_init2 pf rt size false

/-- The store `s->str->u.str8[s->len++] = c`. -/
def StringBuffer.put8 (s : StringBuffer) (c : Nat) : StringBuffer :=
  { s with str := { s.str with str := s.str.str ++ [u8 c] } }

/-- The store `s->str->u.str16[s->len++] = c`. -/
def StringBuffer.put16 (s : StringBuffer) (c : Nat) : StringBuffer :=
  { s with str := { s.str with str := s.str.str ++ [u16 c] } }

/-- Model of `string_buffer_widen(s, size)`: the status and the buffer.  The
`len` cells written so far are zero-extended in place, which keeps their
values. -/
def string_buffer_widen (pf : Platform) (s : StringBuffer) (size : Int) : Int × StringBuffer :=
  if s.error_status ≠ 0 then (-1, s)
  else
    let slack := pf.usable_slack (pf.sizeof_LCString + (size.toNat <<< 1))
    (0, { s with is_wide_char := true, size := size + ((slack >>> 1 : Nat) : Int) })

/-- Constant `LC_STRING_LEN_MAX`. -/
def LC_STRING_LEN_MAX : Int := 2 ^ 30 - 1

/-- Model of `string_buffer_realloc(s, new_len, c)`. -/
def string_buffer_realloc (pf : Platform) (s : StringBuffer) (new_len : Int) (c : Nat) :
    Except Fault (Int × StringBuffer) :=
  if s.error_status ≠ 0 then .ok (-1, s)
  else if new_len > LC_STRING_LEN_MAX then .error Fault.abort
  else
    let new_size := min_int (max_int new_len (s.size * 3 / 2)) LC_STRING_LEN_MAX
    if s.is_wide_char = false ∧ c ≥ 0x100 then .ok (string_buffer_widen pf s new_size)
    else
      let new_size_bytes := pf.sizeof_LCString + (new_size.toNat <<< s.is_wide_char.toNat) + 1
        - s.is_wide_char.toNat
      let slack := pf.usable_slack new_size_bytes
      let new_size := min_int (new_size + ((slack >>> s.is_wide_char.toNat : Nat) : Int))
        LC_STRING_LEN_MAX
      .ok (0, { s with size := new_size })

/-- Model of `string_buffer_putc_slow(s, c)`. -/
def string_buffer_putc_slow (pf : Platform) (s : StringBuffer) (c : Nat) :
    Except Fault (Int × StringBuffer) :=
  let grown : Except Fault (Int × StringBuffer) :=
    if s.len ≥ s.size then string_buffer_realloc pf s (s.len + 1) c else .ok (0, s)
  match grown with
  | .error e => .error e
  | .ok (r, s1) =>
    if r ≠ 0 then .ok (-1, s1)
    else if s1.is_wide_char then .ok (0, s1.put16 c)
    else if c < 0x100 then .ok (0, s1.put8 c)
    else
      let w := string_buffer_widen pf s1 s1.size
      if w.1 ≠ 0 then .ok (-1, w.2) else .ok (0, w.2.put16 c)

/-- Model of `string_buffer_putc8(s, c)`. -/
def string_buffer_putc8 (pf : Platform) (s : StringBuffer) (c : Nat) :
    Except Fault (Int × StringBuffer) :=
  let grown : Except Fault (Int × StringBuffer) :=
    if s.len ≥ s.size then string_buffer_realloc pf s (s.len + 1) c else .ok (0, s)
  match grown with
  | .error e => .error e
  | .ok (r, s1) =>
    if r ≠ 0 then .ok (-1, s1)
    else if s1.is_wide_char then .ok (0, s1.put16 c)
    else .ok (0, s1.put8 c)

/-- Model of `string_buffer_putc16(s, c)`. -/
def string_buffer_putc16 (pf : Platform) (s : StringBuffer) (c : Nat) :
    Except Fault (Int × StringBuffer) :=
  if s.len < s.size ∧ s.is_wide_char = true then .ok (0, s.put16 c)
  else if s.len < s.size ∧ c < 0x100 then .ok (0, s.put8 c)
  else string_buffer_putc_slow pf s c

/-- Model of `lc_new_string8(rt, buf, buf_len)`: the runtime after the call and
the string object.  The block is zero-filled, so the cell after the copied
bytes holds `0`. -/
def lc_new_string8 (pf : Platform) (rt : LCRuntime) (buf : List Nat) (buf_len : Nat) :
    LCRuntime × LCString :=
  ((lc_mallocz pf rt (pf.sizeof_LCString + buf_len + 1)).1,
   { header := { count := 1, class_id := 0 }, is_wide_char := false, length := buf_len,
     hash := 0, str := buf.take buf_len ++ [0] })

/-- Model of `string_buffer_write8(s, p, len)` for the bytes `bytes` at `p`. -/
def string_buffer_write8 (pf : Platform) (s : StringBuffer) (bytes : List Nat) :
    Except Fault (Int × StringBuffer) :=
  let grown : Except Fault (Int × StringBuffer) :=
    if s.len + bytes.length > s.size then string_buffer_realloc pf s (s.len + bytes.length) 0
    else .ok (0, s)
  match grown with
  | .error e => .error e
  | .ok (r, s1) =>
    if r ≠ 0 then .ok (-1, s1)
    else .ok (0, { s1 with str := { s1.str with str := s1.str.str ++ bytes } })

/-- Model of `string_buffer_end(s)`: the runtime after the call and the string
that `MK_STRING` wraps. -/
def string_buffer_end (pf : Platform) (rt : LCRuntime) (s : StringBuffer) :
    LCRuntime × LCString :=
  if s.len = 0 then lc_new_string8 pf (lc_free rt) [] 0
  else
    (rt, { s.str with
            str := if s.is_wide_char then s.str.str else s.str.str ++ [0],
            is_wide_char := s.is_wide_char,
            length := s.str.str.length,
            hash := 0 })

/-- The loop `while (p < buf_end && (*p >= 0x80 && *p < 0xc0)) p++`: the value
of `p` after it. -/
def skip_cont (buf : List Nat) (p : Nat) : Nat :=
  p + ((buf.drop p).takeWhile (fun b => decide (0x80 ≤ b) && decide (b < 0xc0))).length

/-- The decoding loop `while (p < buf_end)` of `LCNewStringFromCStringLen`,
bounded by `fuel` iterations (every iteration advances `p`).  The local
`p_next` is read only after a successful decode has written it, so its value
before the call is immaterial; `p` stands for it. -/
def decode_loop (pf : Platform) (buf : List Nat) :
    Nat → Nat → StringBuffer → Except Fault StringBuffer
  | 0, p, sb => if p < buf.length then .error Fault.out_of_fuel else .ok sb
  | fuel + 1, p, sb =>
    if ¬ p < buf.length then .ok sb
    else if byteAt buf p < 128 then
      match string_buffer_putc8 pf sb (byteAt buf p) with
      | .error e => .error e
      | .ok r => decode_loop pf buf fuel (p + 1) r.2
    else
      let d := unicode_from_utf8 buf p ((buf.length : Int) - p) p
      let c := toU32 d.1
      if c < 0x10000 then
        match string_buffer_putc16 pf sb c with
        | .error e => .error e
        | .ok r => decode_loop pf buf fuel d.2 r.2
      else if c ≤ 0x10FFFF then
        let c1 := c - 0x10000
        match string_buffer_putc16 pf sb ((c1 >>> 10) + 0xd800) with
        | .error e => .error e
        | .ok r1 =>
          match string_buffer_putc16 pf r1.2 ((c1 &&& 0x3ff) + 0xdc00) with
          | .error e => .error e
          | .ok r2 => decode_loop pf buf fuel d.2 r2.2
      else
        let p1 := skip_cont buf p
        let p2 := if p1 < buf.length then skip_cont buf (p1 + 1) else p1
        match string_buffer_putc16 pf sb 0xfffd with
        | .error e => .error e
        | .ok r => decode_loop pf buf fuel p2 r.2

/-- Model of `LCNewStringFromCStringLen(rt, buf, buf_len)` for the byte sequence
`buf` of length `buf_len`, up to the address of the result: the runtime after
the call and the string object that `MK_STRING` wraps. -/
def LCNewStringFromCStringLen_str (pf : Platform) (rt : LCRuntime) (buf : List Nat) :
    Except Fault (LCRuntime × LCString) :=
  let len := (buf.takeWhile (fun b => decide (b < 128))).length
  if len = buf.length then .ok (lc_new_string8 pf rt buf buf.length)
  else
    let i := string_buffer_init pf rt buf.length
    if i.2.1 ≠ 0 then .error Fault.abort
    else
      match string_buffer_write8 pf i.2.2 (buf.take len) with
      | .error e => .error e
      | .ok w =>
        match decode_loop pf buf (buf.length - len) len w.2 with
        | .error e => .error e
        | .ok sb => .ok (string_buffer_end pf i.1 sb)

/-- Model of `LCNewStringFromCStringLen(rt, buf, buf_len)`: the runtime, whose
heap holds the new string, and the returned value. -/
def LCNewStringFromCStringLen (pf : Platform) (rt : LCRuntime) (buf : List Nat) :
    Except Fault (LCRuntime × LCValue) :=
  match LCNewStringFromCStringLen_str pf rt buf with
  | .error e => .error e
  | .ok r =>
    let a := heap_new r.1 (LCObject.string r.2)
    .ok (a.1, MK_STRING a.2)

/-! ### Reference notions used to state the string properties -/

/-- The code units the decoding loop appends when it starts at offset `p`: the
same case analysis as `decode_loop`, without the buffer. -/
def decode_units (buf : List Nat) : Nat → Nat → List Nat
  | 0, _ => []
  | fuel + 1, p =>
    if ¬ p < buf.length then []
    else if byteAt buf p < 128 then byteAt buf p :: decode_units buf fuel (p + 1)
    else
      let d := unicode_from_utf8 buf p ((buf.length : Int) - p) p
      let c := toU32 d.1
      if c < 0x10000 then c :: decode_units buf fuel d.2
      else if c ≤ 0x10FFFF then
        (((c - 0x10000) >>> 10) + 0xd800) :: (((c - 0x10000) &&& 0x3ff) + 0xdc00)
          :: decode_units buf fuel d.2
      else
        let p1 := skip_cont buf p
        let p2 := if p1 < buf.length then skip_cont buf (p1 + 1) else p1
        0xfffd :: decode_units buf fuel p2

/-- The buffer `sb1` is `sb` after the code units `us` were appended: same
header, no error, a capacity that did not shrink, and wide exactly when `sb`
was wide or one of the new units does not fit a byte. -/
def sb_extends (sb sb1 : StringBuffer) (us : List Nat) : Prop :=
  sb1.str.str = sb.str.str ++ us ∧
  sb1.is_wide_char = (sb.is_wide_char || us.any (fun u => decide (0x100 ≤ u))) ∧
  sb1.error_status = 0 ∧ sb.size ≤ sb1.size ∧ sb1.str.header = sb.str.header

/-- The UTF-16 code units of a code point `c <= 0x10FFFF`: `c` itself below
`0x10000`, and otherwise the high and the low surrogate. -/
def utf16_units (c : Nat) : List Nat :=
  if c < 0x10000 then [c]
  else [0xD800 + ((c - 0x10000) >>> 10), 0xDC00 + ((c - 0x10000) &&& 0x3FF)]

/-- The code units of a sequence of code points. -/
def utf16_of_code_points : List Nat → List Nat
  | [] => []
  | c :: cs => utf16_units c ++ utf16_of_code_points cs

/-- The bytes `unicode_to_utf8` writes for a sequence of code points. -/
def utf8_of_code_points : List Nat → List Nat
  | [] => []
  | c :: cs => (unicode_to_utf8 c).2 ++ utf8_of_code_points cs

/-- A Unicode scalar value: at most `0x10FFFF` and not a surrogate.  A byte
sequence is valid UTF-8 when it is `utf8_of_code_points` of scalar values. -/
def is_scalar (c : Nat) : Prop := c ≤ 0x10FFFF ∧ ¬ (0xD800 ≤ c ∧ c ≤ 0xDFFF)

instance (c : Nat) : Decidable (is_scalar c) := by
  unfold is_scalar; infer_instance

/-- Re-encoding of a code-unit sequence to UTF-8: a high surrogate followed by
a low surrogate is paired into one code point, every other unit is a code
point by itself, and each code point is encoded with `unicode_to_utf8`. -/
def reencode_utf8 : List Nat → List Nat
  | [] => []
  | [u] => (unicode_to_utf8 u).2
  | u :: lo :: rest =>
    if (0xD800 ≤ u ∧ u ≤ 0xDBFF) ∧ (0xDC00 ≤ lo ∧ lo ≤ 0xDFFF) then
      (unicode_to_utf8 (0x10000 + ((u - 0xD800) <<< 10) + (lo - 0xDC00))).2 ++ reencode_utf8 rest
    else (unicode_to_utf8 u).2 ++ reencode_utf8 (lo :: rest)

/-- A platform used for the concrete examples: `LC_NO_GC = -1`, a 24-byte
string header, no allocator headroom, non-`NULL` `malloc(0)`. -/
def example_platform : Platform :=
  { LC_NO_GC := -1, sizeof_LCString := 24, usable_slack := fun _ => 0,
    malloc_zero_null := false }

/-- A runtime with an empty heap, used for the concrete examples. -/
def example_runtime : LCRuntime :=
  { malloc_count := 1, seed := 7, heap := fun _ => none, next := 1,
    cls_meta_data := [], finalized := [] }

/-! ## String comparison -/

/-- The comparison kinds `LCCmpType`. -/
inductive LCCmpType
  | LC_CMP_EQ
  | LC_CMP_NEQ
  | LC_CMP_LT
  | LC_CMP_LTEQ
  | LC_CMP_GT
  | LC_CMP_GTEQ
  deriving DecidableEq, Repr

open LCCmpType

/-- Model of the C library `strcmp` on two byte arrays: the difference of the
first pair of differing bytes, and `0` when a zero byte is reached on both
sides first.  The end of a list reads as a zero byte. -/
def strcmp : List Nat → List Nat → Int
  | [], [] => 0
  | [], b :: _ => 0 - (b : Int)
  | a :: _, [] => (a : Int)
  | a :: as, b :: bs =>
    if a ≠ b then (a : Int) - (b : Int) else if a = 0 then 0 else strcmp as bs

/-- Model of the C library `memcmp` on the first `n` bytes of two arrays: the
difference of the first pair of differing bytes, `0` when there is none. -/
def memcmp : List Nat → List Nat → Nat → Int
  | _, _, 0 => 0
  | xs, ys, n + 1 =>
    if xs.headD 0 ≠ ys.headD 0 then (xs.headD 0 : Int) - (ys.headD 0 : Int)
    else memcmp xs.tail ys.tail n

/-- The bytes of a `uint16_t` array, low byte first. -/
def str16_bytes : List Nat → List Nat
  | [] => []
  | u :: us => u % 256 :: u / 256 % 256 :: str16_bytes us

/-- Model of `new_widen_string(s)`: the `length` cells of `u.str8`, zero-extended. -/
def new_widen_string (s : LCString) : List Nat := s.str.take s.length

/-- Model of `lc_std_string_cmp_slow(s1, s2)`. -/
def lc_std_string_cmp_slow (s1 s2 : LCString) : Int :=
  let str1 := if s1.is_wide_char then s1.str else new_widen_string s1
  let str2 := if s2.is_wide_char then s2.str else new_widen_string s2
  memcmp (str16_bytes str1) (str16_bytes str2) (s1.length * 2)

/-- Model of `lc_std_string_cmp` on the two string objects its arguments point
to.  The cached hashes are compared as stored (the conversion to `int` is
one-to-one and keeps `0`). -/
def lc_std_string_cmp_str (cmp_type : LCCmpType) (s1 s2 : LCString) : LCValue :=
  if cmp_type = LC_CMP_EQ ∧ s1.length ≠ s2.length then LCFalse
  else if cmp_type = LC_CMP_EQ ∧ s1.is_wide_char ≠ s2.is_wide_char then LCFalse
  else if cmp_type = LC_CMP_EQ ∧ (s1.hash ≠ 0 ∧ s2.hash ≠ 0 ∧ s1.hash ≠ s2.hash) then LCFalse
  else
    let d := toI32 ((s1.length : Int) - (s2.length : Int))
    let cmp_result :=
      if d ≠ 0 then d
      else if s1.is_wide_char = false ∧ s2.is_wide_char = false then strcmp s1.str s2.str
      else lc_std_string_cmp_slow s1 s2
    match cmp_type with
    | LC_CMP_EQ => if cmp_result = 0 then LCTrue else LCFalse
    | LC_CMP_NEQ => if cmp_result ≠ 0 then LCTrue else LCFalse
    | LC_CMP_LT => if cmp_result < 0 then LCTrue else LCFalse
    | LC_CMP_LTEQ => if cmp_result ≤ 0 then LCTrue else LCFalse
    | LC_CMP_GT => if cmp_result > 0 then LCTrue else LCFalse
    | LC_CMP_GTEQ => if cmp_result ≥ 0 then LCTrue else LCFalse

/-- Model of `lc_std_string_cmp(rt, cmp_type, left, right)`; the payloads of
`left` and `right` are dereferenced as `LCString` pointers. -/
def lc_std_string_cmp (rt : LCRuntime) (cmp_type : LCCmpType) (left right : LCValue) :
    Except Fault LCValue :=
  match rt.heap left.ptr_val, rt.heap right.ptr_val with
  | some (LCObject.string s1), some (LCObject.string s2) =>
    .ok (lc_std_string_cmp_str cmp_type s1 s2)
  | _, _ => .error Fault.undefined

/-- Layout of a string object: a wide string stores `length` 16-bit cells, a
narrow string stores `length` 8-bit cells and a zero cell after them. -/
def LCString.well_formed (s : LCString) : Prop :=
  if s.is_wide_char then s.str.length = s.length ∧ ∀ u ∈ s.str, u < 65536
  else s.str.length = s.length + 1 ∧ s.str.getD s.length 1 = 0 ∧ ∀ u ∈ s.str, u < 256

instance (s : LCString) : Decidable s.well_formed := by
  unfold LCString.well_formed; infer_instance

/-- A runtime whose heap holds the given objects at the addresses `1, 2, ...`,
used for the concrete examples. -/
def example_heap (objs : List LCObject) : LCRuntime :=
  { example_runtime with
    heap := fun q => if q = 0 then none else objs.get? (q - 1),
    next := objs.length + 1 }

/-- The narrow string `"a"`. -/
def example_narrow_a : LCString :=
  { header := { count := 1, class_id := 0 }, is_wide_char := false, length := 1, hash := 0,
    str := [0x61, 0] }

/-- The narrow string `"a"` with the cached hash `h`. -/
def example_narrow_a_hashed (h : Nat) : LCString :=
  { example_narrow_a with hash := h }

/-- A wide string with the single code unit `0x61`. -/
def example_wide_a : LCString :=
  { header := { count := 1, class_id := 0 }, is_wide_char := true, length := 1, hash := 0,
    str := [0x61] }

/-! ## Reference counting and finalisation -/

/-- Model of `LCRetain(val)`. -/
def LCRetain (pf : Platform) (rt : LCRuntime) (val : LCValue) : Except Fault LCRuntime :=
  if val.tag.is_primitive then .ok rt
  else
    match rt.heap val.ptr_val with
    | none => .error Fault.undefined
    | some o =>
      match o.header with
      | none => .error Fault.undefined
      | some h =>
        if h.count = pf.LC_NO_GC then .ok rt
        else .ok (heap_store rt val.ptr_val (o.set_count (h.count + 1)))

/-- A loop `for (i = 0; i < n; i++) LCRelease(rt, values[i])` over the listed
values, `release` being `LCRelease`. -/
def release_all (release : LCRuntime → LCValue → Except Fault LCRuntime) :
    LCRuntime → List LCValue → Except Fault LCRuntime
  | rt, [] => .ok rt
  | rt, v :: vs =>
    match release rt v with
    | .error e => .error e
    | .ok rt1 => release_all release rt1 vs

/-- A loop `for (i = 0; i < n; i++) LCRetain(values[i])` over the listed values. -/
def retain_all (pf : Platform) : LCRuntime → List LCValue → Except Fault LCRuntime
  | rt, [] => .ok rt
  | rt, v :: vs =>
    match LCRetain pf rt v with
    | .error e => .error e
    | .ok rt1 => retain_all pf rt1 vs

/-- The first `n` slots of an inline array of values; reading more slots than
the block holds is undefined. -/
def slots (vs : List LCValue) (n : Nat) : Except Fault (List LCValue) :=
  if n ≤ vs.length then .ok (vs.take n) else .error Fault.undefined

/-- Model of `LCFreeLambda(rt, val)`. -/
def LCFreeLambda (release : LCRuntime → LCValue → Except Fault LCRuntime)
    (rt : LCRuntime) (val : LCValue) : Except Fault LCRuntime :=
  match rt.heap val.ptr_val with
  | some (LCObject.lambda l) =>
    match slots l.captured_values l.captured_values_size with
    | .error e => .error e
    | .ok vs =>
      match release_all release rt vs with
      | .error e => .error e
      | .ok rt1 => .ok (lc_free_at rt1 val.ptr_val)
  | _ => .error Fault.undefined

/-- Model of `LCFreeClassObject(rt, val)`.  A call of the class finalizer is
recorded in `finalized`. -/
def LCFreeClassObject (rt : LCRuntime) (val : LCValue) : Except Fault LCRuntime :=
  match rt.heap val.ptr_val with
  | some (LCObject.class_object h) =>
    match rt.cls_meta_data.get? h.class_id with
    | none => .error Fault.undefined
    | some m =>
      let rt1 := if m.cls_def.finalizer.isSome then
          { rt with finalized := val :: rt.finalized } else rt
      .ok (lc_free_at rt1 val.ptr_val)
  | _ => .error Fault.undefined

/-- Model of `LCFreeArray(rt, val)`. -/
def LCFreeArray (release : LCRuntime → LCValue → Except Fault LCRuntime)
    (rt : LCRuntime) (val : LCValue) : Except Fault LCRuntime :=
  match rt.heap val.ptr_val with
  | some (LCObject.array a) =>
    match a.data with
    | none =>
      if a.len = 0 then .ok (lc_free_at rt val.ptr_val) else .error Fault.undefined
    | some d =>
      match slots d a.len with
      | .error e => .error e
      | .ok vs =>
        match release_all release rt vs with
        | .error e => .error e
        | .ok rt1 => .ok (lc_free_at (lc_free rt1) val.ptr_val)
  | _ => .error Fault.undefined

/-- Model of `LCFreeRefCell(rt, val)`. -/
def LCFreeRefCell (release : LCRuntime → LCValue → Except Fault LCRuntime)
    (rt : LCRuntime) (val : LCValue) : Except Fault LCRuntime :=
  match rt.heap val.ptr_val with
  | some (LCObject.refcell c) =>
    match release rt c.value with
    | .error e => .error e
    | .ok rt1 => .ok (lc_free_at rt1 val.ptr_val)
  | _ => .error Fault.undefined

/-- Model of `LCFreeUnionObject(rt, val)`. -/
def LCFreeUnionObject (release : LCRuntime → LCValue → Except Fault LCRuntime)
    (rt : LCRuntime) (val : LCValue) : Except Fault LCRuntime :=
  match rt.heap val.ptr_val with
  | some (LCObject.union_object u) =>
    match slots u.value u.size.toNat with
    | .error e => .error e
    | .ok vs =>
      match release_all release rt vs with
      | .error e => .error e
      | .ok rt1 => .ok (lc_free_at rt1 val.ptr_val)
  | _ => .error Fault.undefined

/-- Model of `lc_free_map_tuple(rt, tuple)` for the tuple at address `p`. -/
def lc_free_map_tuple (release : LCRuntime → LCValue → Except Fault LCRuntime)
    (rt : LCRuntime) (p : Nat) : Except Fault LCRuntime :=
  match rt.heap p with
  | some (LCObject.map_tuple t) =>
    match release rt t.key with
    | .error e => .error e
    | .ok rt1 =>
      match release rt1 t.value with
      | .error e => .error e
      | .ok rt2 => .ok (lc_free_at rt2 p)
  | _ => .error Fault.undefined

/-- The small-mode loop of `lc_std_map_free`: `while (ptr != NULL)` over the
entry list, bounded by `fuel` iterations. -/
def map_free_list (release : LCRuntime → LCValue → Except Fault LCRuntime) :
    Nat → LCRuntime → Option Nat → Except Fault LCRuntime
  | _, rt, none => .ok rt
  | 0, _, some _ => .error Fault.out_of_fuel
  | fuel + 1, rt, some p =>
    match rt.heap p with
    | some (LCObject.map_tuple t) =>
      match lc_free_map_tuple release rt p with
      | .error e => .error e
      | .ok rt1 => map_free_list release fuel rt1 t.next
    | _ => .error Fault.undefined

/-- The inner loop of the large-mode part of `lc_std_map_free`:
`while (bucket != NULL)` over one chain, bounded by `fuel` iterations. -/
def map_free_chain (release : LCRuntime → LCValue → Except Fault LCRuntime) :
    Nat → LCRuntime → Option Nat → Except Fault LCRuntime
  | _, rt, none => .ok rt
  | 0, _, some _ => .error Fault.out_of_fuel
  | fuel + 1, rt, some p =>
    match rt.heap p with
    | some (LCObject.map_bucket b) =>
      match b.data with
      | none => .error Fault.undefined
      | some t =>
        match lc_free_map_tuple release rt t with
        | .error e => .error e
        | .ok rt1 => map_free_chain release fuel (lc_free_at rt1 p) b.next
    | _ => .error Fault.undefined

/-- The outer loop `for (i = 0; i < map->bucket_size; i++)` over the slots. -/
def map_free_slots (release : LCRuntime → LCValue → Except Fault LCRuntime) (fuel : Nat) :
    LCRuntime → List (Option Nat) → Except Fault LCRuntime
  | rt, [] => .ok rt
  | rt, b :: bs =>
    match map_free_chain release fuel rt b with
    | .error e => .error e
    | .ok rt1 => map_free_slots release fuel rt1 bs

/-- Model of `lc_std_map_free(rt, val)`. -/
def lc_std_map_free (release : LCRuntime → LCValue → Except Fault LCRuntime) (fuel : Nat)
    (rt : LCRuntime) (val : LCValue) : Except Fault LCRuntime :=
  match rt.heap val.ptr_val with
  | some (LCObject.map m) =>
    if m.size > 0 then
      if m.is_small then
        match map_free_list release fuel rt m.head with
        | .error e => .error e
        | .ok rt1 => .ok (lc_free_at rt1 val.ptr_val)
      else
        match m.buckets with
        | none =>
          if m.bucket_size ≤ 0 then .ok (lc_free_at rt val.ptr_val)
          else .error Fault.undefined
        | some bs =>
          if m.bucket_size.toNat ≤ bs.length then
            match map_free_slots release fuel rt (bs.take m.bucket_size.toNat) with
            | .error e => .error e
            | .ok rt1 => .ok (lc_free_at rt1 val.ptr_val)
          else .error Fault.undefined
    else .ok (lc_free_at rt val.ptr_val)
  | _ => .error Fault.undefined

/-- Model of `LCFreeObject(rt, val)`; `release` is `LCRelease` and `fuel` bounds
the list walks of `lc_std_map_free`. -/
def LCFreeObject (release : LCRuntime → LCValue → Except Fault LCRuntime) (fuel : Nat)
    (rt : LCRuntime) (val : LCValue) : Except Fault LCRuntime :=
  match val.tag with
  | LC_TY_UNION_OBJECT => LCFreeUnionObject release rt val
  | LC_TY_REFCELL => LCFreeRefCell release rt val
  | LC_TY_LAMBDA => LCFreeLambda release rt val
  | LC_TY_CLASS_OBJECT => LCFreeClassObject rt val
  | LC_TY_ARRAY => LCFreeArray release rt val
  | LC_TY_MAP => lc_std_map_free release fuel rt val
  | LC_TY_STRING | LC_TY_SYMBOL | LC_TY_CLASS_OBJECT_META | LC_TY_BOXED_I64
  | LC_TY_BOXED_U64 | LC_TY_BOXED_F64 => .ok (lc_free_at rt val.ptr_val)
  | _ => .error Fault.abort

/-- Model of `LCRelease(rt, val)`.  The recursion through `LCFreeObject` is
bounded by `fuel` nested calls. -/
def LCRelease (pf : Platform) : Nat → LCRuntime → LCValue → Except Fault LCRuntime
  | 0, _, _ => .error Fault.out_of_fuel
  | fuel + 1, rt, val =>
    if val.tag.is_primitive then .ok rt
    else
      match rt.heap val.ptr_val with
      | none => .error Fault.undefined
      | some o =>
        match o.header with
        | none => .error Fault.undefined
        | some h =>
          if h.count = pf.LC_NO_GC then .ok rt
          else if h.count - 1 = 0 then
            LCFreeObject (fun r v => LCRelease pf fuel r v) fuel
              (heap_store rt val.ptr_val (o.set_count (h.count - 1))) val
          else .ok (heap_store rt val.ptr_val (o.set_count (h.count - 1)))

/-! ## Constructors -/

/-- Modelled from the spec: the structure sizes are fixed by `runtime.h`, which
is not among the sources ("a value is 16 bytes").  The model uses a size only
to tell a request for zero bytes from the others. -/
def sizeof_LCValue : Nat := 16

/-- Modelled from the spec: size of the fixed part of a heap object declared in
`runtime.h` (header and scalar fields); any positive number serves. -/
def sizeof_object : Nat := 32

/-- Model of `LCNewRefCell(rt, value)`.  The new block gets its address once it
is initialised; `LCRetain(value)` does not touch it. -/
def LCNewRefCell (pf : Platform) (rt : LCRuntime) (value : LCValue) :
    Except Fault (LCRuntime × LCValue) :=
  match LCRetain pf (lc_mallocz pf rt sizeof_object).1 value with
  | .error e => .error e
  | .ok rt1 =>
    let a := heap_new rt1
      (LCObject.refcell { header := { count := 1, class_id := 0 }, value := value })
    .ok (a.1, ⟨LC_TY_REFCELL, a.2⟩)

/-- Model of `LCNewUnionObject(rt, tag, size, args)`. -/
def LCNewUnionObject (pf : Platform) (rt : LCRuntime) (tag size : Int) (args : List LCValue) :
    Except Fault (LCRuntime × LCValue) :=
  match slots args size.toNat with
  | .error e => .error e
  | .ok vs =>
    match retain_all pf (lc_mallocz pf rt (sizeof_object + size.toNat * sizeof_LCValue)).1 vs with
    | .error e => .error e
    | .ok rt1 =>
      let a := heap_new rt1
        (LCObject.union_object
          { header := { count := 1, class_id := 0 }, tag := tag, size := size, value := vs })
      .ok (a.1, ⟨LC_TY_UNION_OBJECT, a.2⟩)

/-- Model of `LCNewLambda(rt, c_fun, argc, args)`. -/
def LCNewLambda (pf : Platform) (rt : LCRuntime) (c_fun : Nat) (argc : Nat)
    (args : List LCValue) : Except Fault (LCRuntime × LCValue) :=
  match slots args argc with
  | .error e => .error e
  | .ok vs =>
    match retain_all pf (lc_mallocz pf rt (sizeof_object + argc * sizeof_LCValue)).1 vs with
    | .error e => .error e
    | .ok rt1 =>
      let a := heap_new rt1
        (LCObject.lambda
          { header := { count := 1, class_id := 0 }, c_fun := c_fun,
            captured_values_size := argc, captured_values := vs })
      .ok (a.1, ⟨LC_TY_LAMBDA, a.2⟩)

/-- Model of `LCNewArrayWithCap(rt, cap)`: the runtime and the address of the
new `LCArray`.  The data block is zero-filled; it is `NULL` when the request is
for zero bytes and `malloc(0)` is `NULL`. -/
def LCNewArrayWithCap (pf : Platform) (rt : LCRuntime) (cap : Nat) : LCRuntime × Nat :=
  let m1 := lc_malloc pf rt sizeof_object
  let m2 := lc_mallocz pf m1.1 (sizeof_LCValue * cap)
  heap_new m2.1
    (LCObject.array
      { header := { count := 1, class_id := 0 }, len := 0, capacity := cap,
        data := if m2.2 then some (List.replicate cap LCValue.zero) else none })

/-- Model of `LCNewArray(rt)`. -/
def LCNewArray (pf : Platform) (rt : LCRuntime) : Except Fault (LCRuntime × LCValue) :=
  let a := LCNewArrayWithCap pf rt 8
  .ok (a.1, ⟨LC_TY_ARRAY, a.2⟩)

/-- Model of `LCNewArrayLen(rt, size)`. -/
def LCNewArrayLen (pf : Platform) (rt : LCRuntime) (size : Nat) :
    Except Fault (LCRuntime × LCValue) :=
  let cap := if size > 2 ∧ size % 2 ≠ 0 then size + 1 else size
  let a := LCNewArrayWithCap pf rt cap
  match a.1.heap a.2 with
  | some (LCObject.array arr) =>
    .ok (heap_store a.1 a.2 (LCObject.array { arr with len := size }), ⟨LC_TY_ARRAY, a.2⟩)
  | _ => .error Fault.undefined

/-- Model of `lc_std_map_new(rt, key_ty, init_size)`. -/
def lc_std_map_new (pf : Platform) (rt : LCRuntime) (key_ty : LCObjectType) (init_size : Int) :
    Except Fault (LCRuntime × LCValue) :=
  let is_small : Bool := decide (init_size ≥ 0 ∧ init_size < 8)
  let is_small : Bool := if key_ty = LC_TY_BOOL then true else is_small
  let a := heap_new (lc_mallocz pf rt sizeof_object).1
    (LCObject.map
      { header := { count := 1, class_id := 0 }, key_ty := key_ty, is_small := is_small,
        head := none, last := none, size := 0, buckets := none, bucket_size := 0 })
  .ok (a.1, ⟨LC_TY_MAP, a.2⟩)

/-- A call of one of the runtime constructors. -/
inductive NewCall
  | string (buf : List Nat)
  | array
  | array_len (size : Nat)
  | refcell (value : LCValue)
  | lambda (c_fun : Nat) (args : List LCValue)
  | union_object (tag : Int) (args : List LCValue)
  | map (key_ty : LCObjectType) (init_size : Int)

/-- Runs a constructor call. -/
def NewCall.run (pf : Platform) (rt : LCRuntime) : NewCall → Except Fault (LCRuntime × LCValue)
  | .string buf => LCNewStringFromCStringLen pf rt buf
  | .array => LCNewArray pf rt
  | .array_len size => LCNewArrayLen pf rt size
  | .refcell value => LCNewRefCell pf rt value
  | .lambda c_fun args => LCNewLambda pf rt c_fun args.length args
  | .union_object tag args => LCNewUnionObject pf rt tag args.length args
  | .map key_ty init_size => lc_std_map_new pf rt key_ty init_size

/-- The values a constructor call retains. -/
def NewCall.args : NewCall → List LCValue
  | .refcell value => [value]
  | .lambda _ args => args
  | .union_object _ args => args
  | _ => []

/-- The call `LCRetain(val)` made `n` times. -/
def retain_n (pf : Platform) : Nat → LCRuntime → LCValue → Except Fault LCRuntime
  | 0, rt, _ => .ok rt
  | n + 1, rt, val =>
    match LCRetain pf rt val with
    | .error e => .error e
    | .ok rt1 => retain_n pf n rt1 val

/-- The call `LCRelease(rt, val)` made `n` times. -/
def release_n (pf : Platform) (fuel : Nat) : Nat → LCRuntime → LCValue → Except Fault LCRuntime
  | 0, rt, _ => .ok rt
  | n + 1, rt, val =>
    match LCRelease pf fuel rt val with
    | .error e => .error e
    | .ok rt1 => release_n pf fuel n rt1 val

/-- A value that may be handed to the runtime in state `rt`: an immediate, or a
pointer to a live object that is immortal or has a count of at least 1. -/
def valid_value (pf : Platform) (rt : LCRuntime) (v : LCValue) : Prop :=
  v.tag.is_primitive = true ∨
  ∃ o h, rt.heap v.ptr_val = some o ∧ o.header = some h ∧
    (h.count = pf.LC_NO_GC ∨ 1 ≤ h.count)

/-- Adds `k` to the count of an object, unless it is immortal or has no header. -/
def bump_obj (pf : Platform) (o : LCObject) (k : Int) : LCObject :=
  match o.header with
  | none => o
  | some h => if h.count = pf.LC_NO_GC then o else o.set_count (h.count + k)

/-- Adds `d q` to the count of every mortal object, `q` being its address. -/
def bump (pf : Platform) (rt : LCRuntime) (d : Nat → Int) : LCRuntime :=
  { rt with heap := fun q => (rt.heap q).map (fun o => bump_obj pf o (d q)) }

/-- Counts `1` at the address a pointer value refers to. -/
def delta (v : LCValue) (q : Nat) : Int :=
  if v.tag.is_primitive = false ∧ v.ptr_val = q then 1 else 0

/-- Number of pointer values in `vs` that refer to address `q`. -/
def mult : List LCValue → Nat → Int
  | [], _ => 0
  | v :: vs, q => delta v q + mult vs q

/-- The life cycle the specification asks of a fresh object `v` built in state
`rt`, `rt1` being the state after the construction: `N` retains followed by
`N` releases leave it live after each of them, the release after those frees
it, and then the heap and the allocation counter are those of `rt`. -/
def frees_on_last_release (pf : Platform) (rt rt1 : LCRuntime) (v : LCValue) (N fuel : Nat) :
    Prop :=
  rt1.heap v.ptr_val ≠ none ∧
  ∃ rt2, retain_n pf N rt1 v = .ok rt2 ∧
    (∀ k, k ≤ N → ∃ rtk, release_n pf (fuel + 2) k rt2 v = .ok rtk ∧
      rtk.heap v.ptr_val ≠ none) ∧
    ∃ rt4, release_n pf (fuel + 2) (N + 1) rt2 v = .ok rt4 ∧
      rt4.heap v.ptr_val = none ∧ rt4.heap = rt.heap ∧ rt4.malloc_count = rt.malloc_count

/-! ## String operations -/

/-- Model of `copy_str16(dst, p, offset, len)`: the cells written to `dst`.  A
narrow source is zero-extended, which keeps the values of its cells. -/
def copy_str16 (p : LCString) (offset len : Nat) : List Nat :=
  if p.is_wide_char then (p.str.drop offset).take len
  else (p.str.drop offset).take len

/-- Model of `lc_std_string_concat(rt, this, arg_len, args)` for `args[0] = a0`
and `args[1] = a1`, whose payloads are dereferenced as `LCString` pointers.
The sum of the lengths is a `uint32_t` that is passed on as an `int`; the block
is written through without a test for `NULL`, and with a negative `int` length
the copies overrun the block. -/
def lc_std_string_concat (pf : Platform) (rt : LCRuntime) (a0 a1 : LCValue) :
    Except Fault (LCRuntime × LCValue) :=
  match rt.heap a0.ptr_val, rt.heap a1.ptr_val with
  | some (LCObject.string s1), some (LCObject.string s2) =>
    let is_wide_char := s1.is_wide_char || s2.is_wide_char
    let len : Int := toI32 (toU32 ((s1.length : Int) + (s2.length : Int)))
    if (lc_malloc pf rt (pf.sizeof_LCString + (len.toNat <<< is_wide_char.toNat) + 1
        - is_wide_char.toNat)).2 = false then .error Fault.undefined
    else if len < 0 then .error Fault.undefined
    else
      let p := lc_alloc_string_rt pf rt len is_wide_char
      let str :=
        if is_wide_char = false then s1.str.take s1.length ++ s2.str.take s2.length ++ [0]
        else copy_str16 s1 0 s1.length ++ copy_str16 s2 0 s2.length
      let a := heap_new p.1 (LCObject.string { p.2 with str := str })
      .ok (a.1, MK_STRING a.2)
  | _, _ => .error Fault.undefined

/-- Model of `lc_std_string_slice(rt, this, arg_len, args)` for
`args[0].int_val = begin` and `args[1].int_val = end`.  In the wide case the
pointer `result` is written through without having been assigned. -/
def lc_std_string_slice (pf : Platform) (rt : LCRuntime) (this : LCValue) (begin_ end_ : Int) :
    Except Fault (LCRuntime × LCValue) :=
  match rt.heap this.ptr_val with
  | some (LCObject.string s) =>
    let max_len : Int := toI32 s.length
    let b := min_int (max_int begin_ 0) max_len
    let e := min_int (max_int end_ 0) max_len
    let need_len := e - b
    if b ≥ e then
      let r := lc_new_string8 pf rt [] 0
      let a := heap_new r.1 (LCObject.string r.2)
      .ok (a.1, MK_STRING a.2)
    else if s.is_wide_char = false then
      let m := lc_mallocz pf rt (pf.sizeof_LCString + need_len.toNat + 1)
      let a := heap_new m.1
        (LCObject.string
          { header := { count := 1, class_id := 0 }, is_wide_char := false,
            length := need_len.toNat, hash := 0,
            str := (s.str.drop b.toNat).take need_len.toNat ++ [0] })
      .ok (a.1, MK_STRING a.2)
    else .error Fault.undefined
  | _ => .error Fault.undefined

/-- Model of `hash_string8(str, len, h)`. -/
def hash_string8 (str : List Nat) (len : Nat) (h : Nat) : Nat :=
  (str.take len).foldl (fun h c => (h * 263 + c) % 4294967296) h

/-- Model of `hash_string16(str, len, h)`. -/
def hash_string16 (str : List Nat) (len : Nat) (h : Nat) : Nat :=
  (str.take len).foldl (fun h c => (h * 263 + c) % 4294967296) h

/-- Model of `hash_int(i, seed)`. -/
def hash_int (i : Int) (seed : Nat) : Nat := toU32 ((seed : Int) * 263 + i)

/-- Model of `LCGetStringHash(rt, val)`: the runtime, in which the hash is
cached, and the returned hash. -/
def LCGetStringHash (rt : LCRuntime) (val : LCValue) : Except Fault (LCRuntime × Nat) :=
  match rt.heap val.ptr_val with
  | some (LCObject.string str) =>
    if str.hash ≠ 0 then .ok (rt, str.hash)
    else
      let h := if str.is_wide_char then hash_string16 str.str str.length rt.seed
        else hash_string8 str.str str.length rt.seed
      .ok (heap_store rt val.ptr_val (LCObject.string { str with hash := h }), h)
  | _ => .error Fault.undefined

/-- Strict lexicographic order on code-unit sequences: units are compared as
numbers and a proper initial segment is smaller. -/
def lex_lt : List Nat → List Nat → Bool
  | [], [] => false
  | [], _ :: _ => true
  | _ :: _, [] => false
  | a :: as, b :: bs => decide (a < b) || (decide (a = b) && lex_lt as bs)

/-- The hash the specification describes: the fold `h := h * 263 + u` modulo
`2^32` over the code units, starting from `seed`. -/
def hash_fold (units : List Nat) (seed : Nat) : Nat :=
  units.foldl (fun h u => (h * 263 + u) % 2 ^ 32) seed

/-- A narrow string with the given code units, count 1 and no cached hash. -/
def example_narrow (units : List Nat) : LCString :=
  { header := { count := 1, class_id := 0 }, is_wide_char := false, length := units.length,
    hash := 0, str := units ++ [0] }

/-- A wide string with the given code units, count 1 and no cached hash. -/
def example_wide (units : List Nat) : LCString :=
  { header := { count := 1, class_id := 0 }, is_wide_char := true, length := units.length,
    hash := 0, str := units }

/-- The value of a result, without the runtime state. -/
def result_value {α : Type} : Except Fault (LCRuntime × α) → Except Fault α
  | .ok r => .ok r.2
  | .error e => .error e

/-- The value of the variable `cmp_result` of `lc_std_string_cmp` at the label
`cmp`, for a comparison kind other than `LC_CMP_EQ`. -/
def string_cmp_result (s1 s2 : LCString) : Int :=
  let d := toI32 ((s1.length : Int) - (s2.length : Int))
  if d ≠ 0 then d
  else if s1.is_wide_char = false ∧ s2.is_wide_char = false then strcmp s1.str s2.str
  else lc_std_string_cmp_slow s1 s2

/-- Two successive calls of `LCNewStringFromCStringLen` on the byte sequences
`b1` and `b2` in `example_runtime`: the runtime and the two values. -/
def example_two_strings (b1 b2 : List Nat) : Except Fault (LCRuntime × LCValue × LCValue) :=
  match LCNewStringFromCStringLen example_platform example_runtime b1 with
  | .error e => .error e
  | .ok r1 =>
    match LCNewStringFromCStringLen example_platform r1.1 b2 with
    | .error e => .error e
    | .ok r2 => .ok (r2.1, r1.2, r2.2)

/-- The results of `LCGetStringHash(rt, a)` followed by `LCGetStringHash(rt, b)`. -/
def string_hash_pair (rt : LCRuntime) (a b : LCValue) : Except Fault (Nat × Nat) :=
  match LCGetStringHash rt a with
  | .error e => .error e
  | .ok r1 =>
    match LCGetStringHash r1.1 b with
    | .error e => .error e
    | .ok r2 => .ok (r1.2, r2.2)

/-! ## Symbol table -/

/-- The bytes read through `u.str8` of a string object: the 8-bit cells of a
narrow string, the bytes of the 16-bit cells (low byte first) of a wide one. -/
def LCString.str8 (s : LCString) : List Nat :=
  if s.is_wide_char then str16_bytes s.str else s.str

/-- The `while (1)` loop of `LCNewSymbolLen` over the chain of one slot, entered
at the bucket of index `i`: the value left in `result` and the index of the
bucket `bucket_at_index` points to when the loop is left.  `content` is the
array of bytes at the pointer `content`, which `strcmp` reads up to its
terminating zero. -/
def symbol_walk (rt : LCRuntime) (content : List Nat) :
    List LCValue → Nat → Except Fault (LCValue × Nat)
  | [], _ => .error Fault.undefined
  | c :: rest, i =>
    if c.tag = LC_TY_NULL then .ok (MK_NULL, i)
    else
      match rt.heap c.ptr_val with
      | some (LCObject.string s) =>
        if strcmp s.str8 content = 0 then .ok (c, i)
        else
          match rest with
          | [] => .ok (MK_NULL, i)
          | _ :: _ => symbol_walk rt content rest (i + 1)
      | _ => .error Fault.undefined

/-- Model of `LCNewSymbolLen(rt, content, len)`; `content` is the array of bytes
before the terminating zero of the C string.  The bucket that is linked after
the last one comes from the raw `malloc`, which `malloc_count` does not see. -/
def LCNewSymbolLen (pf : Platform) (rt : LCRuntime) (content : List Nat) (len : Nat) :
    Except Fault (LCRuntime × LCValue) :=
  if len > content.length then .error Fault.undefined
  else if rt.symbol_bucket_size = 0 then .error Fault.undefined
  else
    let symbol_hash := hash_string8 content len rt.seed
    let symbol_bucket_index := symbol_hash % rt.symbol_bucket_size
    match rt.symbol_buckets.get? symbol_bucket_index with
    | none => .error Fault.undefined
    | some chain =>
      match symbol_walk rt content chain 0 with
      | .error e => .error e
      | .ok w =>
        if w.1.tag = LC_TY_NULL then
          match LCNewStringFromCStringLen pf rt (content.take len) with
          | .error e => .error e
          | .ok r =>
            let result : LCValue := { r.2 with tag := LC_TY_SYMBOL }
            match r.1.heap result.ptr_val with
            | some (LCObject.string str) =>
              let rt1 := heap_store r.1 result.ptr_val
                (LCObject.string
                  { str with
                    header := { str.header with count := pf.LC_NO_GC },
                    hash := hash_string8 content len rt.seed })
              let chain1 :=
                if (chain.getD w.2 LCValue.zero).tag = LC_TY_NULL then chain.set w.2 result
                else chain ++ [result]
              .ok ({ rt1 with
                     symbol_buckets := rt.symbol_buckets.set symbol_bucket_index chain1,
                     symbol_len := (rt.symbol_len + 1) % 4294967296 }, result)
            | _ => .error Fault.undefined
        else .ok (rt, w.1)

/-- A runtime with an empty heap and the symbol table `LCNewRuntime` sets up:
128 zero-filled buckets and no symbol. -/
def example_symbol_runtime : LCRuntime :=
  { example_runtime with
    symbol_buckets := List.replicate 128 [LCValue.zero],
    symbol_bucket_size := 128,
    symbol_len := 0 }

/-- What two successive calls `LCNewSymbolLen(rt, content, len)` in
`example_symbol_runtime` give. -/
structure InternTwice where
  first : LCValue
  second : LCValue
  count : Option Int
  symbol_len_first : Nat
  symbol_len_second : Nat
  chain_first : Option (List LCValue)
  chain_second : Option (List LCValue)
  deriving DecidableEq, Repr

/-- Runs `LCNewSymbolLen` twice on the same bytes in `example_symbol_runtime` and
reads the two results, the count of the first symbol, `symbol_len` after each
call and the chain of the slot of the symbol after each call. -/
def example_intern_twice (content : List Nat) (len : Nat) : Except Fault InternTwice :=
  match LCNewSymbolLen example_platform example_symbol_runtime content len with
  | .error e => .error e
  | .ok r1 =>
    match LCNewSymbolLen example_platform r1.1 content len with
    | .error e => .error e
    | .ok r2 =>
      let slot := hash_string8 content len example_symbol_runtime.seed % 128
      .ok { first := r1.2, second := r2.2,
            count := ((r2.1.heap r1.2.ptr_val).bind LCObject.header).map (fun h => h.count),
            symbol_len_first := r1.1.symbol_len,
            symbol_len_second := r2.1.symbol_len,
            chain_first := r1.1.symbol_buckets.get? slot,
            chain_second := r2.1.symbol_buckets.get? slot }

/-! ## Map operations -/

/-- Modelled from the spec: the macro `MK_UNION(v)` is declared in `runtime.h`;
the immediate union value with tag `v`. -/
def MK_UNION (v : Int) : LCValue := ⟨LC_TY_UNION, v⟩

/-- Modelled from the spec: the macro `MK_I32(v)` is declared in `runtime.h`;
the immediate 32-bit integer `v`. -/
def MK_I32 (v : Int) : LCValue := ⟨LC_TY_I32, v⟩

/-- Size of an `LCMapTuple` (two pointers and two values) on a 64-bit platform;
the model uses a size only to tell a request for zero bytes from the others. -/
def sizeof_LCMapTuple : Nat := 2 * 8 + 2 * sizeof_LCValue

/-- Size of an `LCMapBucket` on a 64-bit platform. -/
def sizeof_LCMapBucket : Nat := 24

/-- The constant `LC_MAP_DEFAULT_BUCKET_SIZE`. -/
def LC_MAP_DEFAULT_BUCKET_SIZE : Nat := 16

/-- Model of `LCValueHash(rt, val)`. -/
def LCValueHash (rt : LCRuntime) (val : LCValue) : Except Fault (LCRuntime × Nat) :=
  match val.tag with
  | LC_TY_I32 | LC_TY_BOOL | LC_TY_CHAR => .ok (rt, hash_int val.int_val rt.seed)
  | LC_TY_STRING => LCGetStringHash rt val
  | _ => .ok (rt, 0)

/-- Model of `LCMapKeyEq(rt, a, b)`. -/
def LCMapKeyEq (rt : LCRuntime) (a b : LCValue) : Except Fault Bool :=
  match a.tag with
  | LC_TY_I32 | LC_TY_BOOL | LC_TY_CHAR => .ok (decide (a.int_val = b.int_val))
  | LC_TY_STRING =>
    match lc_std_string_cmp rt LC_CMP_EQ a b with
    | .error e => .error e
    | .ok r => .ok (decide (r.int_val ≠ 0))
  | _ => .ok false

/-- The small-mode loop of `lc_std_map_find_tuple`: `while (t != NULL)` over the
entry list through the `next` links, bounded by `fuel` iterations. -/
def map_find_list (rt : LCRuntime) (key : LCValue) :
    Nat → Option Nat → Except Fault (Option Nat)
  | _, none => .ok none
  | 0, some _ => .error Fault.out_of_fuel
  | fuel + 1, some t =>
    match rt.heap t with
    | some (LCObject.map_tuple tp) =>
      match LCMapKeyEq rt tp.key key with
      | .error e => .error e
      | .ok true => .ok (some t)
      | .ok false => map_find_list rt key fuel tp.next
    | _ => .error Fault.undefined

/-- The large-mode loop of `lc_std_map_find_tuple`: `while (b != NULL)` over the
chain of one slot, bounded by `fuel` iterations. -/
def map_find_chain (rt : LCRuntime) (key : LCValue) (hash : Nat) :
    Nat → Option Nat → Except Fault (Option Nat)
  | _, none => .ok none
  | 0, some _ => .error Fault.out_of_fuel
  | fuel + 1, some b =>
    match rt.heap b with
    | some (LCObject.map_bucket bk) =>
      if bk.hash = hash then
        match bk.data with
        | none => .error Fault.undefined
        | some d =>
          match rt.heap d with
          | some (LCObject.map_tuple tp) =>
            match LCMapKeyEq rt tp.key key with
            | .error e => .error e
            | .ok true => .ok (some d)
            | .ok false => map_find_chain rt key hash fuel bk.next
          | _ => .error Fault.undefined
      else map_find_chain rt key hash fuel bk.next
    | _ => .error Fault.undefined

/-- Model of `lc_std_map_find_tuple(rt, map, key)`: the runtime (hashing a
string key caches its hash) and the address of the tuple found, `none` being
`NULL`.  A `bucket_size` of zero makes the remainder undefined. -/
def lc_std_map_find_tuple (fuel : Nat) (rt : LCRuntime) (map : LCMap) (key : LCValue) :
    Except Fault (LCRuntime × Option Nat) :=
  if map.is_small = false then
    match LCValueHash rt key with
    | .error e => .error e
    | .ok h =>
      if toU32 map.bucket_size = 0 then .error Fault.undefined
      else
        match map.buckets with
        | none => .error Fault.undefined
        | some bs =>
          match bs.get? (h.2 % toU32 map.bucket_size) with
          | none => .error Fault.undefined
          | some b =>
            match map_find_chain h.1 key h.2 fuel b with
            | .error e => .error e
            | .ok r => .ok (h.1, r)
  else
    match map_find_list rt key fuel map.head with
    | .error e => .error e
    | .ok r => .ok (rt, r)

/-- The loop `while (t != map->last)` of `lc_std_map_construct_hashtable`,
bounded by `fuel` iterations: the runtime and the bucket array.  When `t` is
`NULL` and `map->last` is not, the body reads `t->next`. -/
def map_construct_loop (pf : Platform) (last : Option Nat) :
    Nat → LCRuntime → List (Option Nat) → Option Nat →
    Except Fault (LCRuntime × List (Option Nat))
  | 0, rt, buckets, t => if t = last then .ok (rt, buckets) else .error Fault.out_of_fuel
  | fuel + 1, rt, buckets, t =>
    if t = last then .ok (rt, buckets)
    else
      match t with
      | none => .error Fault.undefined
      | some a =>
        match rt.heap a with
        | some (LCObject.map_tuple tp) =>
          match LCValueHash rt tp.key with
          | .error e => .error e
          | .ok h =>
            let bucket_index := h.2 % LC_MAP_DEFAULT_BUCKET_SIZE
            let b := heap_new (lc_malloc pf h.1 sizeof_LCMapBucket).1
              (LCObject.map_bucket
                { hash := h.2, next := buckets.getD bucket_index none, data := some a })
            map_construct_loop pf last fuel b.1 (buckets.set bucket_index (some b.2)) tp.next
        | _ => .error Fault.undefined

/-- Model of `lc_std_map_construct_hashtable(rt, map)` for the map at address
`mp`. -/
def lc_std_map_construct_hashtable (pf : Platform) (fuel : Nat) (rt : LCRuntime) (mp : Nat) :
    Except Fault LCRuntime :=
  match rt.heap mp with
  | some (LCObject.map map) =>
    match map_construct_loop pf map.last fuel
        (lc_mallocz pf rt (8 * LC_MAP_DEFAULT_BUCKET_SIZE)).1
        (List.replicate LC_MAP_DEFAULT_BUCKET_SIZE none) map.head with
    | .error e => .error e
    | .ok r =>
      match r.1.heap mp with
      | some (LCObject.map map1) =>
        .ok (heap_store r.1 mp
          (LCObject.map
            { map1 with
              bucket_size := LC_MAP_DEFAULT_BUCKET_SIZE, buckets := some r.2,
              is_small := false }))
      | _ => .error Fault.undefined
  | _ => .error Fault.undefined

/-- The large-mode part of the insertion of `lc_std_map_set`: the bucket of the
new tuple `t` is put in front of the chain of the slot of its hash. -/
def map_set_bucket (pf : Platform) (rt : LCRuntime) (mp : Nat) (key : LCValue) (t : Nat) :
    Except Fault LCRuntime :=
  match LCValueHash rt key with
  | .error e => .error e
  | .ok h =>
    match h.1.heap mp with
    | some (LCObject.map map) =>
      if toU32 map.bucket_size = 0 then .error Fault.undefined
      else
        match map.buckets with
        | none => .error Fault.undefined
        | some bs =>
          let index := h.2 % toU32 map.bucket_size
          if index ≥ bs.length then .error Fault.undefined
          else
            let b := heap_new (lc_malloc pf h.1 sizeof_LCMapBucket).1
              (LCObject.map_bucket { hash := h.2, next := bs.getD index none, data := some t })
            .ok (heap_store b.1 mp
              (LCObject.map { map with buckets := some (bs.set index (some b.2)) }))
    | _ => .error Fault.undefined

/-- Model of `lc_std_map_set(rt, this, argc, args)` for `args[0] = key` and
`args[1] = value`.  When the key is found, the function releases
`tuple->value` through the local `tuple`, which has not been assigned.  The
insertion writes `prev` and `next` of the new tuple, `map->last` and
`map->head`, and no field of the former last tuple. -/
def lc_std_map_set (pf : Platform) (fuel : Nat) (rt : LCRuntime) (this key value : LCValue) :
    Except Fault (LCRuntime × LCValue) :=
  match rt.heap this.ptr_val with
  | some (LCObject.map map) =>
    match lc_std_map_find_tuple fuel rt map key with
    | .error e => .error e
    | .ok (_, some _) => .error Fault.undefined
    | .ok (rt1, none) =>
      match LCRetain pf rt1 key with
      | .error e => .error e
      | .ok rt2 =>
        match LCRetain pf rt2 value with
        | .error e => .error e
        | .ok rt3 =>
          match rt3.heap this.ptr_val with
          | some (LCObject.map map1) =>
            let t := heap_new (lc_malloc pf rt3 sizeof_LCMapTuple).1
              (LCObject.map_tuple
                { prev := map1.last, next := none, key := key, value := value })
            let map2 : LCMap :=
              { map1 with
                size := map1.size + 1, last := some t.2,
                head := if map1.head = none then some t.2 else map1.head }
            let rt4 := heap_store t.1 this.ptr_val (LCObject.map map2)
            if map2.is_small = false then
              match map_set_bucket pf rt4 this.ptr_val key t.2 with
              | .error e => .error e
              | .ok rt5 => .ok (rt5, MK_NULL)
            else if map2.size ≥ 8 ∧ (map2.key_ty = LC_TY_STRING ∨ map2.key_ty = LC_TY_I32
                ∨ map2.key_ty = LC_TY_CHAR) then
              match lc_std_map_construct_hashtable pf fuel rt4 this.ptr_val with
              | .error e => .error e
              | .ok rt5 => .ok (rt5, MK_NULL)
            else .ok (rt4, MK_NULL)
          | _ => .error Fault.undefined
  | _ => .error Fault.undefined

/-- Model of `lc_std_map_get(rt, this, argc, args)` for `args[0] = key`. -/
def lc_std_map_get (pf : Platform) (fuel : Nat) (rt : LCRuntime) (this key : LCValue) :
    Except Fault (LCRuntime × LCValue) :=
  match rt.heap this.ptr_val with
  | some (LCObject.map map) =>
    match lc_std_map_find_tuple fuel rt map key with
    | .error e => .error e
    | .ok (rt1, none) => .ok (rt1, MK_UNION 1)
    | .ok (rt1, some t) =>
      match rt1.heap t with
      | some (LCObject.map_tuple tp) => LCNewUnionObject pf rt1 0 1 [tp.value]
      | _ => .error Fault.undefined
  | _ => .error Fault.undefined

/-- The unlinking of the tuple `tp` from the entry list of the map at address
`mp`, as written in `lc_std_map_remove`: `t->prev->next = t->next` or
`map->head = t->next`, then `t->next->prev = t->prev` or `map->last = t->prev`. -/
def map_unlink (rt : LCRuntime) (mp : Nat) (tp : LCMapTuple) : Except Fault LCRuntime :=
  let r1 : Except Fault LCRuntime :=
    match tp.prev with
    | some p =>
      match rt.heap p with
      | some (LCObject.map_tuple pt) =>
        .ok (heap_store rt p (LCObject.map_tuple { pt with next := tp.next }))
      | _ => .error Fault.undefined
    | none =>
      match rt.heap mp with
      | some (LCObject.map map) =>
        .ok (heap_store rt mp (LCObject.map { map with head := tp.next }))
      | _ => .error Fault.undefined
  match r1 with
  | .error e => .error e
  | .ok rt1 =>
    match tp.next with
    | some n =>
      match rt1.heap n with
      | some (LCObject.map_tuple nt) =>
        .ok (heap_store rt1 n (LCObject.map_tuple { nt with prev := tp.prev }))
      | _ => .error Fault.undefined
    | none =>
      match rt1.heap mp with
      | some (LCObject.map map) =>
        .ok (heap_store rt1 mp (LCObject.map { map with last := tp.prev }))
      | _ => .error Fault.undefined

/-- The small-mode loop of `lc_std_map_remove`: `while (t != NULL)` over the
entry list, bounded by `fuel` iterations; `release` is `LCRelease`. -/
def map_remove_list (pf : Platform) (release : LCRuntime → LCValue → Except Fault LCRuntime)
    (rt : LCRuntime) (mp : Nat) (key : LCValue) :
    Nat → Option Nat → Except Fault (LCRuntime × LCValue)
  | _, none => .ok (rt, MK_UNION 1)
  | 0, some _ => .error Fault.out_of_fuel
  | fuel + 1, some t =>
    match rt.heap t with
    | some (LCObject.map_tuple tp) =>
      match LCMapKeyEq rt tp.key key with
      | .error e => .error e
      | .ok false => map_remove_list pf release rt mp key fuel tp.next
      | .ok true =>
        match LCNewUnionObject pf rt 0 1 [tp.value] with
        | .error e => .error e
        | .ok r =>
          match map_unlink r.1 mp tp with
          | .error e => .error e
          | .ok rt2 =>
            match lc_free_map_tuple release rt2 t with
            | .error e => .error e
            | .ok rt3 =>
              match rt3.heap mp with
              | some (LCObject.map map) =>
                .ok (heap_store rt3 mp (LCObject.map { map with size := map.size + 1 }), r.2)
              | _ => .error Fault.undefined
    | _ => .error Fault.undefined

/-- Model of `lc_std_map_remove_complex(rt, map, key)` for the map at address
`mp`.  The loop over the chain tests the buckets as the loop of
`lc_std_map_find_tuple` does; at the bucket of the key it reads `t->value`
through the local `t`, which is assigned on the next line only. -/
def lc_std_map_remove_complex (fuel : Nat) (rt : LCRuntime) (mp : Nat) (key : LCValue) :
    Except Fault (LCRuntime × LCValue) :=
  match LCValueHash rt key with
  | .error e => .error e
  | .ok h =>
    match h.1.heap mp with
    | some (LCObject.map map) =>
      if toU32 map.bucket_size = 0 then .error Fault.undefined
      else
        match map.buckets with
        | none => .error Fault.undefined
        | some bs =>
          match bs.get? (h.2 % toU32 map.bucket_size) with
          | none => .error Fault.undefined
          | some b =>
            match map_find_chain h.1 key h.2 fuel b with
            | .error e => .error e
            | .ok (some _) => .error Fault.undefined
            | .ok none => .ok (h.1, MK_UNION 1)
    | _ => .error Fault.undefined

/-- Model of `lc_std_map_remove(rt, this, argc, args)` for `args[0] = key`. -/
def lc_std_map_remove (pf : Platform) (fuel : Nat) (rt : LCRuntime) (this key : LCValue) :
    Except Fault (LCRuntime × LCValue) :=
  match rt.heap this.ptr_val with
  | some (LCObject.map map) =>
    if map.is_small then
      map_remove_list pf (LCRelease pf fuel) rt this.ptr_val key fuel map.head
    else lc_std_map_remove_complex fuel rt this.ptr_val key
  | _ => .error Fault.undefined

/-! ### Observations on a map, used to state the map properties -/

/-- The keys met when the entry list is walked from the tuple `t` through the
`next` links, at most `fuel` of them. -/
def map_walk_keys (rt : LCRuntime) : Nat → Option Nat → Except Fault (List LCValue)
  | _, none => .ok []
  | 0, some _ => .error Fault.out_of_fuel
  | fuel + 1, some t =>
    match rt.heap t with
    | some (LCObject.map_tuple tp) =>
      match map_walk_keys rt fuel tp.next with
      | .error e => .error e
      | .ok ks => .ok (tp.key :: ks)
    | _ => .error Fault.undefined

/-- The keys of the map `this` in the order of the walk from `map->head`. -/
def map_keys (fuel : Nat) (rt : LCRuntime) (this : LCValue) : Except Fault (List LCValue) :=
  match rt.heap this.ptr_val with
  | some (LCObject.map map) => map_walk_keys rt fuel map.head
  | _ => .error Fault.undefined

/-- The key of the tuple `map->last` points to, `none` when it is `NULL`. -/
def map_last_key (rt : LCRuntime) (this : LCValue) : Except Fault (Option LCValue) :=
  match rt.heap this.ptr_val with
  | some (LCObject.map map) =>
    match map.last with
    | none => .ok none
    | some t =>
      match rt.heap t with
      | some (LCObject.map_tuple tp) => .ok (some tp.key)
      | _ => .error Fault.undefined
  | _ => .error Fault.undefined

/-- The payload of the union object a value points to: what `Some(v)` holds. -/
def union_payload (rt : LCRuntime) (v : LCValue) : Option (Int × List LCValue) :=
  match rt.heap v.ptr_val with
  | some (LCObject.union_object u) =>
    if v.tag = LC_TY_UNION_OBJECT then some (u.tag, u.value) else none
  | _ => none

/-- A sequence of `lc_std_map_set` calls on the map `this`, one for each listed
pair of key and value. -/
def map_set_all (pf : Platform) (fuel : Nat) (this : LCValue) :
    LCRuntime → List (LCValue × LCValue) → Except Fault LCRuntime
  | rt, [] => .ok rt
  | rt, kv :: rest =>
    match lc_std_map_set pf fuel rt this kv.1 kv.2 with
    | .error e => .error e
    | .ok r => map_set_all pf fuel this r.1 rest

/-- A fresh map with integer keys made by `lc_std_map_new(rt, LC_TY_I32, 0)` in
`example_runtime`, after the listed `lc_std_map_set` calls: the runtime and the
map value. -/
def example_map (sets : List (LCValue × LCValue)) : Except Fault (LCRuntime × LCValue) :=
  match lc_std_map_new example_platform example_runtime LC_TY_I32 0 with
  | .error e => .error e
  | .ok r =>
    match map_set_all example_platform 64 r.2 r.1 sets with
    | .error e => .error e
    | .ok rt => .ok (rt, r.2)

/-- The value returned by `lc_std_map_get` for `key` on `example_map sets`,
together with the payload of the union object when it is one. -/
def example_map_get (sets : List (LCValue × LCValue)) (key : LCValue) :
    Except Fault (LCValue × Option (Int × List LCValue)) :=
  match example_map sets with
  | .error e => .error e
  | .ok m =>
    match lc_std_map_get example_platform 64 m.1 m.2 key with
    | .error e => .error e
    | .ok r => .ok (r.2, union_payload r.1 r.2)

/-- The value returned by `lc_std_map_remove` for `key` on `example_map sets`,
together with the payload of the union object when it is one. -/
def example_map_remove (sets : List (LCValue × LCValue)) (key : LCValue) :
    Except Fault (LCValue × Option (Int × List LCValue)) :=
  match example_map sets with
  | .error e => .error e
  | .ok m =>
    match lc_std_map_remove example_platform 64 m.1 m.2 key with
    | .error e => .error e
    | .ok r => .ok (r.2, union_payload r.1 r.2)

/-- The keys of `example_map sets` in the order of the walk from `map->head`,
and the key of the tuple at `map->last`. -/
def example_map_keys (sets : List (LCValue × LCValue)) :
    Except Fault (List LCValue × Option LCValue) :=
  match example_map sets with
  | .error e => .error e
  | .ok m =>
    match map_keys 64 m.1 m.2, map_last_key m.1 m.2 with
    | .ok ks, .ok l => .ok (ks, l)
    | .error e, _ => .error e
    | _, .error e => .error e

/-- A small map with integer keys at address 1 whose `n` entries, the tuples at
the addresses `2 .. n + 1` with the keys `1 .. n` and the values `101 .. 100 + n`,
are linked in both directions. -/
def example_linked_map (n : Nat) : LCRuntime :=
  example_heap
    (LCObject.map
        { header := { count := 1, class_id := 0 }, key_ty := LC_TY_I32, is_small := true,
          head := if n = 0 then none else some 2,
          last := if n = 0 then none else some (n + 1),
          size := n, buckets := none, bucket_size := 0 }
      :: (List.range n).map (fun i =>
        LCObject.map_tuple
          { prev := if i = 0 then none else some (i + 1),
            next := if i + 1 = n then none else some (i + 3),
            key := MK_I32 (i + 1), value := MK_I32 (101 + i) }))

/-- The value returned by `lc_std_map_get` for `key` after
`lc_std_map_construct_hashtable` on `example_linked_map n`, together with the
payload of the union object when it is one. -/
def example_promoted_get (n : Nat) (key : LCValue) :
    Except Fault (LCValue × Option (Int × List LCValue)) :=
  match lc_std_map_construct_hashtable example_platform 64 (example_linked_map n) 1 with
  | .error e => .error e
  | .ok rt =>
    match lc_std_map_get example_platform 64 rt ⟨LC_TY_MAP, 1⟩ key with
    | .error e => .error e
    | .ok r => .ok (r.2, union_payload r.1 r.2)

/-- The listed pairs `(1, 101), (2, 102), ...`, `n` of them, as integer values. -/
def example_pairs (n : Nat) : List (LCValue × LCValue) :=
  (List.range n).map (fun i => (MK_I32 (i + 1), MK_I32 (101 + i)))

/-! ## Arrays -/

/-- Model of `lc_realloc(rt, arr->data, cap * sizeof(LCValue))` on the data block
of an array: the block of `cap` slots that keeps the slots of the old block.
The slots beyond the old block are not initialised by `realloc`; they are
listed as zero values and lie at or above `len` when they are allocated.  A
request for zero bytes leaves no slot to write to. -/
def array_realloc (pf : Platform) (data : Option (List LCValue)) (cap : Nat) :
    Option (List LCValue) :=
  if cap = 0 then (if pf.malloc_zero_null then none else some [])
  else
    match data with
    | none => some (List.replicate cap LCValue.zero)
    | some d => some (d.take cap ++ List.replicate (cap - d.length) LCValue.zero)

/-- Model of `lc_std_array_push(rt, this, arg_len, args)` for `args[0] = value`.
`capacity` is a `uint32_t`; `lc_realloc` does not count allocations.  The
store to `arr->data[arr->len]` is undefined when the block has no such slot. -/
def lc_std_array_push (pf : Platform) (rt : LCRuntime) (this value : LCValue) :
    Except Fault (LCRuntime × LCValue) :=
  match rt.heap this.ptr_val with
  | some (LCObject.array arr) =>
    let grown : LCArray :=
      if arr.len = arr.capacity then
        { arr with
          capacity := arr.capacity * 2 % 4294967296,
          data := array_realloc pf arr.data (arr.capacity * 2 % 4294967296) }
      else arr
    match LCRetain pf (heap_store rt this.ptr_val (LCObject.array grown)) value with
    | .error e => .error e
    | .ok rt1 =>
      match rt1.heap this.ptr_val with
      | some (LCObject.array arr1) =>
        match arr1.data with
        | none => .error Fault.undefined
        | some d =>
          if arr1.len < d.length then
            .ok (heap_store rt1 this.ptr_val
              (LCObject.array
                { arr1 with
                  len := (arr1.len + 1) % 4294967296,
                  data := some (d.set arr1.len value) }),
              MK_NULL)
          else .error Fault.undefined
      | _ => .error Fault.undefined
  | _ => .error Fault.undefined

/-- Model of `LCArrayGetValue(rt, this, index)`.  The test `index >= arr->len`
compares the `int` index with the `uint32_t` length as unsigned numbers; the
function writes nothing. -/
def LCArrayGetValue (rt : LCRuntime) (this : LCValue) (index : Int) : Except Fault LCValue :=
  match rt.heap this.ptr_val with
  | some (LCObject.array arr) =>
    if toU32 index ≥ arr.len then .error Fault.abort
    else if index < 0 then .error Fault.undefined
    else
      match arr.data with
      | none => .error Fault.undefined
      | some d =>
        match d.get? index.toNat with
        | none => .error Fault.undefined
        | some v => .ok v
  | _ => .error Fault.undefined

/-- Model of `LCArraySetValue(rt, this, argc, args)` for `args[0].int_val = index`
and `args[1] = value`. -/
def LCArraySetValue (pf : Platform) (fuel : Nat) (rt : LCRuntime) (this : LCValue)
    (index : Int) (value : LCValue) : Except Fault LCRuntime :=
  match rt.heap this.ptr_val with
  | some (LCObject.array arr) =>
    if toU32 index ≥ arr.len then .error Fault.abort
    else if index < 0 then .error Fault.undefined
    else
      match arr.data with
      | none => .error Fault.undefined
      | some d =>
        match d.get? index.toNat with
        | none => .error Fault.undefined
        | some old =>
          match LCRelease pf fuel rt old with
          | .error e => .error e
          | .ok rt1 =>
            match LCRetain pf rt1 value with
            | .error e => .error e
            | .ok rt2 =>
              match rt2.heap this.ptr_val with
              | some (LCObject.array arr2) =>
                match arr2.data with
                | none => .error Fault.undefined
                | some d2 =>
                  if index.toNat < d2.length then
                    .ok (heap_store rt2 this.ptr_val
                      (LCObject.array { arr2 with data := some (d2.set index.toNat value) }))
                  else .error Fault.undefined
              | _ => .error Fault.undefined
  | _ => .error Fault.undefined

/-- The invariant of an array object: the data block has `capacity` slots,
`len` is at most `capacity`, and `capacity` is at least 1 once `len` is. -/
def LCArray.well_formed (a : LCArray) : Prop :=
  (∃ d, a.data = some d ∧ d.length = a.capacity) ∧ a.len ≤ a.capacity ∧
    (1 ≤ a.len → 1 ≤ a.capacity)

/-! ## Ref-cells, lambdas and union objects -/

/-- Model of `LCRefCellSetValue(rt, cell, value)`. -/
def LCRefCellSetValue (pf : Platform) (fuel : Nat) (rt : LCRuntime) (cell value : LCValue) :
    Except Fault LCRuntime :=
  match rt.heap cell.ptr_val with
  | some (LCObject.refcell ref) =>
    match LCRelease pf fuel rt ref.value with
    | .error e => .error e
    | .ok rt1 =>
      match LCRetain pf rt1 value with
      | .error e => .error e
      | .ok rt2 =>
        match rt2.heap cell.ptr_val with
        | some (LCObject.refcell ref2) =>
          .ok (heap_store rt2 cell.ptr_val (LCObject.refcell { ref2 with value := value }))
        | _ => .error Fault.undefined
  | _ => .error Fault.undefined

/-- Model of `LCRefCellGetValue(cell)`; the function writes nothing. -/
def LCRefCellGetValue (rt : LCRuntime) (cell : LCValue) : Except Fault LCValue :=
  match rt.heap cell.ptr_val with
  | some (LCObject.refcell ref) => .ok ref.value
  | _ => .error Fault.undefined

/-- The slot `captured_values[index]` of a lambda; an index outside the block
is undefined. -/
def lambda_slot (rt : LCRuntime) (lambda_val : LCValue) (index : Int) : Except Fault LCValue :=
  match rt.heap lambda_val.ptr_val with
  | some (LCObject.lambda l) =>
    if index < 0 then .error Fault.undefined
    else
      match l.captured_values.get? index.toNat with
      | none => .error Fault.undefined
      | some v => .ok v
  | _ => .error Fault.undefined

/-- Model of `LCLambdaGetRefValue(rt, lambda_val, index)`. -/
def LCLambdaGetRefValue (rt : LCRuntime) (lambda_val : LCValue) (index : Int) :
    Except Fault LCValue :=
  match lambda_slot rt lambda_val index with
  | .error e => .error e
  | .ok ret => if ret.tag ≠ LC_TY_REFCELL then .error Fault.abort else LCRefCellGetValue rt ret

/-- Model of `LCLambdaSetRefValue(rt, lambda_val, index, value)`. -/
def LCLambdaSetRefValue (pf : Platform) (fuel : Nat) (rt : LCRuntime) (lambda_val : LCValue)
    (index : Int) (value : LCValue) : Except Fault LCRuntime :=
  match lambda_slot rt lambda_val index with
  | .error e => .error e
  | .ok ref =>
    if ref.tag ≠ LC_TY_REFCELL then .error Fault.abort
    else LCRefCellSetValue pf fuel rt ref value

/-- Model of `LCUnionObjectGet(rt, this, index)`. -/
def LCUnionObjectGet (pf : Platform) (rt : LCRuntime) (this : LCValue) (index : Int) :
    Except Fault (LCRuntime × LCValue) :=
  match rt.heap this.ptr_val with
  | some (LCObject.union_object obj) =>
    if index < 0 then .error Fault.undefined
    else
      match obj.value.get? index.toNat with
      | none => .error Fault.undefined
      | some result =>
        match LCRetain pf rt result with
        | .error e => .error e
        | .ok rt1 => .ok (rt1, result)
  | _ => .error Fault.undefined

/-- Model of `LCUnionGetType(val)`. -/
def LCUnionGetType (rt : LCRuntime) (val : LCValue) : Except Fault Int :=
  if val.tag = LC_TY_UNION then .ok val.int_val
  else
    match rt.heap val.ptr_val with
    | some (LCObject.union_object union_obj) => .ok union_obj.tag
    | _ => .error Fault.undefined

/-! ## Class registry and runtime set-up -/

/-- The static descriptor `Object_def`. -/
def Object_def : LCClassDef := { name := "Object", finalizer := none }

/-- The static table `Object_method_def`, whose single entry is named
`"toString"`; the number stands for the function `LC_Object_toString`. -/
def Object_method_def : List LCClassMethodDef :=
  [{ name := [0x74, 0x6F, 0x53, 0x74, 0x72, 0x69, 0x6E, 0x67], flags := 0, fun_ptr := 0 }]

/-- Model of `LCDefineClass(rt, cls_def)`: the runtime and the id returned.
`cls_meta_size` and `cls_meta_cap` are `uint32_t`; `lc_realloc` keeps the slots
of the old block that fit in the new one, and the store to the slot `id` is
undefined when the block has no such slot. -/
def LCDefineClass (rt : LCRuntime) (cls_def : LCClassDef) : Except Fault (LCRuntime × Nat) :=
  let id := rt.cls_meta_data.length
  let size := (id + 1) % 4294967296
  let cap := if size ≥ rt.cls_meta_cap then rt.cls_meta_cap * 2 % 4294967296
    else rt.cls_meta_cap
  if id < cap then
    .ok ({ rt with
           cls_meta_cap := cap,
           cls_meta_data := rt.cls_meta_data ++ [{ cls_def := cls_def }] }, id)
  else .error Fault.undefined

/-- Model of `LCDefineClassMethod(rt, cls_id, cls_method, size)` for the table
`cls_method` of `size` entries. -/
def LCDefineClassMethod (rt : LCRuntime) (cls_id : Nat) (cls_method : List LCClassMethodDef) :
    Except Fault LCRuntime :=
  match rt.cls_meta_data.get? cls_id with
  | none => .error Fault.undefined
  | some m =>
    .ok { rt with
          cls_meta_data := rt.cls_meta_data.set cls_id { m with cls_method := some cls_method } }

/-- The constant `LC_INIT_SYMBOL_BUCKET_SIZE`. -/
def LC_INIT_SYMBOL_BUCKET_SIZE : Nat := 128

/-- The constant `LC_INIT_CLASS_META_CAP`. -/
def LC_INIT_CLASS_META_CAP : Nat := 8

/-- Model of `LCNewRuntime()`; `seed` is the value `time(NULL)` returns.  The
runtime block comes from the raw `malloc` and the counter starts at 1; the
symbol buckets, the two blocks of `init_i64_pool` and the class vector are
counted blocks.  The boxes of the integer pool lie inside the block
`i64_pool_space`, which is counted and not listed in `heap`. -/
def LCNewRuntime (seed : Nat) : Except Fault LCRuntime :=
  let runtime : LCRuntime :=
    { malloc_count := 1 + 1 + 2 + 1, seed := seed % 4294967296, heap := fun _ => none,
      next := 1,
      cls_meta_data := [], finalized := [],
      symbol_buckets := List.replicate LC_INIT_SYMBOL_BUCKET_SIZE [LCValue.zero],
      symbol_bucket_size := LC_INIT_SYMBOL_BUCKET_SIZE, symbol_len := 0,
      cls_meta_cap := LC_INIT_CLASS_META_CAP }
  match LCDefineClass runtime Object_def with
  | .error e => .error e
  | .ok r => LCDefineClassMethod r.1 r.2 Object_method_def

/-- A sequence of `LCDefineClass` calls, one for each listed descriptor: the
runtime and the ids returned, in the order of the calls. -/
def define_classes : LCRuntime → List LCClassDef → Except Fault (LCRuntime × List Nat)
  | rt, [] => .ok (rt, [])
  | rt, d :: ds =>
    match LCDefineClass rt d with
    | .error e => .error e
    | .ok r =>
      match define_classes r.1 ds with
      | .error e => .error e
      | .ok r2 => .ok (r2.1, r.2 :: r2.2)

/-! ### Further observations on maps -/

/-- The field `map->size` of the map `this`. -/
def map_size (rt : LCRuntime) (this : LCValue) : Except Fault Int :=
  match rt.heap this.ptr_val with
  | some (LCObject.map map) => .ok map.size
  | _ => .error Fault.undefined

/-- A fresh map made by `lc_std_map_new(rt, key_ty, init_size)` in
`example_runtime`, after the listed `lc_std_map_set` calls: the runtime and the
map value. -/
def example_typed_map (key_ty : LCObjectType) (init_size : Int)
    (sets : List (LCValue × LCValue)) : Except Fault (LCRuntime × LCValue) :=
  match lc_std_map_new example_platform example_runtime key_ty init_size with
  | .error e => .error e
  | .ok r =>
    match map_set_all example_platform 64 r.2 r.1 sets with
    | .error e => .error e
    | .ok rt => .ok (rt, r.2)

/-- What is read from a map: `map->size`, the keys met on the walk from
`map->head`, and the value `lc_std_map_get` returns for a key together with
the payload of the union object when it is one. -/
structure MapReading where
  size : Int
  keys : List LCValue
  got : LCValue
  payload : Option (Int × List LCValue)
  deriving DecidableEq, Repr

/-- Reads the map `this` in the state `rt` and looks `key` up. -/
def read_map (rt : LCRuntime) (this key : LCValue) : Except Fault MapReading :=
  match map_size rt this, map_keys 64 rt this, lc_std_map_get example_platform 64 rt this key with
  | .ok n, .ok ks, .ok r =>
    .ok { size := n, keys := ks, got := r.2, payload := union_payload r.1 r.2 }
  | .error e, _, _ => .error e
  | _, .error e, _ => .error e
  | _, _, .error e => .error e

/-- The reading of `example_typed_map key_ty init_size sets` for `key`. -/
def example_read_map (key_ty : LCObjectType) (init_size : Int)
    (sets : List (LCValue × LCValue)) (key : LCValue) : Except Fault MapReading :=
  match example_typed_map key_ty init_size sets with
  | .error e => .error e
  | .ok m => read_map m.1 m.2 key

/-- The reading for `key` after `lc_std_map_remove(removed)` on
`example_typed_map key_ty init_size sets`. -/
def example_read_after_remove (key_ty : LCObjectType) (init_size : Int)
    (sets : List (LCValue × LCValue)) (removed key : LCValue) : Except Fault MapReading :=
  match example_typed_map key_ty init_size sets with
  | .error e => .error e
  | .ok m =>
    match lc_std_map_remove example_platform 64 m.1 m.2 removed with
    | .error e => .error e
    | .ok r => read_map r.1 m.2 key

/-- An array object with the two elements 5 and 6 in a block of two slots. -/
def example_array : LCArray :=
  { header := { count := 1, class_id := 0 }, len := 2, capacity := 2,
    data := some [MK_I32 5, MK_I32 6] }

/-- A sequence of `lc_std_array_push` calls on the array `this`, one for each
listed value. -/
def array_push_all (pf : Platform) (this : LCValue) :
    LCRuntime → List LCValue → Except Fault LCRuntime
  | rt, [] => .ok rt
  | rt, v :: vs =>
    match lc_std_array_push pf rt this v with
    | .error e => .error e
    | .ok r => array_push_all pf this r.1 vs

/-- The array object made by `LCNewArrayLen(rt, n)` in `example_runtime`, after
the listed values have been pushed. -/
def example_array_after (pf : Platform) (n : Nat) (vs : List LCValue) : Except Fault LCArray :=
  match LCNewArrayLen pf example_runtime n with
  | .error e => .error e
  | .ok r =>
    match array_push_all pf r.2 r.1 vs with
    | .error e => .error e
    | .ok rt =>
      match rt.heap r.2.ptr_val with
      | some (LCObject.array a) => .ok a
      | _ => .error Fault.undefined

/-- The array object made by `LCNewArrayWithCap(rt, cap)` in `example_runtime`,
after the listed values have been pushed. -/
def example_array_with_cap_after (pf : Platform) (cap : Nat) (vs : List LCValue) :
    Except Fault LCArray :=
  match array_push_all pf ⟨LC_TY_ARRAY, (LCNewArrayWithCap pf example_runtime cap).2⟩
      (LCNewArrayWithCap pf example_runtime cap).1 vs with
  | .error e => .error e
  | .ok rt =>
    match rt.heap (LCNewArrayWithCap pf example_runtime cap).2 with
    | some (LCObject.array a) => .ok a
    | _ => .error Fault.undefined

/-- The platform of the examples with a `malloc` that returns `NULL` for a
request of zero bytes. -/
def example_platform_null : Platform := { example_platform with malloc_zero_null := true }

/-- A heap for the ref-cell examples: the cell at address 1 holds the string at
address 2, whose count is 2; address 3 holds another string with count 1. -/
def example_refcell_heap : LCRuntime :=
  example_heap
    [LCObject.refcell { header := { count := 1, class_id := 0 }, value := MK_STRING 2 },
     LCObject.string { example_narrow_a with header := { count := 2, class_id := 0 } },
     LCObject.string example_narrow_a]

/-- The scenario of a ref-cell shared by two lambdas: `LCNewRefCell(v0)` gives
`r`, two calls of `LCNewLambda` with the single captured value `r` give `A` and
`B`, `LCLambdaSetRefValue(A, 0, v)` sets the cell, `LCLambdaGetRefValue(B, 0)`
reads it, and `A`, `B` and `r` are released.  The result is the value read and
the final runtime. -/
def lambda_ref_scenario (pf : Platform) (fuel : Nat) (rt : LCRuntime) (v0 v : LCValue)
    (fA fB : Nat) : Except Fault (LCValue × LCRuntime) :=
  match LCNewRefCell pf rt v0 with
  | .error e => .error e
  | .ok r =>
    match LCNewLambda pf r.1 fA 1 [r.2] with
    | .error e => .error e
    | .ok la =>
      match LCNewLambda pf la.1 fB 1 [r.2] with
      | .error e => .error e
      | .ok lb =>
        match LCLambdaSetRefValue pf fuel lb.1 la.2 0 v with
        | .error e => .error e
        | .ok s =>
          match LCLambdaGetRefValue s lb.2 0 with
          | .error e => .error e
          | .ok got =>
            match LCRelease pf fuel s la.2 with
            | .error e => .error e
            | .ok s1 =>
              match LCRelease pf fuel s1 lb.2 with
              | .error e => .error e
              | .ok s2 =>
                match LCRelease pf fuel s2 r.2 with
                | .error e => .error e
                | .ok s3 => .ok (got, s3)

/-! ## Method dispatch by name -/

/-- The loop of `LCInvokeStr` over the entries of a method table from index `i`
on: the function pointer of the first entry whose name `strcmp` finds equal to
`content`, `none` when the loop runs to the end of the table. -/
def invoke_scan (content : List Nat) : List LCClassMethodDef → Option Nat
  | [] => none
  | method_def :: rest =>
    if strcmp method_def.name content = 0 then some method_def.fun_ptr
    else invoke_scan content rest

/-- The part of `LCInvokeStr(rt, this, content, arg_len, args)` before the call
through the function pointer: the pointer that is called.  A primitive `this`
and a table without an entry for `content` end in `abort()`; a class id without
a slot in the class vector and a slot whose method table was never assigned
are reads of memory that was not written. -/
def invoke_lookup (rt : LCRuntime) (this : LCValue) (content : List Nat) :
    Except Fault Nat :=
  if this.tag.is_primitive then .error Fault.abort
  else
    match rt.heap this.ptr_val with
    | none => .error Fault.undefined
    | some obj =>
      match obj.header with
      | none => .error Fault.undefined
      | some header =>
        match rt.cls_meta_data.get? header.class_id with
        | none => .error Fault.undefined
        | some cls_meta =>
          match cls_meta.cls_method with
          | none => .error Fault.undefined
          | some table =>
            match invoke_scan content table with
            | some fun_ptr => .ok fun_ptr
            | none => .error Fault.abort

/-- Model of `LCInvokeStr(rt, this, content, arg_len, args)`.  The methods are
code outside the runtime: `call f` is the function the pointer `f` refers to,
applied to `(rt, this, arg_len, args)` with `arg_len` the length of `args`. -/
def LCInvokeStr
    (call : Nat → LCRuntime → LCValue → List LCValue → Except Fault (LCRuntime × LCValue))
    (rt : LCRuntime) (this : LCValue) (content : List Nat) (args : List LCValue) :
    Except Fault (LCRuntime × LCValue) :=
  match invoke_lookup rt this content with
  | .error e => .error e
  | .ok fun_ptr => call fun_ptr rt this args

/-- A runtime for the dispatch examples: class 0 is `Object`, class 1 has the
methods `"a"` (function 10), `"b"` (function 11) and again `"a"` (function 12);
address 1 holds an object of class 1. -/
def example_dispatch_runtime : LCRuntime :=
  { example_runtime with
    heap := fun q => if q = 1 then some (LCObject.class_object { count := 1, class_id := 1 })
      else none,
    next := 2,
    cls_meta_data :=
      [{ cls_def := Object_def, cls_method := some Object_method_def },
       { cls_def := { name := "P", finalizer := none },
         cls_method := some [{ name := [0x61], flags := 0, fun_ptr := 10 },
                             { name := [0x62], flags := 0, fun_ptr := 11 },
                             { name := [0x61], flags := 0, fun_ptr := 12 }] }] }

/-- A method body for the dispatch examples: it returns the number of the
function as an `i32` and leaves the runtime as it is. -/
def example_call (f : Nat) (rt : LCRuntime) (_this : LCValue) (_args : List LCValue) :
    Except Fault (LCRuntime × LCValue) :=
  .ok (rt, ⟨LC_TY_I32, f⟩)

/-- A heap for the examples on immortal objects: address 1 holds the symbol
`"a"`, whose count is `LC_NO_GC` of `example_platform`. -/
def example_symbol_heap : LCRuntime :=
  example_heap [LCObject.string { example_narrow_a with header := { count := -1, class_id := 0 } }]

/-! ## In-place arithmetic -/

/-- The operations `LCArithmeticType` that `LCUpdateValue` switches on. -/
inductive LCArithmeticType
  | LC_ARTH_PLUS
  | LC_ARTH_MINUS
  | LC_ARTH_MULT
  | LC_ARTH_DIV
  | LC_ARTH_MOD
  | LC_ARTH_LSHIFT
  | LC_ARTH_RSHIFT
  | LC_ARTH_BIT_OR
  | LC_ARTH_BIT_XOR
  | LC_ARTH_BIT_AND
  deriving DecidableEq, Repr

open LCArithmeticType

/-- An expression of type `int` (32 bits) whose mathematical value is `x`: the
value when it is representable; an overflow of signed arithmetic has no defined
result. -/
def int_result (x : Int) : Except Fault Int :=
  if -2147483648 ≤ x ∧ x ≤ 2147483647 then .ok x else .error Fault.undefined

/-- The `switch (op)` of the `LC_TY_I32` branch of `LCUpdateValue`: the value the
compound assignment stores in `this->int_val`, which holds `a`, for the right
operand `b`.  No case tests its operands.  `/` and `%` truncate towards zero and
have no defined result for a zero divisor or an unrepresentable quotient; a
shift has none for a count outside `0 .. 31`, and `<<` none for a negative left
operand or an unrepresentable product; `>>` of a negative value is taken as the
arithmetic shift; the bitwise operators act on the two's-complement patterns. -/
def update_i32 (op : LCArithmeticType) (a b : Int) : Except Fault Int :=
  match op with
  | LC_ARTH_PLUS => int_result (a + b)
  | LC_ARTH_MINUS => int_result (a - b)
  | LC_ARTH_MULT => int_result (a * b)
  | LC_ARTH_DIV => if b = 0 then .error Fault.undefined else int_result (a.tdiv b)
  | LC_ARTH_MOD =>
    if b = 0 then .error Fault.undefined
    else
      match int_result (a.tdiv b) with
      | .error e => .error e
      | .ok _ => .ok (a.tmod b)
  | LC_ARTH_LSHIFT =>
    if b < 0 ∨ 32 ≤ b then .error Fault.undefined
    else if a < 0 then .error Fault.undefined
    else int_result (a * 2 ^ b.toNat)
  | LC_ARTH_RSHIFT =>
    if b < 0 ∨ 32 ≤ b then .error Fault.undefined
    else .ok (a / 2 ^ b.toNat)
  | LC_ARTH_BIT_OR => .ok (toI32 (toU32 a ||| toU32 b))
  | LC_ARTH_BIT_XOR => .ok (toI32 (toU32 a ^^^ toU32 b))
  | LC_ARTH_BIT_AND => .ok (toI32 (toU32 a &&& toU32 b))

/-- The `switch (op)` of the `LC_TY_F32` branch of `LCUpdateValue` on the bit
patterns `a` and `b` of `this->float_val` and `right.float_val`; `fop` is the
`float` arithmetic of the platform.  The `default:` label ends in `abort()`. -/
def update_f32 (fop : LCArithmeticType → Int → Int → Int) (op : LCArithmeticType)
    (a b : Int) : Except Fault Int :=
  match op with
  | LC_ARTH_PLUS | LC_ARTH_MINUS | LC_ARTH_MULT | LC_ARTH_DIV => .ok (fop op a b)
  | _ => .error Fault.abort

/-- The two branches of `LCUpdateValue` on the value `this` points to: the value
it holds afterwards.  A value that is neither an `i32` nor an `f32` is left as
it is. -/
def update_value (fop : LCArithmeticType → Int → Int → Int) (op : LCArithmeticType)
    (this right : LCValue) : Except Fault LCValue :=
  if this.tag = LC_TY_I32 then
    match update_i32 op this.int_val right.int_val with
    | .error e => .error e
    | .ok r => .ok { this with payload := r }
  else if this.tag = LC_TY_F32 then
    match update_f32 fop op this.payload right.payload with
    | .error e => .error e
    | .ok r => .ok { this with payload := r }
  else .ok this

/-- Model of `LCUpdateValue(op, left, right)`: the runtime and the value `*left`
after the call.  When `*left` is a ref-cell the value updated is the field
`value` of the cell, in the heap, and `*left` is not written. -/
def LCUpdateValue (fop : LCArithmeticType → Int → Int → Int) (rt : LCRuntime)
    (op : LCArithmeticType) (left right : LCValue) : Except Fault (LCRuntime × LCValue) :=
  if left.tag = LC_TY_REFCELL then
    match rt.heap left.ptr_val with
    | some (LCObject.refcell ref_cell) =>
      match update_value fop op ref_cell.value right with
      | .error e => .error e
      | .ok v =>
        .ok (heap_store rt left.ptr_val (LCObject.refcell { ref_cell with value := v }), left)
    | _ => .error Fault.undefined
  else
    match update_value fop op left right with
    | .error e => .error e
    | .ok v => .ok (rt, v)

/-- The 32-bit two's-complement result of `a op b`, as the specification words
it: the mathematical result reduced to 32 bits. -/
def i32_wrapped (op : LCArithmeticType) (a b : Int) : Int :=
  match op with
  | LC_ARTH_PLUS => toI32 (a + b)
  | LC_ARTH_MINUS => toI32 (a - b)
  | LC_ARTH_MULT => toI32 (a * b)
  | LC_ARTH_DIV => toI32 (a.tdiv b)
  | LC_ARTH_MOD => toI32 (a.tmod b)
  | LC_ARTH_LSHIFT => toI32 (a * 2 ^ b.toNat)
  | LC_ARTH_RSHIFT => toI32 (a / 2 ^ b.toNat)
  | LC_ARTH_BIT_OR => toI32 (toU32 a ||| toU32 b)
  | LC_ARTH_BIT_XOR => toI32 (toU32 a ^^^ toU32 b)
  | LC_ARTH_BIT_AND => toI32 (toU32 a &&& toU32 b)

/-- The operands on which the arithmetic of `int` is defined for `op`: the sum,
difference or product is representable in 32 bits; the divisor is not zero and
the division is not `INT_MIN / -1`; the shift count is in `0 .. 31` and, for
`<<`, the left operand is not negative and the product is representable. -/
def i32_defined (op : LCArithmeticType) (a b : Int) : Prop :=
  match op with
  | LC_ARTH_PLUS => -2147483648 ≤ a + b ∧ a + b ≤ 2147483647
  | LC_ARTH_MINUS => -2147483648 ≤ a - b ∧ a - b ≤ 2147483647
  | LC_ARTH_MULT => -2147483648 ≤ a * b ∧ a * b ≤ 2147483647
  | LC_ARTH_DIV | LC_ARTH_MOD => b ≠ 0 ∧ ¬ (a = -2147483648 ∧ b = -1)
  | LC_ARTH_LSHIFT => 0 ≤ b ∧ b ≤ 31 ∧ 0 ≤ a ∧ a * 2 ^ b.toNat ≤ 2147483647
  | LC_ARTH_RSHIFT => 0 ≤ b ∧ b ≤ 31
  | _ => True

instance (op : LCArithmeticType) (a b : Int) : Decidable (i32_defined op a b) := by
  cases op <;> unfold i32_defined <;> infer_instance

/-- The `float` arithmetic used in the examples; they do not depend on it. -/
def example_f32 (_op : LCArithmeticType) (a _b : Int) : Int := a

/-- Modelled from the spec: the macro `MK_F32(v)` is declared in `runtime.h`; the
payload stands for the bit pattern of the `float`. -/
def MK_F32 (bits : Int) : LCValue := ⟨LC_TY_F32, bits⟩

/-- A heap for the update examples: the ref-cell at address 1 holds the `i32`
value 6. -/
def example_i32_cell_heap : LCRuntime :=
  example_heap [LCObject.refcell { header := { count := 1, class_id := 0 }, value := MK_I32 6 }]

/-- What `LCUpdateValue` leaves behind in the examples: the value `*left` and the
value of the ref-cell at address 1, if there is one. -/
def update_reading (r : Except Fault (LCRuntime × LCValue)) :
    Except Fault (LCValue × Option LCValue) :=
  match r with
  | .error e => .error e
  | .ok p =>
    .ok (p.2, match p.1.heap 1 with
      | some (LCObject.refcell c) => some c.value
      | _ => none)

/-! ## Runtime teardown -/

/-- Model of `LCNewSymbol(rt, content)`; `strlen(content)` is the number of
bytes before the first zero byte. -/
def LCNewSymbol (pf : Platform) (rt : LCRuntime) (content : List Nat) :
    Except Fault (LCRuntime × LCValue) :=
  LCNewSymbolLen pf rt content (content.takeWhile (fun b => decide (b ≠ 0))).length

/-- The `while (bucket_ptr != NULL)` loop of `LCFreeRuntime` over a list of
linked buckets, given by their `content` values: each is handed to
`LCFreeObject`.  The buckets themselves are not freed. -/
def free_symbol_chain (pf : Platform) (fuel : Nat) :
    LCRuntime → List LCValue → Except Fault LCRuntime
  | rt, [] => .ok rt
  | rt, content :: rest =>
    match LCFreeObject (fun r v => LCRelease pf fuel r v) fuel rt content with
    | .error e => .error e
    | .ok rt1 => free_symbol_chain pf fuel rt1 rest

/-- The `for` loop of `LCFreeRuntime` over the slots of the bucket array.  The
walk of a slot starts at `symbol_buckets[i].next`, the bucket linked after the
head bucket; the `content` of the head bucket, the first element of the chain,
is not visited. -/
def free_symbol_slots (pf : Platform) (fuel : Nat) :
    LCRuntime → List (List LCValue) → Except Fault LCRuntime
  | rt, [] => .ok rt
  | rt, chain :: slots =>
    match free_symbol_chain pf fuel rt chain.tail with
    | .error e => .error e
    | .ok rt1 => free_symbol_slots pf fuel rt1 slots

/-- Model of `LCFreeRuntime(rt)`: the runtime as it is when `malloc_count` is
tested, and whether the test reports a leak and the process exits with status
1.  After the slots, the bucket array, the two blocks of the integer pool and
the class vector are freed. -/
def LCFreeRuntime (pf : Platform) (fuel : Nat) (rt : LCRuntime) :
    Except Fault (LCRuntime × Bool) :=
  if rt.symbol_buckets.length < rt.symbol_bucket_size then .error Fault.undefined
  else
    match free_symbol_slots pf fuel rt (rt.symbol_buckets.take rt.symbol_bucket_size) with
    | .error e => .error e
    | .ok rt1 =>
      let rt2 := lc_free rt1
      let rt3 := lc_free (lc_free rt2)
      let rt4 := lc_free rt3
      .ok (rt4, decide (rt4.malloc_count ≠ 1))

/-- A sequence of `LCNewSymbol` calls, one for each listed C string: the runtime
and the symbols returned, in the order of the calls. -/
def intern_all (pf : Platform) : LCRuntime → List (List Nat) →
    Except Fault (LCRuntime × List LCValue)
  | rt, [] => .ok (rt, [])
  | rt, c :: cs =>
    match LCNewSymbol pf rt c with
    | .error e => .error e
    | .ok r =>
      match intern_all pf r.1 cs with
      | .error e => .error e
      | .ok r2 => .ok (r2.1, r.2 :: r2.2)

/-- What is read from a run `LCNewRuntime`, `LCNewSymbol` on each listed string,
`LCFreeRuntime`: `malloc_count` before the teardown and at its test, whether the
teardown reports a leak, and for each symbol whether its string is still
allocated at the test. -/
structure Teardown where
  count_before : Int
  count_at_test : Int
  leak_reported : Bool
  still_allocated : List Bool
  deriving DecidableEq, Repr

/-- Runs `LCNewRuntime` with the seed 7, interns the listed strings and tears the
runtime down, on `example_platform`. -/
def example_teardown (symbols : List (List Nat)) : Except Fault Teardown :=
  match LCNewRuntime 7 with
  | .error e => .error e
  | .ok rt0 =>
    match intern_all example_platform rt0 symbols with
    | .error e => .error e
    | .ok r =>
      match LCFreeRuntime example_platform 8 r.1 with
      | .error e => .error e
      | .ok t =>
        .ok { count_before := r.1.malloc_count, count_at_test := t.1.malloc_count,
              leak_reported := t.2,
              still_allocated := r.2.map (fun v => (t.1.heap v.ptr_val).isSome) }

/-! ## Further examples -/

/-- The results of `lc_std_string_cmp` with `LC_CMP_EQ` and with `LC_CMP_NEQ` on
the string objects `s1` and `s2`. -/
def example_eq_neq (s1 s2 : LCString) : Except Fault (LCValue × LCValue) :=
  let rt := example_heap [LCObject.string s1, LCObject.string s2]
  match lc_std_string_cmp rt LC_CMP_EQ (MK_STRING 1) (MK_STRING 2),
    lc_std_string_cmp rt LC_CMP_NEQ (MK_STRING 1) (MK_STRING 2) with
  | .ok eq, .ok neq => .ok (eq, neq)
  | .error e, _ => .error e
  | _, .error e => .error e

/-- Builds two strings with `LCNewStringFromCStringLen` from the byte sequences
`b1` and `b2`, calls `LCGetStringHash` on each, and compares them with
`LC_CMP_EQ` and with `LC_CMP_NEQ`: the two hashes and the two results. -/
def example_eq_neq_after_hash (b1 b2 : List Nat) :
    Except Fault ((Nat × Nat) × LCValue × LCValue) :=
  match example_two_strings b1 b2 with
  | .error e => .error e
  | .ok r =>
    match LCGetStringHash r.1 r.2.1 with
    | .error e => .error e
    | .ok h1 =>
      match LCGetStringHash h1.1 r.2.2 with
      | .error e => .error e
      | .ok h2 =>
        match lc_std_string_cmp h2.1 LC_CMP_EQ r.2.1 r.2.2,
          lc_std_string_cmp h2.1 LC_CMP_NEQ r.2.1 r.2.2 with
        | .ok eq, .ok neq => .ok ((h1.2, h2.2), eq, neq)
        | .error e, _ => .error e
        | _, .error e => .error e

/-- The fields `is_small`, `buckets != NULL` and `bucket_size` of the map made by
`lc_std_map_new(rt, key_ty, init_size)` in `example_runtime`. -/
def example_new_map_mode (key_ty : LCObjectType) (init_size : Int) :
    Except Fault (Bool × Bool × Int) :=
  match lc_std_map_new example_platform example_runtime key_ty init_size with
  | .error e => .error e
  | .ok r =>
    match r.1.heap r.2.ptr_val with
    | some (LCObject.map map) => .ok (map.is_small, map.buckets.isSome, map.bucket_size)
    | _ => .error Fault.undefined

/-- The call `LCRefCellSetValue(rt, cell, LCRefCellGetValue(cell))`. -/
def refcell_set_own_value (pf : Platform) (fuel : Nat) (rt : LCRuntime) (cell : LCValue) :
    Except Fault LCRuntime :=
  match LCRefCellGetValue rt cell with
  | .error e => .error e
  | .ok value => LCRefCellSetValue pf fuel rt cell value

/-- What is read from a ref-cell after a call: the value it holds, the count of
the object that value points to, if it is allocated, and `malloc_count`. -/
def cell_reading (r : Except Fault LCRuntime) (cell : LCValue) :
    Except Fault (LCValue × Option Int × Int) :=
  match r with
  | .error e => .error e
  | .ok rt =>
    match rt.heap cell.ptr_val with
    | some (LCObject.refcell ref) =>
      .ok (ref.value,
        match rt.heap ref.value.ptr_val with
        | some o => o.header.map (fun h => h.count)
        | none => none,
        rt.malloc_count)
    | _ => .error Fault.undefined

/-- A heap in which the ref-cell at address 1 holds the only reference to the
string at address 2, whose count is 1. -/
def example_cell_last_ref_heap : LCRuntime :=
  example_heap
    [LCObject.refcell { header := { count := 1, class_id := 0 }, value := MK_STRING 2 },
     LCObject.string example_narrow_a]

/-! ## Proofs.  Every definition of the development is above this line. -/

/-! ## Bit-level helper lemmas -/

theorem and_3f (x : Nat) : x &&& 0x3f = x % 64 :=
  Nat.and_pow_two_sub_one_eq_mod x 6

theorem lor_80 : ∀ x, x < 64 → x ||| 0x80 = x + 0x80 := by decide

theorem lor_c0 : ∀ x, x < 32 → x ||| 0xc0 = x + 0xc0 := by decide

theorem lor_e0 : ∀ x, x < 16 → x ||| 0xe0 = x + 0xe0 := by decide

theorem lor_f0 : ∀ x, x < 8 → x ||| 0xf0 = x + 0xf0 := by decide

theorem lor_f8 : ∀ x, x < 4 → x ||| 0xf8 = x + 0xf8 := by decide

theorem lor_fc : ∀ x, x < 2 → x ||| 0xfc = x + 0xfc := by decide

/-- A continuation byte written by the encoder: `((x) & 0x3f) | 0x80`. -/
theorem cont_byte (x : Nat) : u8 ((x &&& 0x3f) ||| 0x80) = x % 64 + 0x80 := by
  rw [and_3f, lor_80 _ (Nat.mod_lt _ (by norm_num))]
  unfold u8
  omega

theorem shl6_lor (c b : Nat) : (c <<< 6) ||| (b &&& 0x3f) = c * 64 + b % 64 := by
  rw [and_3f, Nat.shiftLeft_eq]
  have h := Nat.mul_add_lt_is_or (show b % 64 < 2 ^ 6 from Nat.mod_lt _ (by norm_num)) c
  rw [show c * 2 ^ 6 = 2 ^ 6 * c from Nat.mul_comm _ _, ← h]
  norm_num
  ring

/-- C9: `unicode_to_utf8` returns the length fixed by the first bound that `c`
is below (1 to 6, or 0 from `2^31` on), writes exactly that many bytes, the
first with the prefix belonging to that length and every later one of the form
`10xxxxxx`; from `2^31` on it returns 0 and writes nothing. -/
theorem unicode_to_utf8_spec (c : Nat) :
    (unicode_to_utf8 c).1 = utf8_expected_len c ∧
    (unicode_to_utf8 c).2.length = utf8_expected_len c ∧
    (utf8_expected_len c = 0 ∨
      utf8_lead_ok (utf8_expected_len c) ((unicode_to_utf8 c).2.headD 0) = true) ∧
    (unicode_to_utf8 c).2.tail.all utf8_is_cont = true ∧
    (c < 0x80000000 ∨ unicode_to_utf8 c = (0, [])) := by
  unfold unicode_to_utf8 utf8_expected_len
  split_ifs with h1 h2 h3 h4 h5 h6
  · refine ⟨rfl, rfl, Or.inr ?_, rfl, Or.inl (by omega)⟩
    simp [utf8_lead_ok, u8]; omega
  · refine ⟨rfl, rfl, Or.inr ?_, ?_, Or.inl (by omega)⟩
    · simp only [List.headD_cons]
      rw [Nat.shiftRight_eq_div_pow, lor_c0 _ (by omega)]
      simp [utf8_lead_ok, u8]; omega
    · simp [cont_byte, utf8_is_cont]; omega
  · refine ⟨rfl, rfl, Or.inr ?_, ?_, Or.inl (by omega)⟩
    · simp only [List.headD_cons]
      rw [Nat.shiftRight_eq_div_pow, lor_e0 _ (by omega)]
      simp [utf8_lead_ok, u8]; omega
    · simp [cont_byte, utf8_is_cont]; omega
  · refine ⟨rfl, rfl, Or.inr ?_, ?_, Or.inl (by omega)⟩
    · simp only [List.headD_cons]
      rw [Nat.shiftRight_eq_div_pow, lor_f0 _ (by omega)]
      simp [utf8_lead_ok, u8]; omega
    · simp [cont_byte, utf8_is_cont]; omega
  · refine ⟨rfl, rfl, Or.inr ?_, ?_, Or.inl (by omega)⟩
    · simp only [List.headD_cons]
      rw [Nat.shiftRight_eq_div_pow, lor_f8 _ (by omega)]
      simp [utf8_lead_ok, u8]; omega
    · simp [cont_byte, utf8_is_cont]; omega
  · refine ⟨rfl, rfl, Or.inr ?_, ?_, Or.inl (by omega)⟩
    · simp only [List.headD_cons]
      rw [Nat.shiftRight_eq_div_pow, lor_fc _ (by omega)]
      simp [utf8_lead_ok, u8]; omega
    · simp [cont_byte, utf8_is_cont]; omega
  · exact ⟨rfl, rfl, Or.inl rfl, rfl, Or.inr rfl⟩


theorem utf8_cont_loop_none (buf : List Nat) (n q c : Nat) :
    utf8_cont_loop buf n q c = none ↔
      ∃ i, i < n ∧ utf8_is_cont (byteAt buf (q + i)) = false := by
  induction n generalizing q c with
  | zero => simp [utf8_cont_loop]
  | succ n ih =>
    unfold utf8_cont_loop
    by_cases hb : byteAt buf q < 0x80 ∨ byteAt buf q ≥ 0xc0
    · simp only [hb, if_true, true_iff]
      refine ⟨0, by omega, ?_⟩
      simp [utf8_is_cont]; omega
    · simp only [hb, if_false, ih]
      constructor
      · rintro ⟨i, hi, h⟩
        exact ⟨i + 1, by omega, by rw [← h]; congr 2; omega⟩
      · rintro ⟨i, hi, h⟩
        cases i with
        | zero =>
          exfalso; apply hb
          simp [utf8_is_cont] at h; omega
        | succ i => exact ⟨i, by omega, by rw [← h]; congr 2; omega⟩

theorem utf8_cont_loop_some (buf : List Nat) (n q c : Nat)
    (h : ∀ i, i < n → utf8_is_cont (byteAt buf (q + i)) = true) :
    utf8_cont_loop buf n q c = some (utf8_payload buf n q c) := by
  induction n generalizing q c with
  | zero => simp [utf8_cont_loop, utf8_payload]
  | succ n ih =>
    unfold utf8_cont_loop utf8_payload
    have h0 := h 0 (by omega)
    simp [utf8_is_cont] at h0
    have hb : ¬ (byteAt buf q < 0x80 ∨ byteAt buf q ≥ 0xc0) := by omega
    simp only [hb, if_false, shl6_lor]
    exact ih _ _ (fun i hi => by have := h (i + 1) (by omega); rw [← this]; congr 2; omega)


set_option maxRecDepth 100000 in
theorem utf8_switch_table : ∀ b0, b0 < 256 → 0xc0 ≤ b0 → b0 ≤ 0xfd →
    utf8_switch b0 = some (utf8_announced b0) ∧ 1 ≤ utf8_announced b0 ∧
    utf8_announced b0 ≤ 5 ∧
    b0 &&& utf8_first_code_mask.getD (utf8_announced b0 - 1) 0
      = b0 % 2 ^ utf8_lead_bits (utf8_announced b0) := by
  decide

/-- C10: for a buffer of bytes with at least `max_len >= 1` bytes from offset
`p`, `unicode_from_utf8` returns `-1` and leaves `*pp` unchanged exactly when
the lead byte is a stray continuation byte, `0xFE` or `0xFF`, announces more
continuation bytes than `max_len - 1`, is followed by a byte outside
`[0x80, 0xC0)` among the announced ones, or assembles a value below the minimum
for its length; otherwise it returns the assembled (non-negative) code point
and sets `*pp` to `p + l + 1`. -/
theorem unicode_from_utf8_spec (buf : List Nat) (p : Nat) (max_len : Int) (pp : Nat)
    (hbytes : ∀ b ∈ buf, b < 256) (hmax : 1 ≤ max_len)
    (hlen : (p : Int) + max_len ≤ buf.length) :
    (((unicode_from_utf8 buf p max_len pp).1 = -1 ∧
        (unicode_from_utf8 buf p max_len pp).2 = pp) ↔ utf8_rejected buf p max_len) ∧
    (utf8_rejected buf p max_len ∨
      unicode_from_utf8 buf p max_len pp
        = (((utf8_assembled buf p (utf8_announced (byteAt buf p)) : Nat) : Int),
            p + utf8_announced (byteAt buf p) + 1)) := by
  have hp : p < buf.length := by omega
  have hb0 : byteAt buf p < 256 := by
    unfold byteAt
    rw [List.getD_eq_getElem _ _ hp]
    exact hbytes _ (List.getElem_mem hp)
  by_cases h1 : byteAt buf p < 0x80
  · have hann : utf8_announced (byteAt buf p) = 0 := by
      unfold utf8_announced; rw [if_pos (by omega)]
    have hrej : ¬ utf8_rejected buf p max_len := by
      unfold utf8_rejected
      simp only [hann]
      rintro (h | h | h | h | ⟨i, hi, _⟩ | ⟨h, _⟩) <;> simp at * <;> omega
    have hres : unicode_from_utf8 buf p max_len pp = (((byteAt buf p : Nat) : Int), p + 1) := by
      unfold unicode_from_utf8; simp only [h1, if_true]
    have hasm : utf8_assembled buf p 0 = byteAt buf p := by
      simp [utf8_assembled, utf8_payload, utf8_lead_bits]; omega
    refine ⟨⟨fun h => ?_, fun h => absurd h hrej⟩, Or.inr ?_⟩
    · rw [hres] at h; simp at h
    · rw [hres, hann, hasm]
  by_cases h2 : byteAt buf p < 0xc0
  · have hrej : utf8_rejected buf p max_len := Or.inl ⟨by omega, h2⟩
    have hres : unicode_from_utf8 buf p max_len pp = (-1, pp) := by
      unfold unicode_from_utf8
      have : utf8_switch (byteAt buf p) = none := by
        unfold utf8_switch; repeat rw [if_neg (by omega)]
      simp only [h1, if_false, this]
    exact ⟨⟨fun _ => hrej, fun _ => by rw [hres]; exact ⟨rfl, rfl⟩⟩, Or.inl hrej⟩
  by_cases h3 : 0xfe ≤ byteAt buf p
  · have hrej : utf8_rejected buf p max_len := by
      unfold utf8_rejected
      simp only
      omega
    have hres : unicode_from_utf8 buf p max_len pp = (-1, pp) := by
      unfold unicode_from_utf8
      have : utf8_switch (byteAt buf p) = none := by
        unfold utf8_switch; repeat rw [if_neg (by omega)]
      simp only [h1, if_false, this]
    exact ⟨⟨fun _ => hrej, fun _ => by rw [hres]; exact ⟨rfl, rfl⟩⟩, Or.inl hrej⟩
  obtain ⟨hsw, hl1, hl5, hmask⟩ :=
    utf8_switch_table (byteAt buf p) hb0 (by omega) (by omega)
  generalize hl : utf8_announced (byteAt buf p) = l at hsw hl1 hl5 hmask
  have hrej_iff : utf8_rejected buf p max_len ↔
      ((l : Int) > max_len - 1 ∨
        (∃ i, i < l ∧ utf8_is_cont (byteAt buf (p + 1 + i)) = false) ∨
        utf8_assembled buf p l < utf8_min_code.getD (l - 1) 0) := by
    unfold utf8_rejected
    simp only [hl]
    constructor
    · rintro (h | h | h | h | h | ⟨_, h⟩)
      · omega
      · omega
      · omega
      · exact Or.inl h
      · exact Or.inr (Or.inl h)
      · exact Or.inr (Or.inr h)
    · rintro (h | h | h)
      · exact Or.inr (Or.inr (Or.inr (Or.inl h)))
      · exact Or.inr (Or.inr (Or.inr (Or.inr (Or.inl h))))
      · exact Or.inr (Or.inr (Or.inr (Or.inr (Or.inr ⟨hl1, h⟩))))
  have hres : unicode_from_utf8 buf p max_len pp =
      if (l : Int) > max_len - 1 ∨
        (∃ i, i < l ∧ utf8_is_cont (byteAt buf (p + 1 + i)) = false) ∨
        utf8_assembled buf p l < utf8_min_code.getD (l - 1) 0
      then (-1, pp) else (((utf8_assembled buf p l : Nat) : Int), p + l + 1) := by
    unfold unicode_from_utf8
    simp only [h1, if_false, hsw, hmask]
    by_cases hgt : (l : Int) > max_len - 1
    · simp only [hgt, if_true, true_or]
    · simp only [hgt, if_false, false_or]
      by_cases hc : ∃ i, i < l ∧ utf8_is_cont (byteAt buf (p + 1 + i)) = false
      · rw [(utf8_cont_loop_none buf l (p + 1) _).2 hc]
        simp only [hc, true_or, if_true]
      · have hall : ∀ i, i < l → utf8_is_cont (byteAt buf (p + 1 + i)) = true := by
          intro i hi
          by_contra hne
          exact hc ⟨i, hi, by simpa using hne⟩
        rw [utf8_cont_loop_some buf l (p + 1) _ hall]
        simp only [hc, false_or]
        unfold utf8_assembled
        by_cases hm : utf8_payload buf l (p + 1) (byteAt buf p % 2 ^ utf8_lead_bits l)
            < utf8_min_code.getD (l - 1) 0
        · simp only [hm, if_true]
        · simp only [hm, if_false]
          congr 1; omega
  rw [hres, hrej_iff]
  split_ifs with hc
  · exact ⟨⟨fun _ => hc, fun _ => ⟨rfl, rfl⟩⟩, Or.inl hc⟩
  · refine ⟨⟨fun h => ?_, fun h => absurd h hc⟩, Or.inr rfl⟩
    have := h.1
    simp at this

theorem unicode_from_utf8_spec_witness :
    (((unicode_from_utf8 [0xc3, 0xa9] 0 2 7).1 = -1 ∧
        (unicode_from_utf8 [0xc3, 0xa9] 0 2 7).2 = 7) ↔ utf8_rejected [0xc3, 0xa9] 0 2) ∧
    (utf8_rejected [0xc3, 0xa9] 0 2 ∨
      unicode_from_utf8 [0xc3, 0xa9] 0 2 7
        = (((utf8_assembled [0xc3, 0xa9] 0 (utf8_announced (byteAt [0xc3, 0xa9] 0)) : Nat) : Int),
            0 + utf8_announced (byteAt [0xc3, 0xa9] 0) + 1)) :=
  unicode_from_utf8_spec [0xc3, 0xa9] 0 2 7 (by decide) (by decide) (by decide)


/-! ## String builder lemmas -/

theorem sb_extends_trans {sb sb1 sb2 : StringBuffer} {us vs : List Nat}
    (h1 : sb_extends sb sb1 us) (h2 : sb_extends sb1 sb2 vs) :
    sb_extends sb sb2 (us ++ vs) := by
  obtain ⟨a1, b1, c1, d1, e1⟩ := h1
  obtain ⟨a2, b2, c2, d2, e2⟩ := h2
  refine ⟨by rw [a2, a1, List.append_assoc], ?_, c2, le_trans d1 d2, by rw [e2, e1]⟩
  rw [b2, b1, List.any_append, Bool.or_assoc]

theorem sb_len_extends {sb sb1 : StringBuffer} {us : List Nat} (h : sb_extends sb sb1 us) :
    sb1.len = sb.len + us.length := by
  unfold StringBuffer.len
  rw [h.1, List.length_append]
  push_cast
  rfl

theorem putc16_extends (pf : Platform) (sb : StringBuffer) (c : Nat)
    (he : sb.error_status = 0) (hlen : sb.len < sb.size) (hc : c < 0x10000) :
    ∃ sb1, string_buffer_putc16 pf sb c = .ok (0, sb1) ∧ sb_extends sb sb1 [c] := by
  unfold string_buffer_putc16
  by_cases hw : sb.is_wide_char = true
  · refine ⟨sb.put16 c, by simp [hlen, hw], ?_⟩
    simp [sb_extends, StringBuffer.put16, u16, hw, he]
    omega
  · simp only [hlen, hw, and_false, if_false, true_and]
    by_cases h8 : c < 0x100
    · refine ⟨sb.put8 c, by simp [h8], ?_⟩
      simp [sb_extends, StringBuffer.put8, u8, he]
      constructor
      · omega
      · simp at hw; rw [hw]; simp; omega
    · simp only [h8, if_false]
      unfold string_buffer_putc_slow
      have hnl : ¬ sb.len ≥ sb.size := by omega
      simp only [hnl, if_false, ne_eq, not_true_eq_false, hw, h8]
      unfold string_buffer_widen
      simp only [he, ne_eq, not_true_eq_false, if_false]
      refine ⟨_, rfl, ?_⟩
      simp [sb_extends, StringBuffer.put16, u16, he]
      refine ⟨by omega, by omega⟩

theorem putc8_extends (pf : Platform) (sb : StringBuffer) (c : Nat)
    (he : sb.error_status = 0) (hlen : sb.len < sb.size) (hc : c < 0x100) :
    ∃ sb1, string_buffer_putc8 pf sb c = .ok (0, sb1) ∧ sb_extends sb sb1 [c] := by
  unfold string_buffer_putc8
  have hnl : ¬ sb.len ≥ sb.size := by omega
  simp only [hnl, if_false, ne_eq, not_true_eq_false]
  by_cases hw : sb.is_wide_char = true
  · refine ⟨sb.put16 c, by simp [hw], ?_⟩
    simp [sb_extends, StringBuffer.put16, u16, hw, he]
    omega
  · refine ⟨sb.put8 c, by simp [hw], ?_⟩
    simp [sb_extends, StringBuffer.put8, u8, he]
    constructor
    · omega
    · simp at hw; rw [hw]; simp; omega


theorem sb_extends_refl (sb : StringBuffer) (he : sb.error_status = 0) :
    sb_extends sb sb [] := by
  simp [sb_extends, he]

theorem utf8_cont_loop_bound (buf : List Nat) (n q c c1 : Nat)
    (h : utf8_cont_loop buf n q c = some c1) : c1 < (c + 1) * 64 ^ n := by
  induction n generalizing q c with
  | zero =>
    simp [utf8_cont_loop] at h
    omega
  | succ n ih =>
    unfold utf8_cont_loop at h
    by_cases hb : byteAt buf q < 0x80 ∨ byteAt buf q ≥ 0xc0
    · simp [hb] at h
    · simp only [hb, if_false, shl6_lor] at h
      have h1 := ih _ _ h
      have h2 : (c * 64 + byteAt buf q % 64 + 1) * 64 ^ n ≤ ((c + 1) * 64) * 64 ^ n :=
        Nat.mul_le_mul_right _ (by omega)
      calc c1 < (c * 64 + byteAt buf q % 64 + 1) * 64 ^ n := h1
        _ ≤ ((c + 1) * 64) * 64 ^ n := h2
        _ = (c + 1) * 64 ^ (n + 1) := by ring

theorem utf8_switch_bound (b l : Nat) (h : utf8_switch b = some l) :
    1 ≤ l ∧ (utf8_first_code_mask.getD (l - 1) 0 + 1) * 64 ^ l ≤ 2 ^ 31 := by
  unfold utf8_switch at h
  split_ifs at h <;> simp at h <;> subst h <;> decide

theorem from_utf8_adv (buf : List Nat) (p pp : Nat) (hp : p < buf.length) :
    (unicode_from_utf8 buf p ((buf.length : Int) - p) pp).1 = -1 ∨
    ∃ c : Nat, (unicode_from_utf8 buf p ((buf.length : Int) - p) pp).1 = (c : Int) ∧
      c < 2 ^ 31 ∧ p + 1 ≤ (unicode_from_utf8 buf p ((buf.length : Int) - p) pp).2 ∧
      (unicode_from_utf8 buf p ((buf.length : Int) - p) pp).2 ≤ buf.length ∧
      (0x80 ≤ c → p + 2 ≤ (unicode_from_utf8 buf p ((buf.length : Int) - p) pp).2) := by
  unfold unicode_from_utf8
  by_cases h1 : byteAt buf p < 0x80
  · simp only [h1, if_true]
    exact Or.inr ⟨byteAt buf p, rfl, by omega, by omega, by omega, by omega⟩
  simp only [h1, if_false]
  cases hsw : utf8_switch (byteAt buf p) with
  | none => exact Or.inl (by simp)
  | some l =>
    obtain ⟨hl1, hbound⟩ := utf8_switch_bound _ _ hsw
    simp only []
    by_cases hgt : (l : Int) > (buf.length : Int) - p - 1
    · simp only [hgt, if_true]; exact Or.inl (by simp)
    simp only [hgt, if_false]
    cases hloop : utf8_cont_loop buf l (p + 1)
        (byteAt buf p &&& utf8_first_code_mask.getD (l - 1) 0) with
    | none => exact Or.inl (by simp)
    | some c1 =>
      simp only []
      by_cases hmin : c1 < utf8_min_code.getD (l - 1) 0
      · simp only [hmin, if_true]; exact Or.inl (by simp)
      simp only [hmin, if_false]
      have hb := utf8_cont_loop_bound _ _ _ _ _ hloop
      have hm : byteAt buf p &&& utf8_first_code_mask.getD (l - 1) 0
          ≤ utf8_first_code_mask.getD (l - 1) 0 := Nat.and_le_right
      have : c1 < 2 ^ 31 := by
        calc c1 < ((byteAt buf p &&& utf8_first_code_mask.getD (l - 1) 0) + 1) * 64 ^ l := hb
          _ ≤ (utf8_first_code_mask.getD (l - 1) 0 + 1) * 64 ^ l :=
              Nat.mul_le_mul_right _ (by omega)
          _ ≤ 2 ^ 31 := hbound
      exact Or.inr ⟨c1, rfl, this, by omega, by omega, by omega⟩

theorem skip_cont_ge (buf : List Nat) (p : Nat) : p ≤ skip_cont buf p := by
  unfold skip_cont; omega

theorem skip_cont_le (buf : List Nat) (p : Nat) (hp : p ≤ buf.length) :
    skip_cont buf p ≤ buf.length := by
  unfold skip_cont
  have h := (List.takeWhile_sublist (l := buf.drop p)
    (fun b => decide (0x80 ≤ b) && decide (b < 0xc0))).length_le
  rw [List.length_drop] at h
  omega

theorem toU32_natCast (c : Nat) (h : c < 2 ^ 32) : toU32 (c : Int) = c := by
  unfold toU32
  omega

theorem toU32_neg_one : toU32 (-1) = 0xFFFFFFFF := by decide


/-- The decoding loop returns, and its buffer is the initial one extended by
`decode_units`, whenever the fuel covers the bytes left and the buffer has room
for one code unit per byte left. -/
theorem decode_loop_extends (pf : Platform) (buf : List Nat) :
    ∀ (fuel p : Nat) (sb : StringBuffer), p ≤ buf.length → buf.length - p ≤ fuel →
      sb.error_status = 0 → sb.len + ((buf.length : Int) - p) ≤ sb.size →
      ∃ sb1, decode_loop pf buf fuel p sb = .ok sb1 ∧
        sb_extends sb sb1 (decode_units buf fuel p) := by
  intro fuel
  induction fuel with
  | zero =>
    intro p sb hp hf he _
    have : ¬ p < buf.length := by omega
    exact ⟨sb, by simp [decode_loop, this], by
      simpa [decode_units] using sb_extends_refl sb he⟩
  | succ fuel ih =>
    intro p sb hp hf he hsz
    unfold decode_loop decode_units
    by_cases hlt : p < buf.length
    swap
    · simp only [hlt, not_false_eq_true, if_true]
      exact ⟨sb, rfl, sb_extends_refl sb he⟩
    simp only [hlt, not_true_eq_false, if_false]
    by_cases hascii : byteAt buf p < 128
    · simp only [hascii, if_true]
      obtain ⟨sb1, h1, e1⟩ := putc8_extends pf sb (byteAt buf p) he (by omega) (by omega)
      rw [h1]
      simp only []
      have hl1 := sb_len_extends e1
      simp only [List.length_singleton] at hl1
      obtain ⟨sb2, h2, e2⟩ := ih (p + 1) sb1 (by omega) (by omega) e1.2.2.1
        (by have := e1.2.2.2.1; push_cast; omega)
      exact ⟨sb2, h2, by simpa using sb_extends_trans e1 e2⟩
    simp only [hascii, if_false]
    rcases from_utf8_adv buf p p hlt with hd | ⟨c, hd, hc31, hadv1, hadvle, hadv2⟩
    · -- decoding failed: U+FFFD and the skip
      rw [hd, toU32_neg_one]
      simp only [show ¬ (0xFFFFFFFF < 0x10000) by decide,
        show ¬ (0xFFFFFFFF ≤ 0x10FFFF) by decide, if_false]
      obtain ⟨sb1, h1, e1⟩ := putc16_extends pf sb 0xfffd he (by omega) (by decide)
      rw [h1]
      simp only []
      have hl1 := sb_len_extends e1
      simp only [List.length_singleton] at hl1
      have hp1 := skip_cont_ge buf p
      have hp1le := skip_cont_le buf p hp
      have hp2 : p + 1 ≤ (if skip_cont buf p < buf.length
          then skip_cont buf (skip_cont buf p + 1) else skip_cont buf p) ∧
          (if skip_cont buf p < buf.length
          then skip_cont buf (skip_cont buf p + 1) else skip_cont buf p) ≤ buf.length := by
        split_ifs with hh
        · have := skip_cont_ge buf (skip_cont buf p + 1)
          have := skip_cont_le buf (skip_cont buf p + 1) (by omega)
          omega
        · omega
      obtain ⟨sb2, h2, e2⟩ := ih _ sb1 hp2.2 (by omega) e1.2.2.1
        (by have := e1.2.2.2.1; omega)
      exact ⟨sb2, h2, by simpa using sb_extends_trans e1 e2⟩
    · rw [hd, toU32_natCast c (by omega)]
      by_cases hbmp : c < 0x10000
      · simp only [hbmp, if_true]
        obtain ⟨sb1, h1, e1⟩ := putc16_extends pf sb c he (by omega) hbmp
        rw [h1]
        simp only []
        have hl1 := sb_len_extends e1
        simp only [List.length_singleton] at hl1
        obtain ⟨sb2, h2, e2⟩ := ih _ sb1 hadvle (by omega) e1.2.2.1
          (by have := e1.2.2.2.1; omega)
        exact ⟨sb2, h2, by simpa using sb_extends_trans e1 e2⟩
      simp only [hbmp, if_false]
      by_cases hsup : c ≤ 0x10FFFF
      · simp only [hsup, if_true]
        have hhi : ((c - 0x10000) >>> 10) + 0xd800 < 0x10000 := by
          rw [Nat.shiftRight_eq_div_pow]; omega
        have hlo : ((c - 0x10000) &&& 0x3ff) + 0xdc00 < 0x10000 := by
          rw [show (0x3ff : Nat) = 2 ^ 10 - 1 by norm_num, Nat.and_pow_two_sub_one_eq_mod]
          omega
        have hadv := hadv2 (by omega)
        obtain ⟨sb1, h1, e1⟩ := putc16_extends pf sb _ he (by omega) hhi
        rw [h1]
        simp only []
        have hl1 := sb_len_extends e1
        simp only [List.length_singleton] at hl1
        obtain ⟨sb2, h2, e2⟩ := putc16_extends pf sb1 _ e1.2.2.1
          (by have := e1.2.2.2.1; omega) hlo
        rw [h2]
        simp only []
        have hl2 := sb_len_extends e2
        simp only [List.length_singleton] at hl2
        obtain ⟨sb3, h3, e3⟩ := ih _ sb2 hadvle (by omega) e2.2.2.1
          (by have := e1.2.2.2.1; have := e2.2.2.2.1; omega)
        exact ⟨sb3, h3, by simpa using sb_extends_trans (sb_extends_trans e1 e2) e3⟩
      · simp only [hsup, if_false]
        obtain ⟨sb1, h1, e1⟩ := putc16_extends pf sb 0xfffd he (by omega) (by decide)
        rw [h1]
        simp only []
        have hl1 := sb_len_extends e1
        simp only [List.length_singleton] at hl1
        have hp1 := skip_cont_ge buf p
        have hp1le := skip_cont_le buf p hp
        have hp2 : p + 1 ≤ (if skip_cont buf p < buf.length
            then skip_cont buf (skip_cont buf p + 1) else skip_cont buf p) ∧
            (if skip_cont buf p < buf.length
            then skip_cont buf (skip_cont buf p + 1) else skip_cont buf p) ≤ buf.length := by
          split_ifs with hh
          · have := skip_cont_ge buf (skip_cont buf p + 1)
            have := skip_cont_le buf (skip_cont buf p + 1) (by omega)
            omega
          · omega
        obtain ⟨sb2, h2, e2⟩ := ih _ sb1 hp2.2 (by omega) e1.2.2.1
          (by have := e1.2.2.2.1; omega)
        exact ⟨sb2, h2, by simpa using sb_extends_trans e1 e2⟩


theorem byteAt_eq_head_drop (buf : List Nat) (p : Nat) (hp : p < buf.length) :
    buf.drop p = byteAt buf p :: buf.drop (p + 1) := by
  unfold byteAt
  rw [List.getD_eq_getElem _ _ hp]
  exact List.drop_eq_getElem_cons hp

theorem decode_units_ascii (buf : List Nat) :
    ∀ (k fuel p : Nat), p + k ≤ buf.length → k ≤ fuel →
      (∀ b ∈ (buf.drop p).take k, b < 128) →
      decode_units buf fuel p = (buf.drop p).take k ++ decode_units buf (fuel - k) (p + k) := by
  intro k
  induction k with
  | zero => intro fuel p _ _ _; simp
  | succ k ih =>
    intro fuel p hp hf hall
    obtain ⟨f, rfl⟩ : ∃ f, fuel = f + 1 := ⟨fuel - 1, by omega⟩
    have hlt : p < buf.length := by omega
    rw [byteAt_eq_head_drop buf p hlt] at hall ⊢
    simp only [List.take_succ_cons, List.mem_cons, forall_eq_or_imp] at hall
    rw [decode_units]
    simp only [hlt, not_true_eq_false, if_false, hall.1, if_true, List.take_succ_cons,
      List.cons_append]
    rw [ih f (p + 1) (by omega) (by omega) hall.2,
      show f + 1 - (k + 1) = f - k by omega, show p + 1 + k = p + (k + 1) by omega]

theorem ascii_no_wide (l : List Nat) (h : ∀ b ∈ l, b < 128) :
    l.any (fun u => decide (0x100 ≤ u)) = false := by
  rw [List.any_eq_false]
  intro b hb
  have := h b hb
  simp; omega

theorem takeWhile_ascii (buf : List Nat) :
    buf.takeWhile (fun b => decide (b < 128))
      = buf.take (buf.takeWhile (fun b => decide (b < 128))).length ∧
    ∀ b ∈ buf.take (buf.takeWhile (fun b => decide (b < 128))).length, b < 128 := by
  have hpre := List.takeWhile_prefix (l := buf) (fun b => decide (b < 128))
  have heq := List.prefix_iff_eq_take.1 hpre
  refine ⟨heq, ?_⟩
  rw [← heq]
  intro b hb
  simpa using List.mem_takeWhile_imp hb

/-- What `LCNewStringFromCStringLen` builds, for every byte sequence: the call
returns, the allocation counter has grown by one, and the string has count 1,
no cached hash, the code units `decode_units` lists, wide form exactly when one
of them does not fit a byte, and a zero cell after the units in narrow form. -/
theorem new_string_str_spec (pf : Platform) (rt : LCRuntime) (buf : List Nat) :
    ∃ s, LCNewStringFromCStringLen_str pf rt buf
        = .ok ({ rt with malloc_count := rt.malloc_count + 1 }, s) ∧
      s.header.count = 1 ∧ s.hash = 0 ∧
      s.length = (decode_units buf buf.length 0).length ∧
      s.is_wide_char = (decode_units buf buf.length 0).any (fun u => decide (0x100 ≤ u)) ∧
      s.str = decode_units buf buf.length 0 ++ (if s.is_wide_char then [] else [0]) := by
  obtain ⟨htw, hasc⟩ := takeWhile_ascii buf
  generalize hlen : (buf.takeWhile (fun b => decide (b < 128))).length = len at htw hasc
  have hle : len ≤ buf.length := by
    rw [← hlen]; exact (List.takeWhile_sublist _).length_le
  have hsplit := decode_units_ascii buf len buf.length 0 (by omega) hle (by simpa using hasc)
  simp only [List.drop_zero, Nat.zero_add] at hsplit
  unfold LCNewStringFromCStringLen_str
  simp only [hlen]
  by_cases hall : len = buf.length
  · simp only [hall, if_true]
    have hu : decode_units buf buf.length 0 = buf := by
      rw [hsplit, hall]; simp [decode_units]
    have hnw := ascii_no_wide buf (by rw [hall] at hasc; simpa using hasc)
    refine ⟨(lc_new_string8 pf rt buf buf.length).2, ?_, ?_⟩
    · unfold lc_new_string8 lc_mallocz lc_malloc
      have : ¬ (pf.sizeof_LCString + buf.length + 1 = 0 ∧ pf.malloc_zero_null = true) := by
        omega
      simp only [this, if_false]
    · simp [lc_new_string8, hu, hnw]
  · simp only [hall, if_false]
    have hinit : string_buffer_init pf rt buf.length
        = ({ rt with malloc_count := rt.malloc_count + 1 }, 0,
            { str := { header := { count := 1, class_id := 0 }, is_wide_char := false,
                       length := buf.length, hash := 0, str := [] },
              size := buf.length, is_wide_char := false, error_status := 0 }) := by
      unfold string_buffer_init string_buffer_init2 lc_alloc_string_rt lc_malloc
      have : ¬ (pf.sizeof_LCString + ((buf.length : Int).toNat <<< false.toNat) + 1
          - false.toNat = 0 ∧ pf.malloc_zero_null = true) := by
        simp
      simp only [this, if_false]
      simp
    rw [hinit]
    simp only [ne_eq, not_true_eq_false, if_false]
    unfold string_buffer_write8
    have hnotgt : ¬ ((0 : Int) + ((buf.take len).length : Int) > (buf.length : Int)) := by
      rw [List.length_take]; omega
    simp only [StringBuffer.len, List.length_nil, Nat.cast_zero, hnotgt, if_false, ne_eq,
      not_true_eq_false, List.nil_append]
    obtain ⟨sb1, h1, e1⟩ := decode_loop_extends pf buf (buf.length - len) len
      { str := { header := { count := 1, class_id := 0 }, is_wide_char := false,
                 length := buf.length, hash := 0, str := buf.take len },
        size := buf.length, is_wide_char := false, error_status := 0 }
      hle (le_refl _) rfl (by
        simp only [StringBuffer.len, List.length_take]
        omega)
    rw [h1]
    simp only []
    obtain ⟨ea, eb, ec, ed, ee⟩ := e1
    simp only [Bool.false_or] at ea eb ee
    have hu : decode_units buf buf.length 0 = sb1.str.str := by rw [hsplit, ea]
    have hany : (decode_units buf buf.length 0).any (fun u => decide (0x100 ≤ u))
        = sb1.is_wide_char := by
      rw [hsplit, List.any_append, ascii_no_wide _ hasc, Bool.false_or, eb]
    unfold string_buffer_end
    by_cases h0 : sb1.len = 0
    · simp only [h0, if_true]
      have hnil : sb1.str.str = [] := by
        unfold StringBuffer.len at h0
        exact List.length_eq_zero.1 (by exact_mod_cast h0)
      refine ⟨(lc_new_string8 pf (lc_free { rt with malloc_count := rt.malloc_count + 1 })
        [] 0).2, ?_, ?_⟩
      · unfold lc_new_string8 lc_mallocz lc_malloc lc_free
        have : ¬ (pf.sizeof_LCString + 0 + 1 = 0 ∧ pf.malloc_zero_null = true) := by omega
        simp only [this, if_false]
        simp
      · rw [hu, hnil]
        simp [lc_new_string8]
    · simp only [h0, if_false]
      refine ⟨_, rfl, ?_⟩
      rw [hany, hu]
      simp only [ee, true_and]
      cases sb1.is_wide_char <;> simp


/-! ## Encoder normal forms and the decode-after-encode lemmas -/

theorem enc1 (c : Nat) (h : c < 0x80) : unicode_to_utf8 c = (1, [c]) := by
  unfold unicode_to_utf8
  rw [if_pos h]
  simp [u8]; omega

theorem enc2 (c : Nat) (h1 : 0x80 ≤ c) (h2 : c < 0x800) :
    unicode_to_utf8 c = (2, [c / 64 + 0xc0, c % 64 + 0x80]) := by
  unfold unicode_to_utf8
  rw [if_neg (by omega), if_pos h2]
  simp only [cont_byte, Nat.shiftRight_eq_div_pow]
  rw [lor_c0 _ (by omega)]
  simp [u8]; omega

theorem enc3 (c : Nat) (h1 : 0x800 ≤ c) (h2 : c < 0x10000) :
    unicode_to_utf8 c = (3, [c / 4096 + 0xe0, c / 64 % 64 + 0x80, c % 64 + 0x80]) := by
  unfold unicode_to_utf8
  rw [if_neg (by omega), if_neg (by omega), if_pos h2]
  simp only [cont_byte, Nat.shiftRight_eq_div_pow]
  rw [lor_e0 _ (by omega)]
  simp [u8]; omega

theorem enc4 (c : Nat) (h1 : 0x10000 ≤ c) (h2 : c < 0x200000) :
    unicode_to_utf8 c
      = (4, [c / 262144 + 0xf0, c / 4096 % 64 + 0x80, c / 64 % 64 + 0x80, c % 64 + 0x80]) := by
  unfold unicode_to_utf8
  rw [if_neg (by omega), if_neg (by omega), if_neg (by omega), if_pos h2]
  simp only [cont_byte, Nat.shiftRight_eq_div_pow]
  rw [lor_f0 _ (by omega)]
  simp [u8]; omega

theorem byteAt_drop (buf : List Nat) (p i : Nat) :
    byteAt buf (p + i) = (buf.drop p).getD i 0 := by
  unfold byteAt
  simp [List.getD_eq_getElem?_getD, List.getElem?_drop]

/-- The decoder on a lead byte `lead >= 0x80` whose announced continuation
bytes are all present and well formed and whose value is not overlong. -/
theorem from_utf8_bytes (buf : List Nat) (p : Nat) (max_len : Int) (pp l : Nat)
    (hlead : ¬ byteAt buf p < 0x80) (hsw : utf8_switch (byteAt buf p) = some l)
    (hmax : ¬ (l : Int) > max_len - 1)
    (hcont : ∀ i, i < l → utf8_is_cont (byteAt buf (p + 1 + i)) = true)
    (hmin : ¬ utf8_payload buf l (p + 1)
      (byteAt buf p &&& utf8_first_code_mask.getD (l - 1) 0) < utf8_min_code.getD (l - 1) 0) :
    unicode_from_utf8 buf p max_len pp
      = (((utf8_payload buf l (p + 1)
            (byteAt buf p &&& utf8_first_code_mask.getD (l - 1) 0) : Nat) : Int), p + 1 + l) := by
  unfold unicode_from_utf8
  simp only [hlead, if_false, hsw, hmax, utf8_cont_loop_some buf l (p + 1) _ hcont, hmin]

theorem from_utf8_enc1 (buf : List Nat) (p : Nat) (max_len : Int) (pp c : Nat)
    (rest : List Nat) (hc : c < 0x80) (hd : buf.drop p = (unicode_to_utf8 c).2 ++ rest) :
    unicode_from_utf8 buf p max_len pp = ((c : Int), p + 1) := by
  rw [enc1 c hc] at hd
  have h0 : byteAt buf p = c := by
    have := byteAt_drop buf p 0
    rw [hd] at this; simpa using this
  unfold unicode_from_utf8
  simp only [h0, hc, if_true]

theorem from_utf8_enc2 (buf : List Nat) (p : Nat) (max_len : Int) (pp c : Nat)
    (rest : List Nat) (h1 : 0x80 ≤ c) (h2 : c < 0x800) (hmax : 2 ≤ max_len)
    (hd : buf.drop p = (unicode_to_utf8 c).2 ++ rest) :
    unicode_from_utf8 buf p max_len pp = ((c : Int), p + 2) := by
  rw [enc2 c h1 h2] at hd
  have h0 : byteAt buf p = c / 64 + 0xc0 := by
    have := byteAt_drop buf p 0
    rw [hd] at this; simpa using this
  have hb1 : byteAt buf (p + 1) = c % 64 + 0x80 := by
    have := byteAt_drop buf p 1
    rw [hd] at this; simpa using this
  have hsw : utf8_switch (byteAt buf p) = some 1 := by
    rw [h0]; unfold utf8_switch
    rw [if_pos (by omega)]
  have hmask : byteAt buf p &&& utf8_first_code_mask.getD (1 - 1) 0 = c / 64 := by
    rw [h0]
    show (c / 64 + 0xc0) &&& (2 ^ 5 - 1) = c / 64
    rw [Nat.and_pow_two_sub_one_eq_mod]; omega
  have hpay : utf8_payload buf 1 (p + 1) (c / 64) = c := by
    simp only [utf8_payload, hb1]; omega
  have := from_utf8_bytes buf p max_len pp 1 (by omega) hsw (by push_cast; omega)
    (fun i hi => by
      obtain rfl : i = 0 := by omega
      simp [utf8_is_cont, hb1]; omega)
    (by rw [hmask, hpay]; simp [utf8_min_code]; omega)
  rw [this, hmask, hpay]

theorem from_utf8_enc3 (buf : List Nat) (p : Nat) (max_len : Int) (pp c : Nat)
    (rest : List Nat) (h1 : 0x800 ≤ c) (h2 : c < 0x10000) (hmax : 3 ≤ max_len)
    (hd : buf.drop p = (unicode_to_utf8 c).2 ++ rest) :
    unicode_from_utf8 buf p max_len pp = ((c : Int), p + 3) := by
  rw [enc3 c h1 h2] at hd
  have h0 : byteAt buf p = c / 4096 + 0xe0 := by
    have := byteAt_drop buf p 0
    rw [hd] at this; simpa using this
  have hb1 : byteAt buf (p + 1) = c / 64 % 64 + 0x80 := by
    have := byteAt_drop buf p 1
    rw [hd] at this; simpa using this
  have hb2 : byteAt buf (p + 1 + 1) = c % 64 + 0x80 := by
    have := byteAt_drop buf p 2
    rw [hd] at this; simpa using this
  have hsw : utf8_switch (byteAt buf p) = some 2 := by
    rw [h0]; unfold utf8_switch
    rw [if_neg (by omega), if_pos (by omega)]
  have hmask : byteAt buf p &&& utf8_first_code_mask.getD (2 - 1) 0 = c / 4096 := by
    rw [h0]
    show (c / 4096 + 0xe0) &&& (2 ^ 4 - 1) = c / 4096
    rw [Nat.and_pow_two_sub_one_eq_mod]; omega
  have hpay : utf8_payload buf 2 (p + 1) (c / 4096) = c := by
    simp only [utf8_payload, hb1, hb2]; omega
  have := from_utf8_bytes buf p max_len pp 2 (by omega) hsw (by push_cast; omega)
    (fun i hi => by
      have : i = 0 ∨ i = 1 := by omega
      rcases this with rfl | rfl
      · simp [utf8_is_cont, hb1]; omega
      · simp [utf8_is_cont, hb2]; omega)
    (by rw [hmask, hpay]; simp [utf8_min_code]; omega)
  rw [this, hmask, hpay]

theorem from_utf8_enc4 (buf : List Nat) (p : Nat) (max_len : Int) (pp c : Nat)
    (rest : List Nat) (h1 : 0x10000 ≤ c) (h2 : c < 0x200000) (hmax : 4 ≤ max_len)
    (hd : buf.drop p = (unicode_to_utf8 c).2 ++ rest) :
    unicode_from_utf8 buf p max_len pp = ((c : Int), p + 4) := by
  rw [enc4 c h1 h2] at hd
  have h0 : byteAt buf p = c / 262144 + 0xf0 := by
    have := byteAt_drop buf p 0
    rw [hd] at this; simpa using this
  have hb1 : byteAt buf (p + 1) = c / 4096 % 64 + 0x80 := by
    have := byteAt_drop buf p 1
    rw [hd] at this; simpa using this
  have hb2 : byteAt buf (p + 1 + 1) = c / 64 % 64 + 0x80 := by
    have := byteAt_drop buf p 2
    rw [hd] at this; simpa using this
  have hb3 : byteAt buf (p + 1 + 1 + 1) = c % 64 + 0x80 := by
    have := byteAt_drop buf p 3
    rw [hd] at this; simpa using this
  have hsw : utf8_switch (byteAt buf p) = some 3 := by
    rw [h0]; unfold utf8_switch
    rw [if_neg (by omega), if_neg (by omega), if_pos (by omega)]
  have hmask : byteAt buf p &&& utf8_first_code_mask.getD (3 - 1) 0 = c / 262144 := by
    rw [h0]
    show (c / 262144 + 0xf0) &&& (2 ^ 3 - 1) = c / 262144
    rw [Nat.and_pow_two_sub_one_eq_mod]; omega
  have hpay : utf8_payload buf 3 (p + 1) (c / 262144) = c := by
    simp only [utf8_payload, hb1, hb2, hb3]; omega
  have := from_utf8_bytes buf p max_len pp 3 (by omega) hsw (by push_cast; omega)
    (fun i hi => by
      have : i = 0 ∨ i = 1 ∨ i = 2 := by omega
      rcases this with rfl | rfl | rfl
      · simp [utf8_is_cont, hb1]; omega
      · simp [utf8_is_cont, hb2]; omega
      · simp [utf8_is_cont, hb3]; omega)
    (by rw [hmask, hpay]; simp [utf8_min_code]; omega)
  rw [this, hmask, hpay]


/-! ## Strings built from bytes -/

theorem units_of_str (s : LCString) (us tl : List Nat) (h1 : s.str = us ++ tl)
    (h2 : s.length = us.length) : s.units = us := by
  unfold LCString.units
  rw [h1, h2, List.take_left]

/-- Value-level form of `new_string_str_spec`: the returned value is a string
pointer to a fresh heap object with the listed contents. -/
theorem new_string_spec (pf : Platform) (rt : LCRuntime) (buf : List Nat) :
    ∃ rt1 v s, LCNewStringFromCStringLen pf rt buf = .ok (rt1, v) ∧
      v.tag = LC_TY_STRING ∧ rt1.heap v.ptr_val = some (LCObject.string s) ∧
      rt1.malloc_count = rt.malloc_count + 1 ∧
      s.header.count = 1 ∧ s.hash = 0 ∧
      s.length = (decode_units buf buf.length 0).length ∧
      s.is_wide_char = (decode_units buf buf.length 0).any (fun u => decide (0x100 ≤ u)) ∧
      s.units = decode_units buf buf.length 0 ∧
      s.str = decode_units buf buf.length 0 ++ (if s.is_wide_char then [] else [0]) := by
  obtain ⟨s, h, hc, hh, hl, hw, hs⟩ := new_string_str_spec pf rt buf
  refine ⟨_, _, s, by unfold LCNewStringFromCStringLen; rw [h], rfl, ?_, rfl, hc, hh, hl, hw,
    units_of_str s _ _ hs hl, hs⟩
  simp [heap_new, MK_STRING, LCValue.ptr_val]

theorem decode_units_all_ascii (b : List Nat) (h : ∀ x ∈ b, x < 128) :
    decode_units b b.length 0 = b := by
  have := decode_units_ascii b b.length b.length 0 (by omega) (le_refl _) (by simpa using h)
  rw [this]
  simp [decode_units]


theorem unicode_to_utf8_len (c : Nat) :
    (unicode_to_utf8 c).2.length = utf8_expected_len c := by
  unfold unicode_to_utf8 utf8_expected_len
  split_ifs <;> rfl

theorem drop_length_of_eq (buf : List Nat) (p : Nat) (xs rest : List Nat)
    (hd : buf.drop p = xs ++ rest) : buf.length - p = xs.length + rest.length := by
  have := congrArg List.length hd
  rw [List.length_drop, List.length_append] at this
  exact this

/-- One iteration of the decoding loop on the encoding of a code point
`c <= 0x10FFFF` appends the UTF-16 units of `c` and advances past the encoding. -/
theorem decode_units_enc (buf : List Nat) (fuel p c : Nat) (rest : List Nat)
    (hc : c ≤ 0x10FFFF) (hd : buf.drop p = (unicode_to_utf8 c).2 ++ rest) :
    decode_units buf (fuel + 1) p
      = utf16_units c ++ decode_units buf fuel (p + (unicode_to_utf8 c).2.length) := by
  have hlen := drop_length_of_eq buf p _ rest hd
  by_cases h1 : c < 0x80
  · have hd1 := hd
    rw [enc1 c h1] at hd1 hlen ⊢
    have h0 : byteAt buf p = c := by
      have := byteAt_drop buf p 0
      rw [hd1] at this; simpa using this
    simp only [List.length_singleton] at hlen
    have hlt : p < buf.length := by omega
    rw [decode_units]
    simp only [hlt, not_true_eq_false, if_false, h0, show c < 128 from h1, if_true, utf16_units,
      show c < 0x10000 by omega, List.singleton_append, List.length_singleton]
  by_cases h2 : c < 0x800
  · have hdec := from_utf8_enc2 buf p ((buf.length : Int) - p) p c rest (by omega) h2
      (by rw [enc2 c (by omega) h2] at hlen; simp at hlen; omega) hd
    rw [enc2 c (by omega) h2] at hd hlen ⊢
    have h0 : byteAt buf p = c / 64 + 0xc0 := by
      have := byteAt_drop buf p 0
      rw [hd] at this; simpa using this
    simp only [List.length_cons, List.length_singleton, List.length_nil] at hlen
    have hlt : p < buf.length := by omega
    rw [decode_units]
    simp only [hlt, not_true_eq_false, if_false, hdec, toU32_natCast c (by omega)]
    rw [if_neg (by rw [h0]; omega), if_pos (by omega)]
    simp [utf16_units, show c < 0x10000 by omega]
  by_cases h3 : c < 0x10000
  · have hdec := from_utf8_enc3 buf p ((buf.length : Int) - p) p c rest (by omega) h3
      (by rw [enc3 c (by omega) h3] at hlen; simp at hlen; omega) hd
    rw [enc3 c (by omega) h3] at hd hlen ⊢
    have h0 : byteAt buf p = c / 4096 + 0xe0 := by
      have := byteAt_drop buf p 0
      rw [hd] at this; simpa using this
    simp only [List.length_cons, List.length_singleton, List.length_nil] at hlen
    have hlt : p < buf.length := by omega
    rw [decode_units]
    simp only [hlt, not_true_eq_false, if_false, hdec, toU32_natCast c (by omega)]
    rw [if_neg (by rw [h0]; omega), if_pos (by omega)]
    simp [utf16_units, h3]
  · have hdec := from_utf8_enc4 buf p ((buf.length : Int) - p) p c rest (by omega) (by omega)
      (by rw [enc4 c (by omega) (by omega)] at hlen; simp at hlen; omega) hd
    rw [enc4 c (by omega) (by omega)] at hd hlen ⊢
    have h0 : byteAt buf p = c / 262144 + 0xf0 := by
      have := byteAt_drop buf p 0
      rw [hd] at this; simpa using this
    simp only [List.length_cons, List.length_singleton, List.length_nil] at hlen
    have hlt : p < buf.length := by omega
    rw [decode_units]
    simp only [hlt, not_true_eq_false, if_false, hdec, toU32_natCast c (by omega)]
    rw [if_neg (by rw [h0]; omega), if_neg (by omega), if_pos (by omega)]
    simp [utf16_units, h3, Nat.add_comm]

theorem enc_length_pos (c : Nat) (hc : c ≤ 0x10FFFF) : 1 ≤ (unicode_to_utf8 c).2.length := by
  rw [unicode_to_utf8_len]
  unfold utf8_expected_len
  split_ifs <;> omega


theorem decode_units_at_end (buf : List Nat) (fuel p : Nat) (hp : ¬ p < buf.length) :
    decode_units buf fuel p = [] := by
  cases fuel with
  | zero => rfl
  | succ f => rw [decode_units]; simp only [hp, not_false_eq_true, if_true]

theorem decode_units_code_points (buf : List Nat) :
    ∀ (cps : List Nat) (fuel p : Nat), (∀ c ∈ cps, c ≤ 0x10FFFF) → cps.length ≤ fuel →
      buf.drop p = utf8_of_code_points cps →
      decode_units buf fuel p = utf16_of_code_points cps := by
  intro cps
  induction cps with
  | nil =>
    intro fuel p _ _ hd
    have : ¬ p < buf.length := by
      have := congrArg List.length hd
      simp [utf8_of_code_points] at this
      omega
    rw [decode_units_at_end buf fuel p this]
    rfl
  | cons c cs ih =>
    intro fuel p hall hf hd
    obtain ⟨f, rfl⟩ : ∃ f, fuel = f + 1 := ⟨fuel - 1, by simp at hf; omega⟩
    simp only [utf8_of_code_points] at hd
    rw [decode_units_enc buf f p c _ (hall c (List.mem_cons_self _ _)) hd]
    have hd2 : buf.drop (p + (unicode_to_utf8 c).2.length) = utf8_of_code_points cs := by
      rw [← List.drop_drop, hd, List.drop_left]
    rw [ih f _ (fun x hx => hall x (List.mem_cons_of_mem _ hx)) (by simp at hf; omega) hd2]
    rfl

theorem utf8_of_code_points_length (cps : List Nat) (h : ∀ c ∈ cps, c ≤ 0x10FFFF) :
    cps.length ≤ (utf8_of_code_points cps).length := by
  induction cps with
  | nil => simp
  | cons c cs ih =>
    simp only [utf8_of_code_points, List.length_cons, List.length_append]
    have := enc_length_pos c (h c (List.mem_cons_self _ _))
    have := ih (fun x hx => h x (List.mem_cons_of_mem _ hx))
    omega

theorem reencode_units (c : Nat) (us : List Nat) (hc : is_scalar c) :
    reencode_utf8 (utf16_units c ++ us) = (unicode_to_utf8 c).2 ++ reencode_utf8 us := by
  obtain ⟨hmax, hsur⟩ := hc
  unfold utf16_units
  by_cases h : c < 0x10000
  · simp only [h, if_true, List.singleton_append]
    cases us with
    | nil => simp [reencode_utf8]
    | cons lo rest =>
      rw [reencode_utf8]
      rw [if_neg (by omega)]
  · simp only [h, if_false, List.cons_append, List.nil_append]
    rw [reencode_utf8]
    have hhi : (c - 0x10000) >>> 10 = (c - 0x10000) / 1024 := by
      rw [Nat.shiftRight_eq_div_pow]
    have hlo : (c - 0x10000) &&& 0x3FF = (c - 0x10000) % 1024 :=
      Nat.and_pow_two_sub_one_eq_mod _ 10
    rw [hhi, hlo]
    rw [if_pos (by omega)]
    have harg : 0x10000 + ((0xD800 + (c - 0x10000) / 1024 - 0xD800) <<< 10)
        + (0xDC00 + (c - 0x10000) % 1024 - 0xDC00) = c := by
      rw [Nat.shiftLeft_eq]
      omega
    rw [harg]

theorem reencode_code_points (cps : List Nat) (h : ∀ c ∈ cps, is_scalar c) :
    reencode_utf8 (utf16_of_code_points cps) = utf8_of_code_points cps := by
  induction cps with
  | nil => rfl
  | cons c cs ih =>
    simp only [utf16_of_code_points, utf8_of_code_points]
    rw [reencode_units c _ (h c (List.mem_cons_self _ _)),
      ih (fun x hx => h x (List.mem_cons_of_mem _ hx))]

/-- C6 (the code at the failing input): from the bytes `80 41` the constructor
builds the single code unit `0xFFFD`; the well-formed byte `41` after the stray
continuation byte is dropped.  From the bytes `C3 41` it builds `0xFFFD, 0x41`. -/
theorem stray_continuation_drops_next_byte (pf : Platform) (rt : LCRuntime) :
    (∃ rt1 v s, LCNewStringFromCStringLen pf rt [0x80, 0x41] = .ok (rt1, v) ∧
      rt1.heap v.ptr_val = some (LCObject.string s) ∧ s.length = 1 ∧
      s.units = [0xFFFD]) ∧
    (∃ rt1 v s, LCNewStringFromCStringLen pf rt [0xC3, 0x41] = .ok (rt1, v) ∧
      rt1.heap v.ptr_val = some (LCObject.string s) ∧ s.length = 2 ∧
      s.units = [0xFFFD, 0x41]) := by
  constructor
  · obtain ⟨rt1, v, s, h, _, hh, _, _, _, hl, _, hu, _⟩ := new_string_spec pf rt [0x80, 0x41]
    have hd : decode_units [0x80, 0x41] [0x80, 0x41].length 0 = [0xFFFD] := by decide
    rw [hd] at hl hu
    exact ⟨rt1, v, s, h, hh, hl, hu⟩
  · obtain ⟨rt1, v, s, h, _, hh, _, _, _, hl, _, hu, _⟩ := new_string_spec pf rt [0xC3, 0x41]
    have hd : decode_units [0xC3, 0x41] [0xC3, 0x41].length 0 = [0xFFFD, 0x41] := by decide
    rw [hd] at hl hu
    exact ⟨rt1, v, s, h, hh, hl, hu⟩

/-- C7: for a code point `c` in `[0x10000, 0x10FFFF]`, the string built from the
bytes `unicode_to_utf8` writes for `c` is wide, has length 2, and its code units
are `0xD800 + ((c - 0x10000) >> 10)` and `0xDC00 + ((c - 0x10000) & 0x3FF)`. -/
theorem supplementary_gives_surrogate_pair (pf : Platform) (rt : LCRuntime) (c : Nat)
    (h1 : 0x10000 ≤ c) (h2 : c ≤ 0x10FFFF) :
    ∃ rt1 v s, LCNewStringFromCStringLen pf rt (unicode_to_utf8 c).2 = .ok (rt1, v) ∧
      rt1.heap v.ptr_val = some (LCObject.string s) ∧
      s.is_wide_char = true ∧ s.length = 2 ∧
      s.units = [0xD800 + ((c - 0x10000) >>> 10), 0xDC00 + ((c - 0x10000) &&& 0x3FF)] := by
  obtain ⟨rt1, v, s, h, _, hh, _, _, _, hl, hw, hu, _⟩ :=
    new_string_spec pf rt (unicode_to_utf8 c).2
  have hd : decode_units (unicode_to_utf8 c).2 (unicode_to_utf8 c).2.length 0
      = [0xD800 + ((c - 0x10000) >>> 10), 0xDC00 + ((c - 0x10000) &&& 0x3FF)] := by
    have := decode_units_code_points (unicode_to_utf8 c).2 [c] (unicode_to_utf8 c).2.length 0
      (by simpa using h2) (by simpa using enc_length_pos c h2) (by simp [utf8_of_code_points])
    rw [this]
    simp [utf16_of_code_points, utf16_units, show ¬ c < 0x10000 by omega]
  rw [hd] at hl hw hu
  refine ⟨rt1, v, s, h, hh, ?_, hl, hu⟩
  rw [hw]
  simp only [List.any_cons, List.any_nil, Bool.or_false, Bool.or_eq_true, decide_eq_true_eq]
  left
  omega

theorem supplementary_gives_surrogate_pair_witness :
    ∃ rt1 v s, LCNewStringFromCStringLen example_platform example_runtime
        (unicode_to_utf8 0x1F600).2 = .ok (rt1, v) ∧
      rt1.heap v.ptr_val = some (LCObject.string s) ∧
      s.is_wide_char = true ∧ s.length = 2 ∧
      s.units = [0xD800 + ((0x1F600 - 0x10000) >>> 10),
                 0xDC00 + ((0x1F600 - 0x10000) &&& 0x3FF)] :=
  supplementary_gives_surrogate_pair example_platform example_runtime 0x1F600
    (by decide) (by decide)

theorem strcmp_eq_zero_iff (us vs : List Nat) (hu : 0 ∉ us) (hv : 0 ∉ vs) :
    strcmp (us ++ [0]) (vs ++ [0]) = 0 ↔ us = vs := by
  induction us generalizing vs with
  | nil =>
    cases vs with
    | nil => simp [strcmp]
    | cons b bs =>
      have hb : b ≠ 0 := fun h => hv (by simp [h])
      simp only [List.nil_append, List.cons_append, strcmp]
      rw [if_pos (by omega)]
      simp
      omega
  | cons a as ih =>
    have ha : a ≠ 0 := fun h => hu (by simp [h])
    cases vs with
    | nil =>
      simp only [List.nil_append, List.cons_append, strcmp]
      rw [if_pos (by omega)]
      simp
      omega
    | cons b bs =>
      simp only [List.cons_append, strcmp]
      by_cases hab : a = b
      · subst hab
        simp only [ne_eq, not_true_eq_false, if_false, ha]
        change strcmp (as ++ [0]) (bs ++ [0]) = 0 ↔ _
        rw [ih bs (fun h => hu (List.mem_cons_of_mem _ h)) (fun h => hv (List.mem_cons_of_mem _ h))]
        simp
      · simp only [ne_eq, hab, not_false_eq_true, if_true]
        constructor
        · intro h; omega
        · intro h; injection h with h1 _; exact absurd h1 hab

theorem memcmp16_eq_zero_iff (us vs : List Nat) (hl : us.length = vs.length)
    (hu : ∀ u ∈ us, u < 65536) (hv : ∀ v ∈ vs, v < 65536) :
    memcmp (str16_bytes us) (str16_bytes vs) (us.length * 2) = 0 ↔ us = vs := by
  induction us generalizing vs with
  | nil =>
    cases vs with
    | nil => simp [memcmp]
    | cons b bs => simp at hl
  | cons a as ih =>
    cases vs with
    | nil => simp at hl
    | cons b bs =>
      have ha := hu a (List.mem_cons_self _ _)
      have hb := hv b (List.mem_cons_self _ _)
      simp only [List.length_cons] at hl ⊢
      rw [show (as.length + 1) * 2 = as.length * 2 + 1 + 1 by ring]
      simp only [str16_bytes, memcmp, List.headD_cons, List.tail_cons]
      by_cases h1 : a % 256 = b % 256
      · by_cases h2 : a / 256 % 256 = b / 256 % 256
        · have hab : a = b := by omega
          subst hab
          simp only [ne_eq, not_true_eq_false, if_false]
          rw [ih bs (by omega) (fun u h => hu u (List.mem_cons_of_mem _ h))
            (fun v h => hv v (List.mem_cons_of_mem _ h))]
          simp
        · have hab : a ≠ b := fun h => h2 (by rw [h])
          simp only [ne_eq, h1, not_true_eq_false, if_false, h2, not_false_eq_true, if_true]
          constructor
          · intro h; omega
          · intro h; injection h with h3 _; exact absurd h3 hab
      · have hab : a ≠ b := fun h => h1 (by rw [h])
        simp only [ne_eq, h1, not_false_eq_true, if_true]
        constructor
        · intro h; omega
        · intro h; injection h with h3 _; exact absurd h3 hab

theorem narrow_layout (s : LCString) (hw : s.is_wide_char = false) (h : s.well_formed) :
    s.str = s.units ++ [0] ∧ s.units.length = s.length := by
  unfold LCString.well_formed at h
  simp only [hw, Bool.false_eq_true, if_false] at h
  obtain ⟨h1, h2, _⟩ := h
  unfold LCString.units
  have hsplit := (List.take_append_drop s.length s.str).symm
  have hdl : (s.str.drop s.length).length = 1 := by rw [List.length_drop]; omega
  obtain ⟨x, hx⟩ := List.length_eq_one.1 hdl
  have hx0 : x = 0 := by
    have hg : s.str.getD s.length 1 = (s.str.drop s.length).getD 0 1 := by
      simp [List.getD_eq_getElem?_getD, List.getElem?_drop]
    rw [hg, hx] at h2
    simpa using h2
  subst hx0
  refine ⟨by rw [← hx]; exact hsplit, ?_⟩
  rw [List.length_take]; omega

theorem wide_layout (s : LCString) (hw : s.is_wide_char = true) (h : s.well_formed) :
    s.units = s.str ∧ s.str.length = s.length ∧ ∀ u ∈ s.str, u < 65536 := by
  unfold LCString.well_formed at h
  simp only [hw, if_true] at h
  unfold LCString.units
  exact ⟨by rw [← h.1, List.take_length], h.1, h.2⟩


/-- Equality on two well-formed string objects. -/
theorem string_cmp_eq_str (a b : LCString) (wa : a.well_formed) (wb : b.well_formed) :
    (a.is_wide_char ≠ b.is_wide_char → lc_std_string_cmp_str LC_CMP_EQ a b = LCFalse) ∧
    (a.hash ≠ 0 ∧ b.hash ≠ 0 ∧ a.hash ≠ b.hash →
      lc_std_string_cmp_str LC_CMP_EQ a b = LCFalse) ∧
    (a.is_wide_char = b.is_wide_char → (a.hash = 0 ∨ b.hash = 0 ∨ a.hash = b.hash) →
      (a.is_wide_char = false → 0 ∉ a.units ∧ 0 ∉ b.units) →
      (lc_std_string_cmp_str LC_CMP_EQ a b = LCTrue ↔ a.units = b.units)) := by
  have hTF : LCTrue ≠ LCFalse := by decide
  refine ⟨fun hw => ?_, fun hh => ?_, fun hw hh hz => ?_⟩
  · unfold lc_std_string_cmp_str
    by_cases hl : a.length ≠ b.length
    · simp [hl]
    · simp [hl, hw]
  · unfold lc_std_string_cmp_str
    by_cases hl : a.length ≠ b.length
    · simp [hl]
    · by_cases hw : a.is_wide_char ≠ b.is_wide_char
      · simp [hl, hw]
      · simp only [hl, and_false, if_false, hw, true_and]
        rw [if_pos hh]
  · have hnh : ¬ (a.hash ≠ 0 ∧ b.hash ≠ 0 ∧ a.hash ≠ b.hash) := by
      rintro ⟨h1, h2, h3⟩
      rcases hh with h | h | h
      · exact h1 h
      · exact h2 h
      · exact h3 h
    unfold lc_std_string_cmp_str
    by_cases hl : a.length = b.length
    swap
    · have hne : a.units ≠ b.units := by
        intro he
        apply hl
        cases hwa : a.is_wide_char
        · have h1 := (narrow_layout a hwa wa).2
          have h2 := (narrow_layout b (by rw [← hw, hwa]) wb).2
          rw [← h1, ← h2, he]
        · have h1 := wide_layout a hwa wa
          have h2 := wide_layout b (by rw [← hw, hwa]) wb
          rw [← h1.2.1, ← h2.2.1, ← h1.1, ← h2.1, he]
      simp only [ne_eq, hl, not_false_eq_true, and_self, if_true]
      exact ⟨fun h => absurd h.symm hTF, fun h => absurd h hne⟩
    have hnw : ¬ (a.is_wide_char ≠ b.is_wide_char) := by simp [hw]
    simp only [ne_eq, hl, not_true_eq_false, and_false, if_false, hnw, hnh, sub_self]
    have h0 : toI32 0 = 0 := by decide
    simp only [h0, not_true_eq_false, if_false]
    cases hwa : a.is_wide_char
    · have hwb : b.is_wide_char = false := by rw [← hw, hwa]
      obtain ⟨ha1, ha2⟩ := narrow_layout a hwa wa
      obtain ⟨hb1, hb2⟩ := narrow_layout b hwb wb
      obtain ⟨za, zb⟩ := hz hwa
      simp only [hwb, and_self, if_true]
      rw [ha1, hb1]
      have := strcmp_eq_zero_iff a.units b.units za zb
      by_cases hc : strcmp (a.units ++ [0]) (b.units ++ [0]) = 0
      · simp only [hc, if_true, true_iff]; exact this.1 hc
      · simp only [hc, if_false]
        exact ⟨fun h => absurd h.symm hTF, fun h => absurd (this.2 h) hc⟩
    · have hwb : b.is_wide_char = true := by rw [← hw, hwa]
      obtain ⟨ha1, ha2, ha3⟩ := wide_layout a hwa wa
      obtain ⟨hb1, hb2, hb3⟩ := wide_layout b hwb wb
      simp only [hwb, Bool.true_eq_false, and_self, if_false]
      unfold lc_std_string_cmp_slow
      simp only [hwa, hwb, if_true]
      rw [ha1, hb1, ← ha2]
      have := memcmp16_eq_zero_iff a.str b.str (by omega) ha3 hb3
      by_cases hc : memcmp (str16_bytes a.str) (str16_bytes b.str) (a.str.length * 2) = 0
      · simp only [hc, if_true, true_iff]; exact this.1 hc
      · simp only [hc, if_false]
        exact ⟨fun h => absurd h.symm hTF, fun h => absurd (this.2 h) hc⟩

theorem header_set_count (o : LCObject) (h : LCObjectHeader) (k : Int)
    (ho : o.header = some h) : (o.set_count k).header = some { h with count := k } := by
  cases o <;> simp [LCObject.set_count, LCObject.header] at ho ⊢ <;> rw [← ho]

theorem set_count_set_count (o : LCObject) (a b : Int) :
    (o.set_count a).set_count b = o.set_count b := by
  cases o <;> simp [LCObject.set_count]

theorem set_count_self (o : LCObject) (h : LCObjectHeader) (ho : o.header = some h) :
    o.set_count h.count = o := by
  cases o <;> simp [LCObject.set_count, LCObject.header] at ho ⊢ <;> rw [← ho]

theorem heap_store_store_self (rt : LCRuntime) (p : Nat) (o o1 : LCObject)
    (h : rt.heap p = some o) : heap_store (heap_store rt p o1) p o = rt := by
  unfold heap_store
  cases rt with
  | mk mc seed heap next cls fin sb sbs sl cap =>
    simp only [LCRuntime.mk.injEq, true_and, and_true]
    funext q
    by_cases hq : q = p
    · subst hq; simp at h ⊢; exact h.symm
    · simp [hq]

/-- C1: for a value that points to a mortal object with count `c >= 1` (the
sentinel `LC_NO_GC` not being a positive count), `LCRetain` followed by
`LCRelease` returns, leaves the count at `c`, frees nothing, runs no finalizer
and leaves the allocation counter unchanged: the runtime is back in the state
it started from. -/
theorem retain_then_release (pf : Platform) (rt : LCRuntime) (v : LCValue) (o : LCObject)
    (h : LCObjectHeader) (fuel : Nat) (hsent : pf.LC_NO_GC ≤ 0)
    (hv : v.tag.is_primitive = false) (ho : rt.heap v.ptr_val = some o)
    (hh : o.header = some h) (hc : 1 ≤ h.count) :
    ∃ rt1 rt2, LCRetain pf rt v = .ok rt1 ∧ LCRelease pf (fuel + 1) rt1 v = .ok rt2 ∧
      rt2.heap v.ptr_val = some o ∧ rt2.heap = rt.heap ∧
      rt2.malloc_count = rt.malloc_count ∧ rt2.finalized = rt.finalized ∧ rt2 = rt := by
  have hne : h.count ≠ pf.LC_NO_GC := by omega
  have hr : LCRetain pf rt v = .ok (heap_store rt v.ptr_val (o.set_count (h.count + 1))) := by
    unfold LCRetain
    simp only [hv, Bool.false_eq_true, if_false, ho, hh, hne]
  have hl : LCRelease pf (fuel + 1) (heap_store rt v.ptr_val (o.set_count (h.count + 1))) v
      = .ok rt := by
    rw [LCRelease]
    have hlook : (heap_store rt v.ptr_val (o.set_count (h.count + 1))).heap v.ptr_val
        = some (o.set_count (h.count + 1)) := by simp [heap_store]
    simp only [hv, Bool.false_eq_true, if_false, hlook,
      header_set_count o h (h.count + 1) hh]
    rw [if_neg (by show h.count + 1 ≠ pf.LC_NO_GC; omega),
      if_neg (by show ¬ (h.count + 1 - 1 = 0); omega)]
    rw [set_count_set_count, show h.count + 1 - 1 = h.count by ring, set_count_self o h hh,
      heap_store_store_self rt _ _ _ ho]
  exact ⟨_, rt, hr, hl, ho, rfl, rfl, rfl, rfl⟩

theorem retain_then_release_witness :
    ∃ rt1 rt2, LCRetain example_platform
        (example_heap [LCObject.string example_narrow_a]) (MK_STRING 1) = .ok rt1 ∧
      LCRelease example_platform (0 + 1) rt1 (MK_STRING 1) = .ok rt2 ∧
      rt2.heap (MK_STRING 1).ptr_val = some (LCObject.string example_narrow_a) ∧
      rt2.heap = (example_heap [LCObject.string example_narrow_a]).heap ∧
      rt2.malloc_count = (example_heap [LCObject.string example_narrow_a]).malloc_count ∧
      rt2.finalized = (example_heap [LCObject.string example_narrow_a]).finalized ∧
      rt2 = example_heap [LCObject.string example_narrow_a] :=
  retain_then_release example_platform (example_heap [LCObject.string example_narrow_a])
    (MK_STRING 1) (LCObject.string example_narrow_a) example_narrow_a.header 0
    (by decide) rfl rfl rfl (by decide)


/-! ## Count bookkeeping for the life cycle of a fresh object -/

theorem runtime_heap_ext (rt : LCRuntime) (h1 h2 : Nat → Option LCObject)
    (h : ∀ q, h1 q = h2 q) : { rt with heap := h1 } = { rt with heap := h2 } := by
  have : h1 = h2 := funext h
  rw [this]

theorem bump_heap_at (pf : Platform) (rt : LCRuntime) (d : Nat → Int) (q : Nat) :
    (bump pf rt d).heap q = (rt.heap q).map (fun o => bump_obj pf o (d q)) :=
  rfl

theorem bump_obj_mortal (pf : Platform) (o : LCObject) (h : LCObjectHeader) (k : Int)
    (ho : o.header = some h) (hne : h.count ≠ pf.LC_NO_GC) :
    bump_obj pf o k = o.set_count (h.count + k) := by
  unfold bump_obj
  rw [ho]
  simp only [hne, if_false]

theorem bump_obj_immortal (pf : Platform) (o : LCObject) (h : LCObjectHeader) (k : Int)
    (ho : o.header = some h) (he : h.count = pf.LC_NO_GC) : bump_obj pf o k = o := by
  unfold bump_obj
  rw [ho]
  simp only [he, if_true]

theorem bump_obj_zero (pf : Platform) (o : LCObject) : bump_obj pf o 0 = o := by
  unfold bump_obj
  cases hh : o.header with
  | none => rfl
  | some h => simp only [add_zero, set_count_self o h hh, ite_self]

theorem bump_obj_congr (pf : Platform) (o : LCObject) (k1 k2 : Int)
    (h : (∃ hd, o.header = some hd ∧ hd.count ≠ pf.LC_NO_GC) → k1 = k2) :
    bump_obj pf o k1 = bump_obj pf o k2 := by
  unfold bump_obj
  cases hh : o.header with
  | none => rfl
  | some hd =>
    simp only []
    by_cases hc : hd.count = pf.LC_NO_GC
    · simp only [hc, if_true]
    · rw [h ⟨hd, hh, hc⟩]

theorem bump_congr (pf : Platform) (rt : LCRuntime) (d1 d2 : Nat → Int)
    (h : ∀ q, (∃ o hd, rt.heap q = some o ∧ o.header = some hd ∧ hd.count ≠ pf.LC_NO_GC) →
      d1 q = d2 q) : bump pf rt d1 = bump pf rt d2 := by
  unfold bump
  apply runtime_heap_ext
  intro q
  cases ho : rt.heap q with
  | none => rfl
  | some o =>
    simp only [Option.map_some']
    rw [bump_obj_congr pf o (d1 q) (d2 q) (fun ⟨hd, hh, hc⟩ => h q ⟨o, hd, ho, hh, hc⟩)]

theorem bump_zero (pf : Platform) (rt : LCRuntime) : bump pf rt (fun _ => 0) = rt := by
  unfold bump
  cases rt with
  | mk mc seed heap next cls fin sb sbs sl cap =>
    simp only [LCRuntime.mk.injEq, true_and, and_true]
    funext q
    cases ho : heap q with
    | none => rfl
    | some o => simp only [Option.map_some', bump_obj_zero]

theorem delta_nonneg (v : LCValue) (q : Nat) : 0 ≤ delta v q := by
  unfold delta; split_ifs <;> omega

theorem mult_nonneg (vs : List LCValue) (q : Nat) : 0 ≤ mult vs q := by
  induction vs with
  | nil => simp [mult]
  | cons v vs ih => have := delta_nonneg v q; simp only [mult]; omega

theorem delta_self (v : LCValue) (hv : v.tag.is_primitive = false) : delta v v.ptr_val = 1 := by
  simp [delta, hv]

theorem delta_primitive (v : LCValue) (hv : v.tag.is_primitive = true) (q : Nat) :
    delta v q = 0 := by
  simp [delta, hv]

/-- A retain in a state reached from `rt` by count changes `d` adds one to the
change at the object retained. -/
theorem retain_bump (pf : Platform) (rt : LCRuntime) (d : Nat → Int) (v : LCValue)
    (hsent : pf.LC_NO_GC ≤ 0) (hval : valid_value pf rt v)
    (hd : v.tag.is_primitive = false → 0 ≤ d v.ptr_val) :
    LCRetain pf (bump pf rt d) v = .ok (bump pf rt (fun q => d q + delta v q)) := by
  unfold LCRetain
  cases hp : v.tag.is_primitive with
  | true =>
    simp only [if_true]
    congr 1
    exact bump_congr pf rt _ _ (fun q _ => by simp [delta_primitive v hp])
  | false =>
    simp only [Bool.false_eq_true, if_false]
    rcases hval with hprim | ⟨o, h, ho, hh, hc⟩
    · rw [hp] at hprim; exact absurd hprim (by decide)
    by_cases himm : h.count = pf.LC_NO_GC
    · have hlook : (bump pf rt d).heap v.ptr_val = some o := by
        rw [bump_heap_at, ho, Option.map_some', bump_obj_immortal pf o h _ hh himm]
      rw [hlook]
      simp only [hh, himm, if_true]
      congr 1
      apply bump_congr
      rintro q ⟨o2, h2, ho2, hh2, hc2⟩
      by_cases hq : q = v.ptr_val
      · subst hq
        rw [ho] at ho2; injection ho2 with ho2; subst ho2
        rw [hh] at hh2; injection hh2 with hh2; subst hh2
        exact absurd himm hc2
      · simp [delta, Ne.symm hq]
    · have hpos : 1 ≤ h.count := by
        rcases hc with hc | hc
        · exact absurd hc himm
        · exact hc
      have hd0 := hd hp
      have hlook : (bump pf rt d).heap v.ptr_val
          = some (o.set_count (h.count + d v.ptr_val)) := by
        rw [bump_heap_at, ho, Option.map_some', bump_obj_mortal pf o h _ hh himm]
      rw [hlook]
      simp only [header_set_count o h _ hh]
      rw [if_neg (by show h.count + d v.ptr_val ≠ pf.LC_NO_GC; omega)]
      congr 1
      unfold heap_store bump
      simp only []
      apply runtime_heap_ext
      intro q
      by_cases hq : q = v.ptr_val
      · subst hq
        simp only [if_true, ho, Option.map_some', bump_obj_mortal pf o h _ hh himm,
          set_count_set_count, delta_self v hp]
        congr 2
        ring
      · simp only [hq, if_false, delta, Ne.symm hq, and_false, add_zero]

/-- A release of an object whose count stays positive takes one from the
change at that object. -/
theorem release_bump (pf : Platform) (rt : LCRuntime) (d : Nat → Int) (v : LCValue)
    (fuel : Nat) (hsent : pf.LC_NO_GC ≤ 0) (hval : valid_value pf rt v)
    (hd : v.tag.is_primitive = false → 1 ≤ d v.ptr_val) :
    LCRelease pf (fuel + 1) (bump pf rt d) v = .ok (bump pf rt (fun q => d q - delta v q)) := by
  rw [LCRelease]
  cases hp : v.tag.is_primitive with
  | true =>
    simp only [if_true]
    congr 1
    exact bump_congr pf rt _ _ (fun q _ => by simp [delta_primitive v hp])
  | false =>
    simp only [Bool.false_eq_true, if_false]
    rcases hval with hprim | ⟨o, h, ho, hh, hc⟩
    · rw [hp] at hprim; exact absurd hprim (by decide)
    by_cases himm : h.count = pf.LC_NO_GC
    · have hlook : (bump pf rt d).heap v.ptr_val = some o := by
        rw [bump_heap_at, ho, Option.map_some', bump_obj_immortal pf o h _ hh himm]
      rw [hlook]
      simp only [hh, himm, if_true]
      congr 1
      apply bump_congr
      rintro q ⟨o2, h2, ho2, hh2, hc2⟩
      by_cases hq : q = v.ptr_val
      · subst hq
        rw [ho] at ho2; injection ho2 with ho2; subst ho2
        rw [hh] at hh2; injection hh2 with hh2; subst hh2
        exact absurd himm hc2
      · simp [delta, Ne.symm hq]
    · have hpos : 1 ≤ h.count := by
        rcases hc with hc | hc
        · exact absurd hc himm
        · exact hc
      have hd0 := hd hp
      have hlook : (bump pf rt d).heap v.ptr_val
          = some (o.set_count (h.count + d v.ptr_val)) := by
        rw [bump_heap_at, ho, Option.map_some', bump_obj_mortal pf o h _ hh himm]
      rw [hlook]
      simp only [header_set_count o h _ hh]
      rw [if_neg (by show h.count + d v.ptr_val ≠ pf.LC_NO_GC; omega),
        if_neg (by show ¬ (h.count + d v.ptr_val - 1 = 0); omega)]
      congr 1
      unfold heap_store bump
      simp only []
      apply runtime_heap_ext
      intro q
      by_cases hq : q = v.ptr_val
      · subst hq
        simp only [if_true, ho, Option.map_some', bump_obj_mortal pf o h _ hh himm,
          set_count_set_count, delta_self v hp]
        congr 2
        ring
      · simp only [hq, if_false, delta, Ne.symm hq, and_false, sub_zero]


theorem retain_all_bump (pf : Platform) (rt : LCRuntime) (hsent : pf.LC_NO_GC ≤ 0) :
    ∀ (cs : List LCValue) (d : Nat → Int), (∀ v ∈ cs, valid_value pf rt v) →
      (∀ v ∈ cs, v.tag.is_primitive = false → 0 ≤ d v.ptr_val) →
      retain_all pf (bump pf rt d) cs = .ok (bump pf rt (fun q => d q + mult cs q)) := by
  intro cs
  induction cs with
  | nil =>
    intro d _ _
    simp only [retain_all, mult, add_zero]
  | cons v vs ih =>
    intro d hval hd
    rw [retain_all, retain_bump pf rt d v hsent (hval v (List.mem_cons_self _ _))
      (hd v (List.mem_cons_self _ _))]
    simp only []
    rw [ih _ (fun w hw => hval w (List.mem_cons_of_mem _ hw)) (fun w hw hp => by
      have := hd w (List.mem_cons_of_mem _ hw) hp
      have := delta_nonneg v w.ptr_val
      omega)]
    congr 2
    funext q
    simp only [mult]
    ring

theorem release_all_bump (pf : Platform) (rt : LCRuntime) (fuel : Nat)
    (hsent : pf.LC_NO_GC ≤ 0) :
    ∀ (cs : List LCValue) (d : Nat → Int), (∀ v ∈ cs, valid_value pf rt v) →
      (∀ v ∈ cs, v.tag.is_primitive = false → 0 ≤ d v.ptr_val) →
      release_all (fun r w => LCRelease pf (fuel + 1) r w)
        (bump pf rt (fun q => d q + mult cs q)) cs = .ok (bump pf rt d) := by
  intro cs
  induction cs with
  | nil =>
    intro d _ _
    simp only [release_all, mult, add_zero]
  | cons v vs ih =>
    intro d hval hd
    rw [release_all, release_bump pf rt _ v fuel hsent (hval v (List.mem_cons_self _ _))
      (fun hp => by
        have := hd v (List.mem_cons_self _ _) hp
        have := mult_nonneg vs v.ptr_val
        simp only [mult, delta_self v hp]
        omega)]
    simp only []
    have : (fun q => d q + mult (v :: vs) q - delta v q) = (fun q => d q + mult vs q) := by
      funext q; simp only [mult]; ring
    rw [this]
    exact ih d (fun w hw => hval w (List.mem_cons_of_mem _ hw))
      (fun w hw hp => hd w (List.mem_cons_of_mem _ hw) hp)

theorem release_n_snoc (pf : Platform) (fuel : Nat) (v : LCValue) :
    ∀ (n : Nat) (rt rt1 : LCRuntime), release_n pf fuel n rt v = .ok rt1 →
      release_n pf fuel (n + 1) rt v = LCRelease pf fuel rt1 v := by
  intro n
  induction n with
  | zero =>
    intro rt rt1 h
    simp only [release_n] at h
    injection h with h
    subst h
    simp only [release_n]
    cases LCRelease pf fuel rt v <;> rfl
  | succ n ih =>
    intro rt rt1 h
    rw [release_n] at h ⊢
    cases hr : LCRelease pf fuel rt v with
    | error e => rw [hr] at h; simp at h
    | ok rt2 =>
      rw [hr] at h
      simp only [] at h ⊢
      exact ih rt2 rt1 h

theorem mult_fresh (pf : Platform) (rt : LCRuntime) (cs : List LCValue) (p : Nat)
    (hfresh : rt.heap p = none) (hval : ∀ c ∈ cs, valid_value pf rt c) : mult cs p = 0 := by
  induction cs with
  | nil => rfl
  | cons c cs ih =>
    simp only [mult]
    rw [ih (fun w hw => hval w (List.mem_cons_of_mem _ hw))]
    have hc := hval c (List.mem_cons_self _ _)
    unfold delta
    rcases hc with hprim | ⟨o, h, ho, _, _⟩
    · simp [hprim]
    · have : c.ptr_val ≠ p := by
        intro he; rw [he, hfresh] at ho; simp at ho
      simp [this]

theorem valid_value_heap_new (pf : Platform) (rt : LCRuntime) (par : LCObject) (c : LCValue)
    (hfresh : rt.heap rt.next = none) (hc : valid_value pf rt c) :
    valid_value pf (heap_new rt par).1 c := by
  rcases hc with hprim | ⟨o, h, ho, hh, hcnt⟩
  · exact Or.inl hprim
  · refine Or.inr ⟨o, h, ?_, hh, hcnt⟩
    have : c.ptr_val ≠ rt.next := by
      intro he; rw [he, hfresh] at ho; simp at ho
    simp [heap_new, this, ho]

theorem heap_new_bump (pf : Platform) (rt : LCRuntime) (par : LCObject) (d : Nat → Int)
    (hd : d rt.next = 0) :
    (heap_new (bump pf rt d) par).1 = bump pf (heap_new rt par).1 d := by
  unfold heap_new bump
  simp only [LCRuntime.mk.injEq, true_and, and_true]
  funext q
  by_cases hq : q = rt.next
  · subst hq
    simp only [if_true, Option.map_some', hd, bump_obj_zero]
  · simp only [hq, if_false]


theorem ptr_val_mk (tag : LCObjectType) (p : Nat) : (LCValue.mk tag (p : Int)).ptr_val = p := by
  simp [LCValue.ptr_val]

theorem retain_n_bump (pf : Platform) (R : LCRuntime) (v : LCValue) (m : Nat → Int)
    (hsent : pf.LC_NO_GC ≤ 0) (hval : valid_value pf R v) (hm : 0 ≤ m v.ptr_val) :
    ∀ (n k : Nat), retain_n pf n (bump pf R (fun q => m q + (k : Int) * delta v q)) v
      = .ok (bump pf R (fun q => m q + ((k + n : Nat) : Int) * delta v q)) := by
  intro n
  induction n with
  | zero => intro k; rfl
  | succ n ih =>
    intro k
    rw [retain_n, retain_bump pf R _ v hsent hval (fun _ => by
      have := delta_nonneg v v.ptr_val
      have : 0 ≤ (k : Int) * delta v v.ptr_val := mul_nonneg (by omega) this
      omega)]
    simp only []
    have : (fun q => m q + (k : Int) * delta v q + delta v q)
        = (fun q => m q + ((k + 1 : Nat) : Int) * delta v q) := by
      funext q; push_cast; ring
    rw [this, ih (k + 1)]
    congr 3
    funext q
    congr 2
    push_cast
    ring

theorem release_n_bump (pf : Platform) (R : LCRuntime) (v : LCValue) (m : Nat → Int)
    (fuel : Nat) (hsent : pf.LC_NO_GC ≤ 0) (hval : valid_value pf R v)
    (hv : v.tag.is_primitive = false) (hm : 0 ≤ m v.ptr_val) :
    ∀ (n k : Nat), release_n pf (fuel + 1) n
        (bump pf R (fun q => m q + ((k + n : Nat) : Int) * delta v q)) v
      = .ok (bump pf R (fun q => m q + (k : Int) * delta v q)) := by
  intro n
  induction n with
  | zero => intro k; rfl
  | succ n ih =>
    intro k
    rw [release_n, release_bump pf R _ v fuel hsent hval (fun _ => by
      simp only [delta_self v hv]
      push_cast
      omega)]
    simp only []
    have : (fun q => m q + ((k + (n + 1) : Nat) : Int) * delta v q - delta v q)
        = (fun q => m q + ((k + n : Nat) : Int) * delta v q) := by
      funext q; push_cast; ring
    rw [this, ih k]

/-- Life cycle of an object `par` with count 1 at address `p` whose children `cs`
were retained when it was built: `N` retains and `N + 1` releases free it on
the last release and leave every other object as it was before the children
were retained. -/
theorem fresh_object_life_cycle (pf : Platform) (R : LCRuntime) (par : LCObject)
    (h : LCObjectHeader) (tag : LCObjectType) (p : Nat) (cs : List LCValue) (a : Int)
    (N fuel : Nat) (hsent : pf.LC_NO_GC ≤ 0) (htag : tag.is_primitive = false)
    (hpar : R.heap p = some par) (hh : par.header = some h) (hcount : h.count = 1)
    (hcs : ∀ c ∈ cs, valid_value pf R c)
    (hne : ∀ c ∈ cs, c.tag.is_primitive = false → c.ptr_val ≠ p)
    (hfree : ∀ X X1 : LCRuntime, X.heap p = some (par.set_count 0) →
      release_all (fun r w => LCRelease pf (fuel + 1) r w) X cs = .ok X1 →
      ∃ Y, LCFreeObject (fun r w => LCRelease pf (fuel + 1) r w) (fuel + 1) X ⟨tag, p⟩ = .ok Y ∧
        Y.heap = (fun q => if q = p then none else X1.heap q) ∧
        Y.malloc_count = X1.malloc_count - a) :
    ∃ S1, retain_n pf N (bump pf R (fun q => mult cs q)) ⟨tag, p⟩ = .ok S1 ∧
      (∀ k, k ≤ N → ∃ Sk, release_n pf (fuel + 2) k S1 ⟨tag, p⟩ = .ok Sk ∧ Sk.heap p ≠ none) ∧
      ∃ S4, release_n pf (fuel + 2) (N + 1) S1 ⟨tag, p⟩ = .ok S4 ∧
        (∀ q, S4.heap q = if q = p then none else R.heap q) ∧
        S4.malloc_count = R.malloc_count - a := by
  have hvp : (LCValue.mk tag (p : Int)).ptr_val = p := ptr_val_mk tag p
  have hvprim : (LCValue.mk tag (p : Int)).tag.is_primitive = false := htag
  have hval : valid_value pf R ⟨tag, p⟩ :=
    Or.inr ⟨par, h, by rw [hvp]; exact hpar, hh, Or.inr (by omega)⟩
  have hmp : mult cs p = 0 := by
    clear hfree hcs
    induction cs with
    | nil => rfl
    | cons c cs ih =>
      simp only [mult]
      rw [ih (fun w hw hp => hne w (List.mem_cons_of_mem _ hw) hp)]
      unfold delta
      by_cases hc : c.tag.is_primitive = false
      · have := hne c (List.mem_cons_self _ _) hc
        simp [this]
      · simp [hc]
  have hm0 : 0 ≤ (fun q => mult cs q) (LCValue.mk tag (p : Int)).ptr_val := by
    rw [hvp]; simp only [hmp]; omega
  have hmortal : h.count ≠ pf.LC_NO_GC := by omega
  have hstart : bump pf R (fun q => mult cs q)
      = bump pf R (fun q => mult cs q + ((0 : Nat) : Int) * delta ⟨tag, p⟩ q) := by
    congr 1; funext q; simp
  have hret := retain_n_bump pf R ⟨tag, p⟩ (fun q => mult cs q) hsent hval hm0 N 0
  rw [← hstart] at hret
  simp only [Nat.zero_add] at hret
  refine ⟨_, hret, ?_, ?_⟩
  · intro k hk
    obtain ⟨j, rfl⟩ : ∃ j, N = j + k := ⟨N - k, by omega⟩
    have hrel := release_n_bump pf R ⟨tag, p⟩ (fun q => mult cs q) (fuel + 1) hsent hval
      hvprim hm0 k j
    refine ⟨_, hrel, ?_⟩
    rw [bump_heap_at, hpar]
    simp
  · have hrel := release_n_bump pf R ⟨tag, p⟩ (fun q => mult cs q) (fuel + 1) hsent hval
      hvprim hm0 N 0
    simp only [Nat.zero_add] at hrel
    rw [release_n_snoc pf (fuel + 2) ⟨tag, p⟩ N _ _ hrel, ← hstart]
    -- the last release
    rw [LCRelease]
    have hlook : (bump pf R (fun q => mult cs q)).heap (LCValue.mk tag (p : Int)).ptr_val
        = some (par.set_count (h.count + 0)) := by
      rw [hvp, bump_heap_at, hpar, Option.map_some', bump_obj_mortal pf par h _ hh hmortal, hmp]
    simp only [hvprim, Bool.false_eq_true, if_false, hlook, header_set_count par h _ hh]
    rw [if_neg (by show h.count + 0 ≠ pf.LC_NO_GC; omega),
      if_pos (by show h.count + 0 - 1 = 0; omega)]
    rw [set_count_set_count, hvp, show h.count + 0 - 1 = 0 by omega]
    have hX : heap_store (bump pf R (fun q => mult cs q)) p (par.set_count 0)
        = bump pf R (fun q => (- delta ⟨tag, p⟩ q) + mult cs q) := by
      unfold heap_store bump
      simp only []
      apply runtime_heap_ext
      intro q
      by_cases hq : q = p
      · subst hq
        simp only [if_true, hpar, Option.map_some', hmp, add_zero]
        rw [bump_obj_mortal pf par h _ hh hmortal]
        have : delta (LCValue.mk tag (q : Int)) q = 1 := by
          have := delta_self (LCValue.mk tag (q : Int)) hvprim
          rw [hvp] at this; exact this
        rw [this, hcount]
        norm_num
      · have : delta (LCValue.mk tag (p : Int)) q = 0 := by
          unfold delta; rw [hvp]; simp [Ne.symm hq]
        simp only [hq, if_false, this, neg_zero, zero_add]
    have hrel_all := release_all_bump pf R fuel hsent cs (fun q => - delta ⟨tag, p⟩ q) hcs
      (fun c hc hp => by
        have := hne c hc hp
        have : delta (LCValue.mk tag (p : Int)) c.ptr_val = 0 := by
          unfold delta; rw [hvp]; simp [Ne.symm this]
        simp only [this]; omega)
    have hXp : (heap_store (bump pf R (fun q => mult cs q)) p (par.set_count 0)).heap p
        = some (par.set_count 0) := by
      simp [heap_store]
    have hrel_all2 : release_all (fun r w => LCRelease pf (fuel + 1) r w)
        (heap_store (bump pf R (fun q => mult cs q)) p (par.set_count 0)) cs
        = .ok (bump pf R (fun q => - delta ⟨tag, p⟩ q)) := by
      rw [hX]; exact hrel_all
    obtain ⟨Y, hY, hYheap, hYm⟩ := hfree _ _ hXp hrel_all2
    refine ⟨Y, hY, ?_, ?_⟩
    · intro q
      rw [hYheap]
      by_cases hq : q = p
      · simp only [hq, if_true]
      · simp only [hq, if_false, bump_heap_at]
        have : delta (LCValue.mk tag (p : Int)) q = 0 := by
          unfold delta; rw [hvp]; simp [Ne.symm hq]
        rw [this]
        cases R.heap q with
        | none => rfl
        | some o => simp only [Option.map_some', neg_zero, bump_obj_zero]
    · rw [hYm]; rfl


theorem valid_value_of_heap_eq (pf : Platform) (rt rt1 : LCRuntime) (c : LCValue)
    (h : rt1.heap = rt.heap) (hc : valid_value pf rt c) : valid_value pf rt1 c := by
  unfold valid_value at hc ⊢
  rw [h]; exact hc

/-- Life cycle of an object built by `a` counted allocations, retains of the
values `cs` and a store of the initialised object `par`, when finalisation
releases `cs` and gives the `a` allocations back. -/
theorem ctor_life_cycle (pf : Platform) (rt : LCRuntime) (par : LCObject)
    (h : LCObjectHeader) (tag : LCObjectType) (cs : List LCValue) (a : Int) (N fuel : Nat)
    (hsent : pf.LC_NO_GC ≤ 0) (htag : tag.is_primitive = false)
    (hfresh : rt.heap rt.next = none) (hh : par.header = some h) (hcount : h.count = 1)
    (hcs : ∀ c ∈ cs, valid_value pf rt c)
    (hfree : ∀ X X1 : LCRuntime, X.heap rt.next = some (par.set_count 0) →
      release_all (fun r w => LCRelease pf (fuel + 1) r w) X cs = .ok X1 →
      ∃ Y, LCFreeObject (fun r w => LCRelease pf (fuel + 1) r w) (fuel + 1) X
          ⟨tag, rt.next⟩ = .ok Y ∧
        Y.heap = (fun q => if q = rt.next then none else X1.heap q) ∧
        Y.malloc_count = X1.malloc_count - a) :
    ∃ rtc, retain_all pf { rt with malloc_count := rt.malloc_count + a } cs = .ok rtc ∧
      rtc.next = rt.next ∧
      frees_on_last_release pf rt (heap_new rtc par).1 ⟨tag, rt.next⟩ N fuel := by
  have hcs1 : ∀ c ∈ cs, valid_value pf { rt with malloc_count := rt.malloc_count + a } c :=
    fun c hc => valid_value_of_heap_eq pf rt _ c rfl (hcs c hc)
  have hret := retain_all_bump pf { rt with malloc_count := rt.malloc_count + a } hsent cs
    (fun _ => 0) hcs1 (fun _ _ _ => le_refl _)
  rw [bump_zero] at hret
  simp only [zero_add] at hret
  refine ⟨_, hret, rfl, ?_⟩
  have hmp : mult cs rt.next = 0 := mult_fresh pf rt cs rt.next hfresh hcs
  rw [heap_new_bump pf { rt with malloc_count := rt.malloc_count + a } par
    (fun q => mult cs q) hmp]
  have hvp : (LCValue.mk tag (rt.next : Int)).ptr_val = rt.next := ptr_val_mk tag rt.next
  have hR : (heap_new { rt with malloc_count := rt.malloc_count + a } par).1.heap rt.next
      = some par := by simp [heap_new]
  have hne : ∀ c ∈ cs, c.tag.is_primitive = false → c.ptr_val ≠ rt.next := by
    intro c hc hp he
    rcases hcs c hc with hprim | ⟨o, _, ho, _, _⟩
    · rw [hp] at hprim; exact absurd hprim (by decide)
    · rw [he, hfresh] at ho; simp at ho
  obtain ⟨S1, hS1, hlive, S4, hS4, hheap, hmc⟩ := fresh_object_life_cycle pf
    (heap_new { rt with malloc_count := rt.malloc_count + a } par).1 par h tag rt.next cs a
    N fuel hsent htag hR hh hcount
    (fun c hc => valid_value_heap_new pf _ par c hfresh (hcs1 c hc)) hne hfree
  refine ⟨?_, S1, hS1, ?_, S4, hS4, ?_, ?_, ?_⟩
  · rw [hvp, bump_heap_at, hR]; simp
  · intro k hk
    obtain ⟨Sk, h1, h2⟩ := hlive k hk
    exact ⟨Sk, h1, by rw [hvp]; exact h2⟩
  · rw [hvp, hheap]; simp
  · funext q
    rw [hheap]
    by_cases hq : q = rt.next
    · simp only [hq, if_true]; exact hfresh.symm
    · simp [hq, heap_new]
  · rw [hmc]; simp [heap_new]

theorem lc_malloc_pos (pf : Platform) (rt : LCRuntime) (size : Nat) (h : size ≠ 0) :
    lc_malloc pf rt size = ({ rt with malloc_count := rt.malloc_count + 1 }, true) := by
  unfold lc_malloc
  rw [if_neg (fun hc => h hc.1)]

theorem release_all_nil_ok (release : LCRuntime → LCValue → Except Fault LCRuntime)
    (X X1 : LCRuntime) (h : release_all release X [] = .ok X1) : X1 = X := by
  simp only [release_all] at h
  injection h with h
  exact h.symm


theorem release_all_single (release : LCRuntime → LCValue → Except Fault LCRuntime)
    (X X1 : LCRuntime) (v : LCValue) (h : release_all release X [v] = .ok X1) :
    release X v = .ok X1 := by
  simp only [release_all] at h
  cases hr : release X v with
  | error e => rw [hr] at h; simp at h
  | ok r => rw [hr] at h; simpa using h

theorem retain_all_single (pf : Platform) (X X1 : LCRuntime) (v : LCValue)
    (h : retain_all pf X [v] = .ok X1) : LCRetain pf X v = .ok X1 := by
  simp only [retain_all] at h
  cases hr : LCRetain pf X v with
  | error e => rw [hr] at h; simp at h
  | ok r => rw [hr] at h; simpa using h

theorem slots_all (vs : List LCValue) : slots vs vs.length = .ok vs := by
  unfold slots
  simp

theorem refcell_life_cycle (pf : Platform) (rt : LCRuntime) (value : LCValue) (N fuel : Nat)
    (hsent : pf.LC_NO_GC ≤ 0) (hfresh : rt.heap rt.next = none)
    (hval : valid_value pf rt value) :
    ∃ rt1 v, LCNewRefCell pf rt value = .ok (rt1, v) ∧
      frees_on_last_release pf rt rt1 v N fuel := by
  obtain ⟨rtc, hret, hnext, hlife⟩ := ctor_life_cycle pf rt
    (LCObject.refcell { header := { count := 1, class_id := 0 }, value := value })
    { count := 1, class_id := 0 } LC_TY_REFCELL [value] 1 N fuel hsent rfl hfresh rfl rfl
    (by simpa using hval)
    (by
      intro X X1 hX hrel
      have hr := release_all_single _ X X1 value hrel
      refine ⟨lc_free_at X1 rt.next, ?_, rfl, rfl⟩
      simp only [LCFreeObject, LCFreeRefCell, ptr_val_mk, hX, LCObject.set_count, hr])
  refine ⟨_, _, ?_, hlife⟩
  unfold LCNewRefCell lc_mallocz
  rw [lc_malloc_pos pf rt sizeof_object (by decide), retain_all_single pf _ _ _ hret]
  simp only [heap_new, hnext]

theorem lambda_life_cycle (pf : Platform) (rt : LCRuntime) (c_fun : Nat)
    (args : List LCValue) (N fuel : Nat)
    (hsent : pf.LC_NO_GC ≤ 0) (hfresh : rt.heap rt.next = none)
    (hval : ∀ c ∈ args, valid_value pf rt c) :
    ∃ rt1 v, LCNewLambda pf rt c_fun args.length args = .ok (rt1, v) ∧
      frees_on_last_release pf rt rt1 v N fuel := by
  obtain ⟨rtc, hret, hnext, hlife⟩ := ctor_life_cycle pf rt
    (LCObject.lambda
      { header := { count := 1, class_id := 0 }, c_fun := c_fun,
        captured_values_size := args.length, captured_values := args })
    { count := 1, class_id := 0 } LC_TY_LAMBDA args 1 N fuel hsent rfl hfresh rfl rfl hval
    (by
      intro X X1 hX hrel
      refine ⟨lc_free_at X1 rt.next, ?_, rfl, rfl⟩
      simp only [LCFreeObject, LCFreeLambda, ptr_val_mk, hX, LCObject.set_count, slots_all,
        hrel])
  refine ⟨_, _, ?_, hlife⟩
  unfold LCNewLambda lc_mallocz
  rw [slots_all]
  simp only []
  rw [lc_malloc_pos pf rt _ (by unfold sizeof_object; omega), hret]
  simp only [heap_new, hnext]

theorem union_life_cycle (pf : Platform) (rt : LCRuntime) (tag : Int)
    (args : List LCValue) (N fuel : Nat)
    (hsent : pf.LC_NO_GC ≤ 0) (hfresh : rt.heap rt.next = none)
    (hval : ∀ c ∈ args, valid_value pf rt c) :
    ∃ rt1 v, LCNewUnionObject pf rt tag args.length args = .ok (rt1, v) ∧
      frees_on_last_release pf rt rt1 v N fuel := by
  obtain ⟨rtc, hret, hnext, hlife⟩ := ctor_life_cycle pf rt
    (LCObject.union_object
      { header := { count := 1, class_id := 0 }, tag := tag,
        size := args.length, value := args })
    { count := 1, class_id := 0 } LC_TY_UNION_OBJECT args 1 N fuel hsent rfl hfresh rfl rfl hval
    (by
      intro X X1 hX hrel
      refine ⟨lc_free_at X1 rt.next, ?_, rfl, rfl⟩
      simp only [LCFreeObject, LCFreeUnionObject, ptr_val_mk, hX, LCObject.set_count,
        Int.toNat_ofNat, slots_all, hrel])
  refine ⟨_, _, ?_, hlife⟩
  unfold LCNewUnionObject lc_mallocz
  simp only [Int.toNat_ofNat, slots_all]
  rw [lc_malloc_pos pf rt _ (by unfold sizeof_object; omega), hret]
  simp only [heap_new, hnext]

theorem string_life_cycle (pf : Platform) (rt : LCRuntime) (buf : List Nat) (N fuel : Nat)
    (hsent : pf.LC_NO_GC ≤ 0) (hfresh : rt.heap rt.next = none) :
    ∃ rt1 v, LCNewStringFromCStringLen pf rt buf = .ok (rt1, v) ∧
      frees_on_last_release pf rt rt1 v N fuel := by
  obtain ⟨s, hs, hcount, _⟩ := new_string_str_spec pf rt buf
  obtain ⟨rtc, hret, hnext, hlife⟩ := ctor_life_cycle pf rt (LCObject.string s) s.header
    LC_TY_STRING [] 1 N fuel hsent rfl hfresh rfl hcount (by simp)
    (by
      intro X X1 hX hrel
      have := release_all_nil_ok _ X X1 hrel
      subst this
      exact ⟨lc_free_at X1 rt.next, by simp only [LCFreeObject, ptr_val_mk], rfl, rfl⟩)
  simp only [retain_all] at hret
  injection hret with hret
  subst hret
  refine ⟨_, _, ?_, hlife⟩
  unfold LCNewStringFromCStringLen
  rw [hs]
  rfl

theorem map_life_cycle (pf : Platform) (rt : LCRuntime) (key_ty : LCObjectType)
    (init_size : Int) (N fuel : Nat)
    (hsent : pf.LC_NO_GC ≤ 0) (hfresh : rt.heap rt.next = none) :
    ∃ rt1 v, lc_std_map_new pf rt key_ty init_size = .ok (rt1, v) ∧
      frees_on_last_release pf rt rt1 v N fuel := by
  obtain ⟨rtc, hret, hnext, hlife⟩ := ctor_life_cycle pf rt
    (LCObject.map
      { header := { count := 1, class_id := 0 }, key_ty := key_ty,
        is_small := if key_ty = LC_TY_BOOL then true else decide (init_size ≥ 0 ∧ init_size < 8),
        head := none, last := none, size := 0, buckets := none, bucket_size := 0 })
    { count := 1, class_id := 0 } LC_TY_MAP [] 1 N fuel hsent rfl hfresh rfl rfl (by simp)
    (by
      intro X X1 hX hrel
      have := release_all_nil_ok _ X X1 hrel
      subst this
      refine ⟨lc_free_at X1 rt.next, ?_, rfl, rfl⟩
      simp only [LCFreeObject, lc_std_map_free, ptr_val_mk, hX, LCObject.set_count]
      simp)
  simp only [retain_all] at hret
  injection hret with hret
  subst hret
  refine ⟨_, _, ?_, hlife⟩
  unfold lc_std_map_new lc_mallocz
  rw [lc_malloc_pos pf rt sizeof_object (by decide)]
  rfl


theorem retain_all_primitive (pf : Platform) (X : LCRuntime) (cs : List LCValue)
    (h : ∀ c ∈ cs, c.tag.is_primitive = true) : retain_all pf X cs = .ok X := by
  induction cs with
  | nil => rfl
  | cons c cs ih =>
    have hc := h c (List.mem_cons_self _ _)
    simp only [retain_all, LCRetain, hc, if_true]
    exact ih (fun w hw => h w (List.mem_cons_of_mem _ hw))

theorem heap_store_heap_new (rt : LCRuntime) (o o1 : LCObject) :
    heap_store (heap_new rt o).1 rt.next o1 = (heap_new rt o1).1 := by
  unfold heap_store heap_new
  simp only [LCRuntime.mk.injEq, true_and, and_true]
  funext q
  by_cases hq : q = rt.next <;> simp [hq]

theorem array_life_cycle_data (pf : Platform) (rt : LCRuntime) (cap L N fuel : Nat)
    (hsent : pf.LC_NO_GC ≤ 0) (hfresh : rt.heap rt.next = none) (hL : L ≤ cap) :
    frees_on_last_release pf rt
      (heap_new { rt with malloc_count := rt.malloc_count + 1 + 1 }
        (LCObject.array
          { header := { count := 1, class_id := 0 }, len := L, capacity := cap,
            data := some (List.replicate cap LCValue.zero) })).1
      ⟨LC_TY_ARRAY, rt.next⟩ N fuel := by
  have hprim : ∀ c ∈ List.replicate L LCValue.zero, c.tag.is_primitive = true := by
    intro c hc
    rw [List.eq_of_mem_replicate hc]
    rfl
  obtain ⟨rtc, hret, hnext, hlife⟩ := ctor_life_cycle pf rt
    (LCObject.array
      { header := { count := 1, class_id := 0 }, len := L, capacity := cap,
        data := some (List.replicate cap LCValue.zero) })
    { count := 1, class_id := 0 } LC_TY_ARRAY (List.replicate L LCValue.zero) 2 N fuel
    hsent rfl hfresh rfl rfl (fun c hc => Or.inl (hprim c hc))
    (by
      intro X X1 hX hrel
      refine ⟨lc_free_at (lc_free X1) rt.next, ?_, rfl, ?_⟩
      · have hs : slots (List.replicate cap LCValue.zero) L
            = .ok (List.replicate L LCValue.zero) := by
          unfold slots
          simp [hL, List.take_replicate, Nat.min_eq_left hL]
        simp only [LCFreeObject, LCFreeArray, ptr_val_mk, hX, LCObject.set_count, hs, hrel]
      · simp only [lc_free_at, lc_free]; ring)
  rw [retain_all_primitive pf _ _ hprim] at hret
  injection hret with hret
  subst hret
  have : ({ rt with malloc_count := rt.malloc_count + 1 + 1 } : LCRuntime)
      = { rt with malloc_count := rt.malloc_count + 2 } := by
    simp only [LCRuntime.mk.injEq, and_true]; ring
  rw [this]
  exact hlife

theorem array_life_cycle_null (pf : Platform) (rt : LCRuntime) (cap N fuel : Nat)
    (hsent : pf.LC_NO_GC ≤ 0) (hfresh : rt.heap rt.next = none) :
    frees_on_last_release pf rt
      (heap_new { rt with malloc_count := rt.malloc_count + 1 }
        (LCObject.array
          { header := { count := 1, class_id := 0 }, len := 0, capacity := cap,
            data := none })).1
      ⟨LC_TY_ARRAY, rt.next⟩ N fuel := by
  obtain ⟨rtc, hret, hnext, hlife⟩ := ctor_life_cycle pf rt
    (LCObject.array
      { header := { count := 1, class_id := 0 }, len := 0, capacity := cap, data := none })
    { count := 1, class_id := 0 } LC_TY_ARRAY [] 1 N fuel
    hsent rfl hfresh rfl rfl (by simp)
    (by
      intro X X1 hX hrel
      have := release_all_nil_ok _ X X1 hrel
      subst this
      refine ⟨lc_free_at X1 rt.next, ?_, rfl, rfl⟩
      simp only [LCFreeObject, LCFreeArray, ptr_val_mk, hX, LCObject.set_count, if_true])
  simp only [retain_all] at hret
  injection hret with hret
  subst hret
  exact hlife

theorem array_with_cap_eq (pf : Platform) (rt : LCRuntime) (cap : Nat) :
    LCNewArrayWithCap pf rt cap =
      if cap = 0 ∧ pf.malloc_zero_null = true then
        heap_new { rt with malloc_count := rt.malloc_count + 1 }
          (LCObject.array
            { header := { count := 1, class_id := 0 }, len := 0, capacity := cap,
              data := none })
      else
        heap_new { rt with malloc_count := rt.malloc_count + 1 + 1 }
          (LCObject.array
            { header := { count := 1, class_id := 0 }, len := 0, capacity := cap,
              data := some (List.replicate cap LCValue.zero) }) := by
  unfold LCNewArrayWithCap lc_mallocz
  rw [lc_malloc_pos pf rt sizeof_object (by decide)]
  simp only []
  by_cases h : cap = 0 ∧ pf.malloc_zero_null = true
  · rw [if_pos h]
    unfold lc_malloc
    rw [if_pos (by simp [sizeof_LCValue, h.1, h.2])]
    simp
  · rw [if_neg h]
    have hs : ¬ (sizeof_LCValue * cap = 0 ∧ pf.malloc_zero_null = true) := by
      intro hc
      apply h
      refine ⟨?_, hc.2⟩
      have := hc.1
      unfold sizeof_LCValue at this
      omega
    unfold lc_malloc
    rw [if_neg hs]
    simp

theorem array_new_life_cycle (pf : Platform) (rt : LCRuntime) (N fuel : Nat)
    (hsent : pf.LC_NO_GC ≤ 0) (hfresh : rt.heap rt.next = none) :
    ∃ rt1 v, LCNewArray pf rt = .ok (rt1, v) ∧ frees_on_last_release pf rt rt1 v N fuel := by
  unfold LCNewArray
  rw [array_with_cap_eq, if_neg (by simp)]
  exact ⟨_, _, rfl, array_life_cycle_data pf rt 8 0 N fuel hsent hfresh (by omega)⟩

theorem array_len_life_cycle (pf : Platform) (rt : LCRuntime) (size N fuel : Nat)
    (hsent : pf.LC_NO_GC ≤ 0) (hfresh : rt.heap rt.next = none) :
    ∃ rt1 v, LCNewArrayLen pf rt size = .ok (rt1, v) ∧
      frees_on_last_release pf rt rt1 v N fuel := by
  unfold LCNewArrayLen
  simp only []
  generalize hcap : (if size > 2 ∧ size % 2 ≠ 0 then size + 1 else size) = cap
  have hle : size ≤ cap := by
    rw [← hcap]; split_ifs <;> omega
  have hzero : cap = 0 → size = 0 := by intro h; omega
  rw [array_with_cap_eq]
  by_cases h : cap = 0 ∧ pf.malloc_zero_null = true
  · rw [if_pos h]
    have hs : size = 0 := hzero h.1
    subst hs
    simp only [heap_new, if_true]
    refine ⟨_, _, rfl, ?_⟩
    have := array_life_cycle_null pf rt cap N fuel hsent hfresh
    rw [← heap_store_heap_new _ (LCObject.array
      { header := { count := 1, class_id := 0 }, len := 0, capacity := cap,
        data := none })] at this
    exact this
  · rw [if_neg h]
    simp only [heap_new, if_true]
    refine ⟨_, _, rfl, ?_⟩
    have := array_life_cycle_data pf rt cap size N fuel hsent hfresh hle
    rw [← heap_store_heap_new _ (LCObject.array
      { header := { count := 1, class_id := 0 }, len := 0, capacity := cap,
        data := some (List.replicate cap LCValue.zero) })] at this
    exact this


theorem toI32_toU32_small (n : Nat) (h : n < 2 ^ 31) : toI32 (toU32 (n : Int)) = (n : Int) := by
  unfold toI32 toU32
  omega

theorem units_length (s : LCString) (w : s.well_formed) : s.units.length = s.length := by
  unfold LCString.well_formed at w
  unfold LCString.units
  rw [List.length_take]
  split_ifs at w <;> omega

theorem units_lt_wide (s : LCString) (w : s.well_formed) : ∀ u ∈ s.units, u < 65536 := by
  intro u hu
  unfold LCString.well_formed at w
  unfold LCString.units at hu
  have hm := List.mem_of_mem_take hu
  split_ifs at w
  · exact w.2 u hm
  · have := w.2.2 u hm
    omega

theorem units_lt_narrow (s : LCString) (hn : s.is_wide_char = false) (w : s.well_formed) :
    ∀ u ∈ s.units, u < 256 := by
  intro u hu
  unfold LCString.well_formed at w
  unfold LCString.units at hu
  have hm := List.mem_of_mem_take hu
  rw [if_neg (by simp [hn])] at w
  exact w.2.2 u hm

theorem copy_str16_units (s : LCString) : copy_str16 s 0 s.length = s.units := by
  unfold copy_str16 LCString.units
  simp

/-- Slice of a narrow string: the result is a new narrow string with count 1
that holds the units at the clamped indices `b .. e-1`; an empty range gives
the empty string. -/
theorem slice_narrow_spec (pf : Platform) (rt : LCRuntime) (this : LCValue) (s : LCString)
    (begin_ end_ : Int)
    (h : rt.heap this.ptr_val = some (LCObject.string s)) (hn : s.is_wide_char = false)
    (w : s.well_formed) (hl : s.length < 2 ^ 31) :
    ∃ rt1 r, lc_std_string_slice pf rt this begin_ end_ = .ok (rt1, MK_STRING rt.next) ∧
      rt1.heap rt.next = some (LCObject.string r) ∧
      r.header.count = 1 ∧ r.is_wide_char = false ∧
      r.length = (min_int (max_int end_ 0) s.length - min_int (max_int begin_ 0) s.length).toNat ∧
      r.units = (s.units.drop (min_int (max_int begin_ 0) s.length).toNat).take
        (min_int (max_int end_ 0) s.length - min_int (max_int begin_ 0) s.length).toNat := by
  have hls : toI32 (s.length : Int) = (s.length : Int) := by unfold toI32; omega
  obtain ⟨hstr, hul⟩ := narrow_layout s hn w
  unfold lc_std_string_slice
  simp only [h, hls]
  generalize hb : min_int (max_int begin_ 0) s.length = b
  generalize he : min_int (max_int end_ 0) s.length = e
  have hb0 : 0 ≤ b ∧ b ≤ s.length := by
    rw [← hb]; unfold min_int max_int; split_ifs <;> omega
  have he0 : 0 ≤ e ∧ e ≤ s.length := by
    rw [← he]; unfold min_int max_int; split_ifs <;> omega
  by_cases hbe : b ≥ e
  · rw [if_pos hbe]
    have h0 : (e - b).toNat = 0 := by omega
    refine ⟨_, (lc_new_string8 pf rt [] 0).2, rfl, by simp [heap_new, lc_new_string8, lc_mallocz, lc_malloc],
      rfl, rfl, by rw [h0]; rfl, ?_⟩
    rw [h0]
    simp [lc_new_string8, LCString.units]
  · rw [if_neg hbe, if_pos hn]
    refine ⟨_,
      { header := { count := 1, class_id := 0 }, is_wide_char := false, length := (e - b).toNat,
        hash := 0, str := (s.str.drop b.toNat).take (e - b).toNat ++ [0] },
      rfl, by simp [heap_new, lc_mallocz, lc_malloc], rfl, rfl, rfl, ?_⟩
    have hlen : ((s.str.drop b.toNat).take (e - b).toNat).length = (e - b).toNat := by
      rw [List.length_take, List.length_drop, hstr, List.length_append, hul]
      simp
      omega
    simp only [LCString.units]
    rw [List.take_append_of_le_length (by omega), List.take_of_length_le (by omega)]
    rw [List.drop_take, List.take_take]
    have hmin : min (e - b).toNat (s.length - b.toNat) = (e - b).toNat := by omega
    rw [hmin]

theorem slice_narrow_spec_witness :
    ∃ rt1 r, lc_std_string_slice example_platform
        (example_heap [LCObject.string (example_narrow [0x68, 0x65, 0x6C, 0x6C, 0x6F])])
        (MK_STRING 1) 1 9 = .ok (rt1, MK_STRING 2) ∧
      rt1.heap 2 = some (LCObject.string r) ∧ r.units = [0x65, 0x6C, 0x6C, 0x6F] := by
  obtain ⟨rt1, r, h, hh, _, _, _, hu⟩ := slice_narrow_spec example_platform
    (example_heap [LCObject.string (example_narrow [0x68, 0x65, 0x6C, 0x6C, 0x6F])])
    (MK_STRING 1) (example_narrow [0x68, 0x65, 0x6C, 0x6C, 0x6F]) 1 9 rfl rfl (by decide)
    (by decide)
  exact ⟨rt1, r, h, hh, hu⟩

/-- Slice of a wide string with a non-empty clamped range: the result block is
written through a pointer that was never assigned. -/
theorem slice_wide_undefined (pf : Platform) (rt : LCRuntime) (this : LCValue) (s : LCString)
    (begin_ end_ : Int)
    (h : rt.heap this.ptr_val = some (LCObject.string s)) (hw : s.is_wide_char = true)
    (hbe : min_int (max_int begin_ 0) (toI32 s.length) < min_int (max_int end_ 0) (toI32 s.length)) :
    lc_std_string_slice pf rt this begin_ end_ = .error Fault.undefined := by
  unfold lc_std_string_slice
  simp only [h]
  rw [if_neg (by omega), if_neg (by simp [hw])]

theorem slice_wide_undefined_witness :
    lc_std_string_slice example_platform
      (example_heap [LCObject.string (example_wide [0x68, 0x20AC, 0x6C])]) (MK_STRING 1) 0 2
      = .error Fault.undefined :=
  slice_wide_undefined example_platform
    (example_heap [LCObject.string (example_wide [0x68, 0x20AC, 0x6C])]) (MK_STRING 1)
    (example_wide [0x68, 0x20AC, 0x6C]) 0 2 rfl rfl (by decide)

/-- C12: on the wide string with units `[0x68, 0x20AC, 0x6C]`, the slice from 0
to 2 does not return a string: `lc_std_string_slice` writes through the
unassigned pointer `result`.  On the narrow string with the same length it
returns a new string of length 2. -/
theorem slice_wide_not_allocated :
    result_value (lc_std_string_slice example_platform
      (example_heap [LCObject.string (example_wide [0x68, 0x20AC, 0x6C])]) (MK_STRING 1) 0 2)
      = .error Fault.undefined ∧
    result_value (lc_std_string_slice example_platform
      (example_heap [LCObject.string (example_narrow [0x68, 0x65, 0x6C])]) (MK_STRING 1) 0 2)
      = .ok (MK_STRING 2) := by
  constructor <;> rfl

/-! ## Ordering -/

theorem strcmp_antisymm (xs ys : List Nat) : strcmp xs ys = 0 - strcmp ys xs := by
  induction xs generalizing ys with
  | nil =>
    cases ys with
    | nil => simp [strcmp]
    | cons b bs => simp [strcmp]
  | cons a as ih =>
    cases ys with
    | nil => simp [strcmp]
    | cons b bs =>
      simp only [strcmp]
      by_cases hab : a = b
      · subst hab
        simp only [ne_eq, not_true_eq_false, if_false]
        by_cases ha : a = 0
        · rw [if_pos ha, if_pos ha]; rfl
        · rw [if_neg ha, if_neg ha]; exact ih bs
      · have hba : b ≠ a := fun h => hab h.symm
        rw [if_pos hab, if_pos hba]
        omega

theorem memcmp_antisymm (xs ys : List Nat) (n : Nat) : memcmp xs ys n = 0 - memcmp ys xs n := by
  induction n generalizing xs ys with
  | zero => simp [memcmp]
  | succ n ih =>
    simp only [memcmp]
    by_cases hab : xs.headD 0 = ys.headD 0
    · have h1 : ¬ xs.headD 0 ≠ ys.headD 0 := fun h => h hab
      have h2 : ¬ ys.headD 0 ≠ xs.headD 0 := fun h => h hab.symm
      rw [if_neg h1, if_neg h2]
      exact ih _ _
    · have hba : ys.headD 0 ≠ xs.headD 0 := fun h => hab h.symm
      rw [if_pos hab, if_pos hba]
      omega

theorem strcmp_lt_iff_lex (us vs : List Nat) (hlen : us.length = vs.length) (hu : 0 ∉ us) :
    strcmp (us ++ [0]) (vs ++ [0]) < 0 ↔ lex_lt us vs = true := by
  induction us generalizing vs with
  | nil =>
    cases vs with
    | nil => simp [strcmp, lex_lt]
    | cons b bs => simp at hlen
  | cons a as ih =>
    cases vs with
    | nil => simp at hlen
    | cons b bs =>
      have ha : a ≠ 0 := fun h => hu (by simp [h])
      have has : 0 ∉ as := fun h => hu (by simp [h])
      simp only [List.cons_append, strcmp, lex_lt]
      by_cases hab : a = b
      · subst hab
        simp only [ne_eq, not_true_eq_false, if_false, if_neg ha, lt_self_iff_false,
          decide_False, Bool.false_or, decide_True, Bool.true_and]
        exact ih bs (by simpa using hlen) has
      · rw [if_pos hab]
        simp only [hab, decide_False, Bool.false_and, Bool.or_false, decide_eq_true_eq]
        omega

theorem toI32_small (x : Int) (h1 : -2147483648 ≤ x) (h2 : x < 2147483648) : toI32 x = x := by
  unfold toI32
  omega

theorem cmp_str_lt_unfold (s1 s2 : LCString) :
    lc_std_string_cmp_str LC_CMP_LT s1 s2
      = if string_cmp_result s1 s2 < 0 then LCTrue else LCFalse := rfl

theorem cmp_str_lteq_unfold (s1 s2 : LCString) :
    lc_std_string_cmp_str LC_CMP_LTEQ s1 s2
      = if string_cmp_result s1 s2 ≤ 0 then LCTrue else LCFalse := rfl

theorem cmp_str_gt_unfold (s1 s2 : LCString) :
    lc_std_string_cmp_str LC_CMP_GT s1 s2
      = if string_cmp_result s1 s2 > 0 then LCTrue else LCFalse := rfl

theorem cmp_str_gteq_unfold (s1 s2 : LCString) :
    lc_std_string_cmp_str LC_CMP_GTEQ s1 s2
      = if string_cmp_result s1 s2 ≥ 0 then LCTrue else LCFalse := rfl

theorem cmp_result_of_length (s1 s2 : LCString) (hl1 : s1.length < 2 ^ 31)
    (hl2 : s2.length < 2 ^ 31) (hne : s1.length ≠ s2.length) :
    string_cmp_result s1 s2 = (s1.length : Int) - (s2.length : Int) := by
  unfold string_cmp_result
  simp only
  rw [toI32_small _ (by omega) (by omega)]
  exact if_pos (by omega)

theorem cmp_result_of_narrow (s1 s2 : LCString) (heq : s1.length = s2.length)
    (hn : s1.is_wide_char = false ∧ s2.is_wide_char = false) :
    string_cmp_result s1 s2 = strcmp s1.str s2.str := by
  unfold string_cmp_result
  simp only
  have hd : toI32 ((s1.length : Int) - (s2.length : Int)) = 0 := by
    rw [heq, sub_self]; rfl
  rw [hd, if_neg (by simp), if_pos hn]

theorem cmp_result_of_wide (s1 s2 : LCString) (heq : s1.length = s2.length)
    (hn : ¬ (s1.is_wide_char = false ∧ s2.is_wide_char = false)) :
    string_cmp_result s1 s2 = lc_std_string_cmp_slow s1 s2 := by
  unfold string_cmp_result
  simp only
  have hd : toI32 ((s1.length : Int) - (s2.length : Int)) = 0 := by
    rw [heq, sub_self]; rfl
  rw [hd, if_neg (by simp), if_neg hn]

/-- The sign of the comparison of `lc_std_string_cmp` is reversed when the
operands are exchanged. -/
theorem cmp_result_swap (s1 s2 : LCString) (hl1 : s1.length < 2 ^ 31)
    (hl2 : s2.length < 2 ^ 31) :
    string_cmp_result s1 s2 = 0 - string_cmp_result s2 s1 := by
  by_cases hl : s1.length = s2.length
  · by_cases hn : s1.is_wide_char = false ∧ s2.is_wide_char = false
    · rw [cmp_result_of_narrow s1 s2 hl hn, cmp_result_of_narrow s2 s1 hl.symm hn.symm]
      exact strcmp_antisymm _ _
    · rw [cmp_result_of_wide s1 s2 hl hn,
        cmp_result_of_wide s2 s1 hl.symm (fun h => hn h.symm)]
      unfold lc_std_string_cmp_slow
      simp only
      rw [hl]
      exact memcmp_antisymm _ _ _
  · rw [cmp_result_of_length s1 s2 hl1 hl2 hl,
      cmp_result_of_length s2 s1 hl2 hl1 (fun h => hl h.symm)]
    omega

/-- C13 (amended): on two well-formed strings shorter than `2^31` units, when
the lengths differ `LC_CMP_LT` is true exactly when the first string is the
shorter one; when the lengths are equal, both strings are narrow and the first
has no zero unit, `LC_CMP_LT` is true exactly when the units of the first are
lexicographically smaller.  `GT(a, b)` is `LT(b, a)`, `LTEQ(a, b)` is true
exactly when `GT(a, b)` is false, and `GTEQ(a, b)` is true exactly when
`LT(a, b)` is false. -/
theorem string_order_length_first (rt : LCRuntime) (a b : LCValue) (s1 s2 : LCString)
    (h1 : rt.heap a.ptr_val = some (LCObject.string s1))
    (h2 : rt.heap b.ptr_val = some (LCObject.string s2))
    (w1 : s1.well_formed) (w2 : s2.well_formed)
    (hl1 : s1.length < 2 ^ 31) (hl2 : s2.length < 2 ^ 31) :
    (s1.length ≠ s2.length →
      (lc_std_string_cmp rt LC_CMP_LT a b = .ok LCTrue ↔ s1.length < s2.length)) ∧
    (s1.length = s2.length → s1.is_wide_char = false → s2.is_wide_char = false →
      0 ∉ s1.units →
      (lc_std_string_cmp rt LC_CMP_LT a b = .ok LCTrue ↔ lex_lt s1.units s2.units = true)) ∧
    lc_std_string_cmp rt LC_CMP_GT a b = lc_std_string_cmp rt LC_CMP_LT b a ∧
    (lc_std_string_cmp rt LC_CMP_LTEQ a b = .ok LCTrue ↔
      lc_std_string_cmp rt LC_CMP_GT a b = .ok LCFalse) ∧
    (lc_std_string_cmp rt LC_CMP_GTEQ a b = .ok LCTrue ↔
      lc_std_string_cmp rt LC_CMP_LT a b = .ok LCFalse) := by
  have hTF : LCTrue ≠ LCFalse := by decide
  have hFT : LCFalse ≠ LCTrue := by decide
  unfold lc_std_string_cmp
  simp only [h1, h2, Except.ok.injEq, cmp_str_lt_unfold, cmp_str_lteq_unfold,
    cmp_str_gt_unfold, cmp_str_gteq_unfold]
  refine ⟨fun hne => ?_, fun heq n1 n2 hz => ?_, ?_, ?_, ?_⟩
  · rw [cmp_result_of_length s1 s2 hl1 hl2 hne]
    by_cases h0 : (s1.length : Int) - s2.length < 0
    · rw [if_pos h0]
      exact ⟨fun _ => by omega, fun _ => rfl⟩
    · rw [if_neg h0]
      exact ⟨fun h => absurd h hFT, fun h => by omega⟩
  · obtain ⟨hs1, hu1⟩ := narrow_layout s1 n1 w1
    obtain ⟨hs2, hu2⟩ := narrow_layout s2 n2 w2
    rw [cmp_result_of_narrow s1 s2 heq ⟨n1, n2⟩, hs1, hs2,
      ← strcmp_lt_iff_lex s1.units s2.units (by omega) hz]
    by_cases h0 : strcmp (s1.units ++ [0]) (s2.units ++ [0]) < 0
    · rw [if_pos h0]
      exact ⟨fun _ => h0, fun _ => rfl⟩
    · rw [if_neg h0]
      exact ⟨fun h => absurd h hFT, fun h => absurd h h0⟩
  · rw [cmp_result_swap s1 s2 hl1 hl2]
    by_cases h0 : string_cmp_result s2 s1 < 0
    · rw [if_pos (by omega), if_pos h0]
    · rw [if_neg (by omega), if_neg h0]
  · by_cases h0 : string_cmp_result s1 s2 ≤ 0
    · rw [if_pos h0, if_neg (by omega)]
      exact ⟨fun _ => rfl, fun _ => rfl⟩
    · rw [if_neg h0, if_pos (by omega)]
      exact ⟨fun h => absurd h hFT, fun h => absurd h hTF⟩
  · by_cases h0 : string_cmp_result s1 s2 ≥ 0
    · rw [if_pos h0, if_neg (by omega)]
      exact ⟨fun _ => rfl, fun _ => rfl⟩
    · rw [if_neg h0, if_pos (by omega)]
      exact ⟨fun h => absurd h hFT, fun h => absurd h hTF⟩

theorem string_order_length_first_witness :
    lc_std_string_cmp (example_heap [LCObject.string (example_narrow [0x61, 0x62]),
        LCObject.string (example_narrow [0x61, 0x63])]) LC_CMP_LT (MK_STRING 1) (MK_STRING 2)
      = .ok LCTrue :=
  ((string_order_length_first
    (example_heap [LCObject.string (example_narrow [0x61, 0x62]),
      LCObject.string (example_narrow [0x61, 0x63])]) (MK_STRING 1) (MK_STRING 2)
    (example_narrow [0x61, 0x62]) (example_narrow [0x61, 0x63]) rfl rfl (by decide) (by decide)
    (by decide) (by decide)).2.1 rfl rfl rfl (by decide)).2 (by decide)

/-- C13 (counterexample): `"b"` is not lexicographically smaller than `"aa"`,
yet `LC_CMP_LT` on them is true, because the shorter string comes first. -/
theorem lt_not_lexicographic :
    lc_std_string_cmp (example_heap [LCObject.string (example_narrow [0x62]),
        LCObject.string (example_narrow [0x61, 0x61])]) LC_CMP_LT (MK_STRING 1) (MK_STRING 2)
      = .ok LCTrue ∧
    lex_lt (example_narrow [0x62]).units (example_narrow [0x61, 0x61]).units = false := by
  constructor <;> rfl

/-! ## String hash -/

theorem hash_string8_fold (str : List Nat) (len seed : Nat) :
    hash_string8 str len seed = hash_fold (str.take len) seed := rfl

theorem hash_string16_fold (str : List Nat) (len seed : Nat) :
    hash_string16 str len seed = hash_fold (str.take len) seed := rfl

/-- The hash of a string without a cached hash is the fold over its code units
starting from the runtime seed; the call stores it, and a second call returns
the same value. -/
theorem get_string_hash_fold (rt : LCRuntime) (v : LCValue) (s : LCString)
    (h : rt.heap v.ptr_val = some (LCObject.string s)) (h0 : s.hash = 0) :
    ∃ rt1, LCGetStringHash rt v = .ok (rt1, hash_fold s.units rt.seed) ∧
      rt1.heap v.ptr_val
        = some (LCObject.string { s with hash := hash_fold s.units rt.seed }) ∧
      ∃ rt2, LCGetStringHash rt1 v = .ok (rt2, hash_fold s.units rt.seed) := by
  have hh : (if s.is_wide_char then hash_string16 s.str s.length rt.seed
      else hash_string8 s.str s.length rt.seed) = hash_fold s.units rt.seed := by
    split_ifs <;> rfl
  have e1 : LCGetStringHash rt v = .ok (heap_store rt v.ptr_val
      (LCObject.string { s with hash := hash_fold s.units rt.seed }),
      hash_fold s.units rt.seed) := by
    unfold LCGetStringHash
    simp only [h]
    rw [if_neg (by simp [h0]), hh]
  have e2 : (heap_store rt v.ptr_val
      (LCObject.string { s with hash := hash_fold s.units rt.seed })).heap v.ptr_val
      = some (LCObject.string { s with hash := hash_fold s.units rt.seed }) := by
    simp [heap_store]
  refine ⟨_, e1, e2, ?_⟩
  unfold LCGetStringHash
  simp only [e2]
  by_cases hz : hash_fold s.units rt.seed = 0
  · rw [if_neg (by simp [hz])]
    exact ⟨_, by
      have hseed : (heap_store rt v.ptr_val
        (LCObject.string { s with hash := hash_fold s.units rt.seed })).seed = rt.seed := rfl
      rw [hseed, hh]⟩
  · rw [if_pos hz]
    exact ⟨_, rfl⟩

theorem get_string_hash_fold_witness :
    ∃ rt1, LCGetStringHash (example_heap [LCObject.string (example_narrow [0x61, 0x62])])
        (MK_STRING 1) = .ok (rt1, (7 * 263 + 0x61) * 263 + 0x62) := by
  obtain ⟨rt1, h, _⟩ := get_string_hash_fold
    (example_heap [LCObject.string (example_narrow [0x61, 0x62])]) (MK_STRING 1)
    (example_narrow [0x61, 0x62]) rfl rfl
  exact ⟨rt1, h⟩

/-- C14: the strings built from the bytes `61 00 62` and `61 00 63` compare
equal under `LC_CMP_EQ` (the narrow comparison stops at the zero unit), and
`LCGetStringHash` returns different hashes for them. -/
theorem equal_strings_different_hash :
    (match example_two_strings [0x61, 0, 0x62] [0x61, 0, 0x63] with
      | .ok r => lc_std_string_cmp r.1 LC_CMP_EQ r.2.1 r.2.2
      | .error e => .error e) = .ok LCTrue ∧
    (match example_two_strings [0x61, 0, 0x62] [0x61, 0, 0x63] with
      | .ok r => string_hash_pair r.1 r.2.1 r.2.2
      | .error e => .error e) = .ok (134049620, 134049621) := by
  constructor <;> rfl

/-! ## Symbols -/

/-- Interning the bytes of `"abc"` twice in a runtime with an empty symbol table
returns the same symbol, whose count is `LC_NO_GC`; the second call leaves
`symbol_len` and the chain unchanged. -/
theorem intern_abc_twice :
    example_intern_twice [0x61, 0x62, 0x63] 3
      = .ok { first := ⟨LC_TY_SYMBOL, 1⟩, second := ⟨LC_TY_SYMBOL, 1⟩,
              count := some example_platform.LC_NO_GC,
              symbol_len_first := 1, symbol_len_second := 1,
              chain_first := some [⟨LC_TY_SYMBOL, 1⟩],
              chain_second := some [⟨LC_TY_SYMBOL, 1⟩] } := by
  rfl

/-- C15: interning the two bytes `C3 A9` twice in a runtime with an empty symbol
table returns two different pointers; the second call raises `symbol_len` from
1 to 2 and links a second bucket in the chain.  The stored symbol holds the
decoded unit `E9`, which `strcmp` compares with the bytes `C3 A9`. -/
theorem intern_twice_not_unique :
    example_intern_twice [0xC3, 0xA9] 2
      = .ok { first := ⟨LC_TY_SYMBOL, 1⟩, second := ⟨LC_TY_SYMBOL, 2⟩,
              count := some example_platform.LC_NO_GC,
              symbol_len_first := 1, symbol_len_second := 2,
              chain_first := some [⟨LC_TY_SYMBOL, 1⟩],
              chain_second := some [⟨LC_TY_SYMBOL, 1⟩, ⟨LC_TY_SYMBOL, 2⟩] } := by
  rfl

/-- Interning the first three bytes of `"abcd"` twice also returns two different
pointers: `strcmp` reads `content` up to its terminating zero, not `len` bytes. -/
theorem intern_twice_longer_buffer :
    example_intern_twice [0x61, 0x62, 0x63, 0x64] 3
      = .ok { first := ⟨LC_TY_SYMBOL, 1⟩, second := ⟨LC_TY_SYMBOL, 2⟩,
              count := some example_platform.LC_NO_GC,
              symbol_len_first := 1, symbol_len_second := 2,
              chain_first := some [⟨LC_TY_SYMBOL, 1⟩],
              chain_second := some [⟨LC_TY_SYMBOL, 1⟩, ⟨LC_TY_SYMBOL, 2⟩] } := by
  rfl

/-! ## Maps -/

/-- C16: in a fresh small map with integer keys, after `set(1, 101)` and
`set(2, 102)` the call `get(2)` returns `None`, the immediate union value with
tag 1, and not `Some(102)`: the insertion does not link the new tuple after the
former last one, so the search from `map->head` ends at the first entry.
`get(1)` returns `Some(101)` and `get(3)` returns `None`. -/
theorem get_second_key_is_none :
    example_map_get (example_pairs 2) (MK_I32 2) = .ok (MK_UNION 1, none) ∧
    example_map_get (example_pairs 2) (MK_I32 1)
      = .ok (⟨LC_TY_UNION_OBJECT, 4⟩, some (0, [MK_I32 101])) ∧
    example_map_get (example_pairs 2) (MK_I32 3) = .ok (MK_UNION 1, none) := by
  refine ⟨?_, ?_, ?_⟩ <;> rfl

/-- C17: in a fresh small map with integer keys, after `set(1, 101)` and
`set(2, 102)` the walk from `map->head` through the `next` links visits the key
1 only, and `map->last` is the tuple of key 2, which the walk does not reach. -/
theorem walk_visits_first_key_only :
    example_map_keys (example_pairs 2) = .ok ([MK_I32 1], some (MK_I32 2)) ∧
    example_map_keys (example_pairs 7) = .ok ([MK_I32 1], some (MK_I32 7)) := by
  constructor <;> rfl

/-- Whenever `lc_std_map_find_tuple` finds the key, `lc_std_map_set` has no
defined result: it releases `tuple->value` and stores to `tuple->value`
through the local `tuple`, which is assigned on the insertion path only. -/
theorem set_found_undefined (pf : Platform) (fuel : Nat) (rt rt1 : LCRuntime)
    (this key value : LCValue) (map : LCMap) (t : Nat)
    (h : rt.heap this.ptr_val = some (LCObject.map map))
    (hf : lc_std_map_find_tuple fuel rt map key = .ok (rt1, some t)) :
    lc_std_map_set pf fuel rt this key value = .error Fault.undefined := by
  unfold lc_std_map_set
  simp only [h, hf]

theorem set_found_undefined_witness :
    lc_std_map_set example_platform 64 (example_linked_map 1) ⟨LC_TY_MAP, 1⟩ (MK_I32 1)
      (MK_I32 7) = .error Fault.undefined :=
  set_found_undefined example_platform 64 (example_linked_map 1) (example_linked_map 1)
    ⟨LC_TY_MAP, 1⟩ (MK_I32 1) (MK_I32 7)
    { header := { count := 1, class_id := 0 }, key_ty := LC_TY_I32, is_small := true,
      head := some 2, last := some 2, size := 1, buckets := none, bucket_size := 0 }
    2 rfl rfl

/-- C18: in a fresh small map with integer keys, `set(1, 101)` followed by
`set(1, 102)` has no defined result: the second call finds the key and
dereferences the unassigned local `tuple`.  The first call alone leaves the
single entry with key 1. -/
theorem set_existing_key_undefined :
    example_map [(MK_I32 1, MK_I32 101), (MK_I32 1, MK_I32 102)] = .error Fault.undefined ∧
    example_map_keys (example_pairs 1) = .ok ([MK_I32 1], some (MK_I32 1)) ∧
    example_map_get (example_pairs 1) (MK_I32 1)
      = .ok (⟨LC_TY_UNION_OBJECT, 3⟩, some (0, [MK_I32 101])) := by
  refine ⟨?_, ?_, ?_⟩ <;> rfl

/-- On a small map whose eight entries are linked in both directions,
`lc_std_map_construct_hashtable` gives no bucket to the last entry: after it,
`get(5)` returns `Some(105)` and `get(8)` returns `None`. -/
theorem promotion_skips_last_entry :
    map_keys 64 (example_linked_map 8) ⟨LC_TY_MAP, 1⟩
      = .ok [MK_I32 1, MK_I32 2, MK_I32 3, MK_I32 4, MK_I32 5, MK_I32 6, MK_I32 7, MK_I32 8] ∧
    example_promoted_get 8 (MK_I32 5)
      = .ok (⟨LC_TY_UNION_OBJECT, 17⟩, some (0, [MK_I32 105])) ∧
    example_promoted_get 8 (MK_I32 8) = .ok (MK_UNION 1, none) := by
  refine ⟨?_, ?_, ?_⟩ <;> rfl

/-- C19: in a fresh small map with integer keys, the eighth `lc_std_map_set` of
the pairs `(1, 101) .. (8, 108)` has no defined result: the loop of
`lc_std_map_construct_hashtable` follows the `next` link of the first tuple,
which is `NULL`, and reads `t->next` again because `NULL` is not `map->last`.
After seven calls the map is in small mode with the entry of key 1 alone
reachable from `map->head`. -/
theorem eighth_set_undefined :
    example_map (example_pairs 8) = .error Fault.undefined ∧
    example_map_keys (example_pairs 7) = .ok ([MK_I32 1], some (MK_I32 7)) := by
  constructor <;> rfl

/-- C20: in a fresh small map with integer keys, after `set(1, 101)` and
`set(2, 102)` the call `remove(2)` returns `None` although the key was set;
`remove(1)` returns `Some(101)`.  On a map made in large mode by
`lc_std_map_new(rt, LC_TY_I32, 8)`, `remove` has no defined result: the
remainder by `bucket_size`, which is zero, is taken. -/
theorem remove_second_key_is_none :
    example_map_remove (example_pairs 2) (MK_I32 2) = .ok (MK_UNION 1, none) ∧
    example_map_remove (example_pairs 2) (MK_I32 1)
      = .ok (⟨LC_TY_UNION_OBJECT, 4⟩, some (0, [MK_I32 101])) ∧
    (match lc_std_map_new example_platform example_runtime LC_TY_I32 8 with
      | .ok r => result_value (lc_std_map_remove example_platform 64 r.1 r.2 (MK_I32 1))
      | .error e => .error e) = .error Fault.undefined := by
  refine ⟨?_, ?_, ?_⟩ <;> rfl

/-- On the map that `lc_std_map_construct_hashtable` makes of a small map with
eight linked entries, `remove(5)` has no defined result:
`lc_std_map_remove_complex` reads `t->value` at the bucket of the key before
`t` is assigned.  `remove(9)`, a key that is not in the map, returns `None`. -/
theorem promoted_remove_undefined :
    (match lc_std_map_construct_hashtable example_platform 64 (example_linked_map 8) 1 with
      | .ok rt =>
        result_value (lc_std_map_remove example_platform 64 rt ⟨LC_TY_MAP, 1⟩ (MK_I32 5))
      | .error e => .error e) = .error Fault.undefined ∧
    (match lc_std_map_construct_hashtable example_platform 64 (example_linked_map 8) 1 with
      | .ok rt =>
        result_value (lc_std_map_remove example_platform 64 rt ⟨LC_TY_MAP, 1⟩ (MK_I32 9))
      | .error e => .error e) = .ok (MK_UNION 1) := by
  constructor <;> rfl

/-! ## Map size, large-mode construction and key types -/

/-- C21: in a fresh small map with integer keys, `set(1, 101)` followed by
`remove(1)` leaves `map->size` at 2 while the entry list is empty: the removal
runs `map->size++`.  After `set(1, 101)` and `set(2, 102)` the size is 2 and the
walk from `map->head` meets one entry. -/
theorem size_grows_on_remove :
    example_read_after_remove LC_TY_I32 0 (example_pairs 1) (MK_I32 1) (MK_I32 1)
      = .ok { size := 2, keys := [], got := MK_UNION 1, payload := none } ∧
    example_read_map LC_TY_I32 0 (example_pairs 1) (MK_I32 1)
      = .ok { size := 1, keys := [MK_I32 1], got := ⟨LC_TY_UNION_OBJECT, 3⟩,
              payload := some (0, [MK_I32 101]) } ∧
    example_read_map LC_TY_I32 0 (example_pairs 2) (MK_I32 1)
      = .ok { size := 2, keys := [MK_I32 1], got := ⟨LC_TY_UNION_OBJECT, 4⟩,
              payload := some (0, [MK_I32 101]) } := by
  refine ⟨?_, ?_, ?_⟩ <;> rfl

theorem lc_mallocz_next (pf : Platform) (rt : LCRuntime) (size : Nat) :
    (lc_mallocz pf rt size).1.next = rt.next := by
  unfold lc_mallocz lc_malloc
  split_ifs <;> rfl

/-- A map that `lc_std_map_new` makes in large mode has no bucket array and a
`bucket_size` of zero. -/
theorem map_new_large_has_no_buckets (pf : Platform) (rt : LCRuntime) (key_ty : LCObjectType)
    (init_size : Int) (hk : key_ty ≠ LC_TY_BOOL) (hs : init_size < 0 ∨ 8 ≤ init_size) :
    ∃ rt1 m, lc_std_map_new pf rt key_ty init_size = .ok (rt1, ⟨LC_TY_MAP, rt.next⟩) ∧
      rt1.heap rt.next = some (LCObject.map m) ∧ m.is_small = false ∧ m.buckets = none ∧
      m.bucket_size = 0 := by
  unfold lc_std_map_new
  have hd : decide (init_size ≥ 0 ∧ init_size < 8) = false := by
    rw [decide_eq_false_iff_not]; omega
  simp only [hk, if_false, hd]
  refine ⟨(heap_new (lc_mallocz pf rt sizeof_object).1 (LCObject.map
      { header := { count := 1, class_id := 0 }, key_ty := key_ty, is_small := false,
        head := none, last := none, size := 0, buckets := none, bucket_size := 0 })).1,
    { header := { count := 1, class_id := 0 }, key_ty := key_ty, is_small := false,
      head := none, last := none, size := 0, buckets := none, bucket_size := 0 },
    by simp [heap_new, lc_mallocz_next], by simp [heap_new, lc_mallocz_next], rfl, rfl, rfl⟩

theorem map_new_large_has_no_buckets_witness :
    ∃ rt1 m, lc_std_map_new example_platform example_runtime LC_TY_I32 16
        = .ok (rt1, ⟨LC_TY_MAP, example_runtime.next⟩) ∧
      rt1.heap example_runtime.next = some (LCObject.map m) ∧ m.is_small = false ∧
      m.buckets = none ∧ m.bucket_size = 0 :=
  map_new_large_has_no_buckets example_platform example_runtime LC_TY_I32 16 (by decide)
    (by decide)

/-- C22: on the integer-keyed map made by `lc_std_map_new(rt, LC_TY_I32, 16)`
the first `lc_std_map_set` has no defined result: the map is in large mode with
`bucket_size` zero, and `lc_std_map_find_tuple` takes the remainder of the hash
by it.  So has `lc_std_map_get` on the map without any entry. -/
theorem large_map_first_set_undefined :
    example_typed_map LC_TY_I32 16 (example_pairs 1) = .error Fault.undefined ∧
    example_typed_map LC_TY_I32 16 (example_pairs 100) = .error Fault.undefined ∧
    example_read_map LC_TY_I32 16 [] (MK_I32 1) = .error Fault.undefined := by
  refine ⟨?_, ?_, ?_⟩ <;> rfl

/-- For every key type tag and every initial size `lc_std_map_new` returns a new
empty map with count 1 that records the tag; the tag decides nothing but the
small mode of a boolean-keyed map. -/
theorem map_new_any_key_type (pf : Platform) (rt : LCRuntime) (key_ty : LCObjectType)
    (init_size : Int) :
    ∃ rt1 m, lc_std_map_new pf rt key_ty init_size = .ok (rt1, ⟨LC_TY_MAP, rt.next⟩) ∧
      rt1.heap rt.next = some (LCObject.map m) ∧ m.header.count = 1 ∧ m.key_ty = key_ty ∧
      m.head = none ∧ m.last = none ∧ m.size = 0 ∧
      (m.is_small = true ↔ key_ty = LC_TY_BOOL ∨ (0 ≤ init_size ∧ init_size < 8)) := by
  unfold lc_std_map_new
  refine ⟨(heap_new (lc_mallocz pf rt sizeof_object).1 (LCObject.map
      { header := { count := 1, class_id := 0 }, key_ty := key_ty,
        is_small := if key_ty = LC_TY_BOOL then true
          else decide (init_size ≥ 0 ∧ init_size < 8),
        head := none, last := none, size := 0, buckets := none, bucket_size := 0 })).1,
    { header := { count := 1, class_id := 0 }, key_ty := key_ty,
      is_small := if key_ty = LC_TY_BOOL then true
        else decide (init_size ≥ 0 ∧ init_size < 8),
      head := none, last := none, size := 0, buckets := none, bucket_size := 0 },
    by simp [heap_new, lc_mallocz_next], by simp [heap_new, lc_mallocz_next],
    rfl, rfl, rfl, rfl, rfl, ?_⟩
  by_cases hk : key_ty = LC_TY_BOOL
  · simp [hk]
  · simp [hk]

theorem toU32_nonneg_small (x : Int) (h0 : 0 ≤ x) (h1 : x < 4294967296) :
    toU32 x = x.toNat := by
  unfold toU32
  rw [Int.emod_eq_of_lt h0 h1]

theorem toU32_neg_ge (x : Int) (h0 : x < 0) (h1 : -2147483648 ≤ x) :
    2147483648 ≤ toU32 x := by
  unfold toU32
  omega

theorem array_index_check (len : Nat) (index : Int) (hl : len ≤ 2 ^ 31)
    (hi : -2 ^ 31 ≤ index ∧ index < 2 ^ 31) :
    toU32 index ≥ len ↔ ¬ (0 ≤ index ∧ index < (len : Int)) := by
  by_cases h0 : 0 ≤ index
  · rw [toU32_nonneg_small index h0 (by omega)]
    omega
  · have := toU32_neg_ge index (by omega) (by omega)
    omega

/-- C25: for an array of at most `2^31` elements whose block holds its `len`
slots, and a 32-bit signed index, `LCArrayGetValue` aborts exactly when the
index is not in `[0, len)`, a negative index included, and otherwise returns
the value of the slot (the function writes nothing).  `LCArraySetValue` aborts
on the same indices before it does anything else; for an index in range it
releases the old value, retains the new one and stores it in the slot. -/
theorem array_get_set_bounds (pf : Platform) (fuel : Nat) (rt : LCRuntime) (this : LCValue)
    (arr : LCArray) (d : List LCValue) (index : Int) (v : LCValue)
    (h : rt.heap this.ptr_val = some (LCObject.array arr)) (hd : arr.data = some d)
    (hlen : arr.len ≤ d.length) (hl : arr.len ≤ 2 ^ 31)
    (hi : -2 ^ 31 ≤ index ∧ index < 2 ^ 31) :
    (LCArrayGetValue rt this index = .error Fault.abort ↔
      ¬ (0 ≤ index ∧ index < (arr.len : Int))) ∧
    (0 ≤ index ∧ index < (arr.len : Int) →
      ∃ old, d.get? index.toNat = some old ∧ LCArrayGetValue rt this index = .ok old ∧
        ∀ rt1 rt2, LCRelease pf fuel rt old = .ok rt1 → LCRetain pf rt1 v = .ok rt2 →
          rt2.heap this.ptr_val = some (LCObject.array arr) →
          LCArraySetValue pf fuel rt this index v
            = .ok (heap_store rt2 this.ptr_val
                (LCObject.array { arr with data := some (d.set index.toNat v) }))) ∧
    (¬ (0 ≤ index ∧ index < (arr.len : Int)) →
      LCArraySetValue pf fuel rt this index v = .error Fault.abort) := by
  have hchk := array_index_check arr.len index hl hi
  refine ⟨?_, ?_, ?_⟩
  · unfold LCArrayGetValue
    simp only [h, hd]
    by_cases hr : 0 ≤ index ∧ index < (arr.len : Int)
    · have hnot : ¬ toU32 index ≥ arr.len := fun hc => (hchk.1 hc) hr
      have hlt : index.toNat < d.length := by omega
      rw [if_neg hnot, if_neg (by omega), List.get?_eq_get hlt]
      simp [hr]
    · rw [if_pos (hchk.2 hr)]
      simp [hr]
  · intro hr
    have hnot : ¬ toU32 index ≥ arr.len := fun hc => (hchk.1 hc) hr
    have hlt : index.toNat < d.length := by omega
    refine ⟨d.get ⟨index.toNat, hlt⟩, List.get?_eq_get hlt, ?_, ?_⟩
    · unfold LCArrayGetValue
      simp only [h, hd]
      rw [if_neg hnot, if_neg (by omega), List.get?_eq_get hlt]
    · intro rt1 rt2 h1 h2 h3
      unfold LCArraySetValue
      simp only [h, hd]
      rw [if_neg hnot, if_neg (by omega), List.get?_eq_get hlt]
      simp only [h1, h2, h3, hd]
      rw [if_pos hlt]
  · intro hr
    unfold LCArraySetValue
    simp only [h]
    rw [if_pos (hchk.2 hr)]

theorem array_get_set_bounds_witness :
    LCArrayGetValue (example_heap [LCObject.array example_array]) ⟨LC_TY_ARRAY, 1⟩ 1
      = .ok (MK_I32 6) ∧
    LCArraySetValue example_platform 1 (example_heap [LCObject.array example_array])
        ⟨LC_TY_ARRAY, 1⟩ 1 (MK_I32 9)
      = .ok (heap_store (example_heap [LCObject.array example_array]) 1
          (LCObject.array { example_array with data := some [MK_I32 5, MK_I32 9] })) ∧
    LCArrayGetValue (example_heap [LCObject.array example_array]) ⟨LC_TY_ARRAY, 1⟩ 2
      = .error Fault.abort := by
  obtain ⟨old, hold, hget, hset⟩ := (array_get_set_bounds example_platform 1
    (example_heap [LCObject.array example_array]) ⟨LC_TY_ARRAY, 1⟩ example_array
    [MK_I32 5, MK_I32 6] 1 (MK_I32 9) rfl rfl (by decide) (by decide) (by decide)).2.1
    (by decide)
  have ho : old = MK_I32 6 := (Option.some.inj hold).symm
  subst ho
  exact ⟨hget, hset _ _ rfl rfl rfl, rfl⟩

theorem heap_store_comm (rt : LCRuntime) (p q : Nat) (o1 o2 : LCObject) (hpq : p ≠ q) :
    heap_store (heap_store rt p o1) q o2 = heap_store (heap_store rt q o2) p o1 := by
  unfold heap_store
  simp only [LCRuntime.mk.injEq, true_and, and_true]
  funext x
  by_cases hx : x = q
  · subst hx
    have : ¬ x = p := fun h => hpq h.symm
    simp [this]
  · simp [hx]

theorem heap_store_store (rt : LCRuntime) (p : Nat) (o1 o2 : LCObject) :
    heap_store (heap_store rt p o1) p o2 = heap_store rt p o2 := by
  unfold heap_store
  simp only [LCRuntime.mk.injEq, true_and, and_true]
  funext x
  by_cases hx : x = p
  · simp [hx]
  · simp [hx]

theorem heap_store_heap_self (rt : LCRuntime) (p : Nat) (o : LCObject) :
    (heap_store rt p o).heap p = some o := by
  simp [heap_store]

theorem heap_store_heap_ne (rt : LCRuntime) (p q : Nat) (o : LCObject) (h : q ≠ p) :
    (heap_store rt p o).heap q = rt.heap q := by
  simp [heap_store, h]

/-- A retain of a value that is not the object at `p` commutes with a store to
`p`. -/
theorem retain_heap_store (pf : Platform) (rt rtv : LCRuntime) (p : Nat) (o : LCObject)
    (v : LCValue) (hret : LCRetain pf rt v = .ok rtv)
    (hne : v.tag.is_primitive = true ∨ v.ptr_val ≠ p) :
    LCRetain pf (heap_store rt p o) v = .ok (heap_store rtv p o) := by
  unfold LCRetain at hret ⊢
  cases hp : v.tag.is_primitive with
  | true =>
    simp only [hp, if_true, Except.ok.injEq] at hret ⊢
    rw [hret]
  | false =>
    have hvp : v.ptr_val ≠ p := by
      rcases hne with h | h
      · rw [hp] at h; exact absurd h (by decide)
      · exact h
    simp only [hp, Bool.false_eq_true, if_false] at hret ⊢
    rw [heap_store_heap_ne rt p v.ptr_val o hvp]
    cases hh : rt.heap v.ptr_val with
    | none => rw [hh] at hret; simp at hret
    | some ov =>
      rw [hh] at hret
      simp only [] at hret ⊢
      cases hhd : ov.header with
      | none => rw [hhd] at hret; simp at hret
      | some hdr =>
        rw [hhd] at hret
        simp only [] at hret ⊢
        by_cases hc : hdr.count = pf.LC_NO_GC
        · rw [if_pos hc] at hret ⊢
          simp only [Except.ok.injEq] at hret ⊢
          rw [hret]
        · rw [if_neg hc] at hret ⊢
          simp only [Except.ok.injEq] at hret ⊢
          rw [← hret]
          exact heap_store_comm rt p v.ptr_val o _ (fun h => hvp h.symm)

/-- Push on an array whose block has `capacity` slots, with `len <= capacity`
and `1 <= capacity < 2^31`: the length grows by one, the new last element is
the value pushed, the earlier elements are unchanged, the value has been
retained once, and the array keeps `len <= capacity` and a block of `capacity`
slots. -/
theorem array_push_spec (pf : Platform) (rt rtv : LCRuntime) (this v : LCValue) (arr : LCArray)
    (d : List LCValue)
    (h : rt.heap this.ptr_val = some (LCObject.array arr)) (hd : arr.data = some d)
    (hdl : d.length = arr.capacity) (hlen : arr.len ≤ arr.capacity)
    (hcap : 1 ≤ arr.capacity) (hcap31 : arr.capacity < 2 ^ 31)
    (hret : LCRetain pf rt v = .ok rtv)
    (hne : v.tag.is_primitive = true ∨ v.ptr_val ≠ this.ptr_val) :
    ∃ arr1 d1, lc_std_array_push pf rt this v
        = .ok (heap_store rtv this.ptr_val (LCObject.array arr1), MK_NULL) ∧
      arr1.header = arr.header ∧ arr1.len = arr.len + 1 ∧ arr1.data = some d1 ∧
      d1.length = arr1.capacity ∧ arr1.len ≤ arr1.capacity ∧ 1 ≤ arr1.capacity ∧
      arr1.capacity = (if arr.len = arr.capacity then 2 * arr.capacity else arr.capacity) ∧
      d1.get? arr.len = some v ∧ (∀ i, i < arr.len → d1.get? i = d.get? i) ∧
      LCArrayGetValue (heap_store rtv this.ptr_val (LCObject.array arr1)) this arr.len
        = .ok v := by
  have key : ∀ (g : LCArray) (dg : List LCValue), g.header = arr.header → g.len = arr.len →
      g.data = some dg → arr.len < dg.length → dg.length < 2 ^ 32 →
      (∀ i, i < arr.len → dg.get? i = d.get? i) →
      let a1 : LCArray := { g with len := (g.len + 1) % 4294967296,
                                   data := some (dg.set g.len v) }
      (match LCRetain pf (heap_store rt this.ptr_val (LCObject.array g)) v with
        | .error e => (.error e : Except Fault (LCRuntime × LCValue))
        | .ok rt1 =>
          match rt1.heap this.ptr_val with
          | some (LCObject.array arr1) =>
            match arr1.data with
            | none => .error Fault.undefined
            | some d =>
              if arr1.len < d.length then
                .ok (heap_store rt1 this.ptr_val
                  (LCObject.array
                    { arr1 with
                      len := (arr1.len + 1) % 4294967296,
                      data := some (d.set arr1.len v) }),
                  MK_NULL)
              else .error Fault.undefined
          | _ => .error Fault.undefined)
        = .ok (heap_store rtv this.ptr_val (LCObject.array a1), MK_NULL) ∧
      a1.header = arr.header ∧ a1.len = arr.len + 1 ∧ a1.data = some (dg.set g.len v) ∧
      (dg.set g.len v).length = dg.length ∧
      (dg.set g.len v).get? arr.len = some v ∧
      (∀ i, i < arr.len → (dg.set g.len v).get? i = d.get? i) ∧
      LCArrayGetValue (heap_store rtv this.ptr_val (LCObject.array a1)) this arr.len
        = .ok v := by
    intro g dg hgh hgl hgd hlt h32 hprev
    have hmod : (g.len + 1) % 4294967296 = arr.len + 1 := by
      rw [hgl]; exact Nat.mod_eq_of_lt (by omega)
    have hget : (dg.set g.len v).get? arr.len = some v := by
      rw [hgl, List.get?_eq_getElem?, List.getElem?_set_self hlt]
    refine ⟨?_, hgh, hmod, rfl, by simp, hget, ?_, ?_⟩
    · rw [retain_heap_store pf rt rtv this.ptr_val _ v hret hne]
      simp only [heap_store_heap_self, hgd]
      rw [if_pos (by omega), heap_store_store]
    · intro i hi
      rw [hgl, List.get?_eq_getElem?, List.getElem?_set_ne (by omega), ← List.get?_eq_getElem?]
      exact hprev i hi
    · unfold LCArrayGetValue
      simp only [heap_store_heap_self]
      rw [toU32_nonneg_small _ (by omega) (by omega)]
      simp only [Int.toNat_ofNat, hmod]
      rw [if_neg (by omega), if_neg (by omega), hget]
  unfold lc_std_array_push
  simp only [h]
  by_cases hfull : arr.len = arr.capacity
  · have hm : arr.capacity * 2 % 4294967296 = 2 * arr.capacity := by
      rw [Nat.mod_eq_of_lt (by omega)]; ring
    have hre : array_realloc pf arr.data (2 * arr.capacity)
        = some (d ++ List.replicate arr.capacity LCValue.zero) := by
      unfold array_realloc
      rw [if_neg (by omega), hd]
      simp only []
      rw [List.take_of_length_le (by omega), hdl]
      congr 3
      omega
    rw [if_pos hfull, hm, hre]
    obtain ⟨k1, k2, k3, k4, k5, k6, k7, k8⟩ := key
      { arr with capacity := 2 * arr.capacity,
                 data := some (d ++ List.replicate arr.capacity LCValue.zero) }
      (d ++ List.replicate arr.capacity LCValue.zero) rfl rfl rfl
      (by simp; omega) (by simp; omega)
      (fun i hi => by
        rw [List.get?_eq_getElem?, List.getElem?_append_left (by omega),
          ← List.get?_eq_getElem?])
    refine ⟨_, _, k1, k2, k3, k4, ?_, ?_, ?_, ?_, k6, k7, k8⟩
    · rw [k5]; simp; omega
    · show (arr.len + 1) % 4294967296 ≤ 2 * arr.capacity
      rw [Nat.mod_eq_of_lt (by omega)]; omega
    · show 1 ≤ 2 * arr.capacity
      omega
    · rw [if_pos hfull]
  · rw [if_neg hfull]
    obtain ⟨k1, k2, k3, k4, k5, k6, k7, k8⟩ := key arr d rfl rfl hd (by omega) (by omega)
      (fun i _ => rfl)
    refine ⟨_, _, k1, k2, k3, k4, ?_, ?_, ?_, ?_, k6, k7, k8⟩
    · rw [k5]; exact hdl
    · show (arr.len + 1) % 4294967296 ≤ arr.capacity
      rw [Nat.mod_eq_of_lt (by omega)]; omega
    · exact hcap
    · rw [if_neg hfull]

theorem array_push_spec_witness :
    ∃ arr1 d1, lc_std_array_push example_platform
        (example_heap [LCObject.array example_array]) ⟨LC_TY_ARRAY, 1⟩ (MK_I32 7)
        = .ok (heap_store (example_heap [LCObject.array example_array]) 1
            (LCObject.array arr1), MK_NULL) ∧
      arr1.len = 3 ∧ arr1.capacity = 4 ∧ arr1.data = some d1 ∧
      d1.get? 2 = some (MK_I32 7) := by
  obtain ⟨arr1, d1, h1, _, h3, h4, _, _, _, h8, h9, _⟩ := array_push_spec example_platform
    (example_heap [LCObject.array example_array]) (example_heap [LCObject.array example_array])
    ⟨LC_TY_ARRAY, 1⟩ (MK_I32 7) example_array [MK_I32 5, MK_I32 6] rfl rfl rfl (by decide)
    (by decide) (by decide) rfl (Or.inl rfl)
  exact ⟨arr1, d1, h1, h3, h8, h4, h9⟩

theorem retain_primitive (pf : Platform) (rt : LCRuntime) (v : LCValue)
    (hv : v.tag.is_primitive = true) : LCRetain pf rt v = .ok rt := by
  unfold LCRetain
  rw [if_pos hv]

/-- Push of an immediate value on an array with `len = capacity = 0` has no
defined result: the doubled capacity is 0, `lc_realloc` is asked for zero
bytes, and the store goes to slot 0 of a block without slots. -/
theorem array_push_zero_capacity (pf : Platform) (rt : LCRuntime) (this v : LCValue)
    (arr : LCArray) (h : rt.heap this.ptr_val = some (LCObject.array arr))
    (hl : arr.len = 0) (hc : arr.capacity = 0) (hv : v.tag.is_primitive = true) :
    lc_std_array_push pf rt this v = .error Fault.undefined := by
  unfold lc_std_array_push
  simp only [h, hl, hc, if_true]
  rw [retain_primitive pf _ v hv]
  simp only [heap_store_heap_self]
  unfold array_realloc
  simp only [Nat.zero_mul, Nat.zero_mod, if_true]
  cases pf.malloc_zero_null with
  | true => simp
  | false => simp [hl]

theorem array_push_zero_capacity_witness :
    lc_std_array_push example_platform
      (example_heap [LCObject.array
        { header := { count := 1, class_id := 0 }, len := 0, capacity := 0, data := some [] }])
      ⟨LC_TY_ARRAY, 1⟩ (MK_I32 7) = .error Fault.undefined :=
  array_push_zero_capacity example_platform
    (example_heap [LCObject.array
      { header := { count := 1, class_id := 0 }, len := 0, capacity := 0, data := some [] }])
    ⟨LC_TY_ARRAY, 1⟩ (MK_I32 7)
    { header := { count := 1, class_id := 0 }, len := 0, capacity := 0, data := some [] }
    rfl rfl rfl rfl

/-- C24: on the array `LCNewArrayLen(rt, 0)` returns, `lc_std_array_push` has no
defined result, whether `malloc(0)` returns a block or `NULL`: length and
capacity are 0, the capacity is doubled to 0, and the value is stored to slot 0
of a block without slots.  On `LCNewArrayLen(rt, 1)` the push gives length 2
with the value in the last slot. -/
theorem push_after_new_len_zero_undefined :
    example_array_after example_platform 0 []
      = .ok { header := { count := 1, class_id := 0 }, len := 0, capacity := 0,
              data := some [] } ∧
    example_array_after example_platform 0 [MK_I32 7] = .error Fault.undefined ∧
    example_array_after example_platform_null 0 [MK_I32 7] = .error Fault.undefined ∧
    example_array_after example_platform 1 [MK_I32 7]
      = .ok { header := { count := 1, class_id := 0 }, len := 2, capacity := 2,
              data := some [LCValue.zero, MK_I32 7] } := by
  refine ⟨?_, ?_, ?_, ?_⟩ <;> rfl

/-- C26: the arrays `LCNewArrayWithCap(rt, 0)` and `LCNewArrayLen(rt, 0)` return
have capacity 0, and a push on them does not give an array with
`1 <= len <= capacity`: the capacity stays 0 when it is doubled and the push has
no defined result.  From `LCNewArrayLen(rt, 3)`, whose capacity is 4, two pushes
give length 5 and capacity 8. -/
theorem capacity_zero_never_grows :
    example_array_with_cap_after example_platform 0 []
      = .ok { header := { count := 1, class_id := 0 }, len := 0, capacity := 0,
              data := some [] } ∧
    example_array_with_cap_after example_platform 0 [MK_I32 7] = .error Fault.undefined ∧
    example_array_after example_platform_null 0 []
      = .ok { header := { count := 1, class_id := 0 }, len := 0, capacity := 0,
              data := none } ∧
    example_array_after example_platform 0 [MK_I32 7, MK_I32 8] = .error Fault.undefined ∧
    (example_array_after example_platform 3 [MK_I32 7, MK_I32 8]).map
        (fun a => (a.len, a.capacity)) = .ok (5, 8) := by
  refine ⟨?_, ?_, ?_, ?_, ?_⟩ <;> rfl

/-! ## Ref-cells -/

theorem release_primitive (pf : Platform) (fuel : Nat) (rt : LCRuntime) (v : LCValue)
    (hv : v.tag.is_primitive = true) : LCRelease pf (fuel + 1) rt v = .ok rt := by
  rw [LCRelease, if_pos hv]

theorem retain_mortal (pf : Platform) (rt : LCRuntime) (v : LCValue) (o : LCObject)
    (h : LCObjectHeader) (hsent : pf.LC_NO_GC ≤ 0) (hv : v.tag.is_primitive = false)
    (ho : rt.heap v.ptr_val = some o) (hh : o.header = some h) (hc : 1 ≤ h.count) :
    LCRetain pf rt v = .ok (heap_store rt v.ptr_val (o.set_count (h.count + 1))) := by
  have hne : h.count ≠ pf.LC_NO_GC := by omega
  unfold LCRetain
  simp only [hv, Bool.false_eq_true, if_false, ho, hh, hne]

theorem release_mortal (pf : Platform) (fuel : Nat) (rt : LCRuntime) (v : LCValue)
    (o : LCObject) (h : LCObjectHeader) (hsent : pf.LC_NO_GC ≤ 0)
    (hv : v.tag.is_primitive = false) (ho : rt.heap v.ptr_val = some o)
    (hh : o.header = some h) (hc : 2 ≤ h.count) :
    LCRelease pf (fuel + 1) rt v
      = .ok (heap_store rt v.ptr_val (o.set_count (h.count - 1))) := by
  rw [LCRelease]
  simp only [hv, Bool.false_eq_true, if_false, ho, hh]
  rw [if_neg (by omega), if_neg (by omega)]

theorem release_last_string (pf : Platform) (fuel : Nat) (rt : LCRuntime) (v : LCValue)
    (s : LCString) (hsent : pf.LC_NO_GC ≤ 0) (hv : v.tag = LC_TY_STRING)
    (ho : rt.heap v.ptr_val = some (LCObject.string s)) (hc : s.header.count = 1) :
    LCRelease pf (fuel + 1) rt v
      = .ok (lc_free_at (heap_store rt v.ptr_val
          ((LCObject.string s).set_count (s.header.count - 1))) v.ptr_val) := by
  rw [LCRelease]
  have hp : v.tag.is_primitive = false := by rw [hv]; rfl
  simp only [hp, Bool.false_eq_true, if_false, ho, LCObject.header]
  rw [if_neg (by omega), if_pos (by omega)]
  unfold LCFreeObject
  simp only [hv]

/-- The core of `LCRefCellSetValue`: when the release of the old value and the
retain of the new one return and leave the cell in place, the cell holds the
new value afterwards. -/
theorem refcell_set_core (pf : Platform) (fuel : Nat) (rt rt1 rt2 : LCRuntime)
    (cell v : LCValue) (c c2 : LCRefCell)
    (hcell : rt.heap cell.ptr_val = some (LCObject.refcell c))
    (hrel : LCRelease pf fuel rt c.value = .ok rt1) (hret : LCRetain pf rt1 v = .ok rt2)
    (hcell2 : rt2.heap cell.ptr_val = some (LCObject.refcell c2)) :
    LCRefCellSetValue pf fuel rt cell v
      = .ok (heap_store rt2 cell.ptr_val (LCObject.refcell { c2 with value := v })) ∧
    LCRefCellGetValue
      (heap_store rt2 cell.ptr_val (LCObject.refcell { c2 with value := v })) cell
      = .ok v := by
  constructor
  · unfold LCRefCellSetValue
    simp only [hcell, hrel, hret, hcell2]
  · unfold LCRefCellGetValue
    simp only [heap_store_heap_self]

/-- When the old and the new value are immediates, `LCRefCellSetValue` stores
the new value in the cell and changes nothing else. -/
theorem refcell_set_primitive (pf : Platform) (fuel : Nat) (rt : LCRuntime) (cell v : LCValue)
    (c : LCRefCell) (hcell : rt.heap cell.ptr_val = some (LCObject.refcell c))
    (hold : c.value.tag.is_primitive = true) (hv : v.tag.is_primitive = true) :
    LCRefCellSetValue pf (fuel + 1) rt cell v
      = .ok (heap_store rt cell.ptr_val (LCObject.refcell { c with value := v })) ∧
    LCRefCellGetValue (heap_store rt cell.ptr_val (LCObject.refcell { c with value := v })) cell
      = .ok v :=
  refcell_set_core pf (fuel + 1) rt rt rt cell v c c hcell
    (release_primitive pf fuel rt c.value hold) (retain_primitive pf rt v hv) hcell

theorem refcell_set_primitive_witness :
    LCRefCellSetValue example_platform 1
        (example_heap [LCObject.refcell
          { header := { count := 1, class_id := 0 }, value := MK_I32 0 }])
        ⟨LC_TY_REFCELL, 1⟩ (MK_I32 7)
      = .ok (heap_store
          (example_heap [LCObject.refcell
            { header := { count := 1, class_id := 0 }, value := MK_I32 0 }]) 1
          (LCObject.refcell { header := { count := 1, class_id := 0 }, value := MK_I32 7 })) :=
  (refcell_set_primitive example_platform 0
    (example_heap [LCObject.refcell
      { header := { count := 1, class_id := 0 }, value := MK_I32 0 }])
    ⟨LC_TY_REFCELL, 1⟩ (MK_I32 7)
    { header := { count := 1, class_id := 0 }, value := MK_I32 0 } rfl rfl rfl).1

/-! ## A ref-cell shared by two lambdas -/

theorem new_refcell_primitive (pf : Platform) (rt : LCRuntime) (v0 : LCValue)
    (hv0 : v0.tag.is_primitive = true) :
    ∃ R, LCNewRefCell pf rt v0 = .ok (R, ⟨LC_TY_REFCELL, rt.next⟩) ∧
      R.heap rt.next
        = some (LCObject.refcell { header := { count := 1, class_id := 0 }, value := v0 }) ∧
      (∀ q, q ≠ rt.next → R.heap q = rt.heap q) ∧
      R.malloc_count = rt.malloc_count + 1 ∧ R.next = rt.next + 1 := by
  have hm : lc_mallocz pf rt sizeof_object
      = ({ rt with malloc_count := rt.malloc_count + 1 }, true) := by
    unfold lc_mallocz
    exact lc_malloc_pos pf rt sizeof_object (by decide)
  unfold LCNewRefCell
  rw [hm]
  simp only [retain_primitive pf _ v0 hv0]
  refine ⟨_, rfl, by simp [heap_new], ?_, rfl, rfl⟩
  intro q hq
  simp [heap_new, hq]

theorem new_lambda_capture_cell (pf : Platform) (R : LCRuntime) (p : Nat) (k : Int)
    (val : LCValue) (f : Nat) (hsent : pf.LC_NO_GC ≤ 0)
    (hp : R.heap p
      = some (LCObject.refcell { header := { count := k, class_id := 0 }, value := val }))
    (hk : 1 ≤ k) (hpn : p ≠ R.next) :
    ∃ R1, LCNewLambda pf R f 1 [⟨LC_TY_REFCELL, p⟩] = .ok (R1, ⟨LC_TY_LAMBDA, R.next⟩) ∧
      R1.heap R.next
        = some (LCObject.lambda
            { header := { count := 1, class_id := 0 }, c_fun := f, captured_values_size := 1,
              captured_values := [⟨LC_TY_REFCELL, p⟩] }) ∧
      R1.heap p
        = some (LCObject.refcell { header := { count := k + 1, class_id := 0 }, value := val }) ∧
      (∀ q, q ≠ R.next → q ≠ p → R1.heap q = R.heap q) ∧
      R1.malloc_count = R.malloc_count + 1 ∧ R1.next = R.next + 1 := by
  have hm : lc_mallocz pf R (sizeof_object + 1 * sizeof_LCValue)
      = ({ R with malloc_count := R.malloc_count + 1 }, true) := by
    unfold lc_mallocz
    exact lc_malloc_pos pf R _ (by decide)
  have hpv : (⟨LC_TY_REFCELL, (p : Int)⟩ : LCValue).ptr_val = p := ptr_val_mk _ _
  have hret := retain_mortal pf { R with malloc_count := R.malloc_count + 1 }
    ⟨LC_TY_REFCELL, p⟩
    (LCObject.refcell { header := { count := k, class_id := 0 }, value := val })
    { count := k, class_id := 0 } hsent rfl (by rw [hpv]; exact hp) rfl hk
  unfold LCNewLambda
  rw [hm]
  simp only [slots, List.length_singleton, le_refl, if_true, List.take_succ_cons, List.take_zero,
    retain_all, hret]
  rw [hpv]
  refine ⟨_, rfl, by simp [heap_new, heap_store], ?_, ?_, rfl, rfl⟩
  · simp [heap_new, heap_store, hpn, LCObject.set_count]
  · intro q h1 h2
    simp [heap_new, heap_store, h1, h2]

theorem lambda_set_ref_primitive (pf : Platform) (fuel : Nat) (R : LCRuntime) (a p : Nat)
    (l : LCLambda) (c : LCRefCell) (v : LCValue)
    (ha : R.heap a = some (LCObject.lambda l))
    (hl : l.captured_values.get? 0 = some ⟨LC_TY_REFCELL, p⟩)
    (hc : R.heap p = some (LCObject.refcell c)) (hold : c.value.tag.is_primitive = true)
    (hv : v.tag.is_primitive = true) :
    LCLambdaSetRefValue pf (fuel + 1) R ⟨LC_TY_LAMBDA, a⟩ 0 v
      = .ok (heap_store R p (LCObject.refcell { c with value := v })) := by
  have hpa : (⟨LC_TY_LAMBDA, (a : Int)⟩ : LCValue).ptr_val = a := ptr_val_mk _ _
  have hpv : (⟨LC_TY_REFCELL, (p : Int)⟩ : LCValue).ptr_val = p := ptr_val_mk _ _
  unfold LCLambdaSetRefValue lambda_slot
  rw [hpa]
  simp only [ha, lt_self_iff_false, if_false, Int.toNat_zero, hl, ne_eq, not_true_eq_false]
  have := (refcell_set_primitive pf fuel R ⟨LC_TY_REFCELL, p⟩ v c (by rw [hpv]; exact hc)
    hold hv).1
  rw [hpv] at this
  exact this

theorem lambda_get_ref (R : LCRuntime) (b p : Nat) (l : LCLambda) (c : LCRefCell)
    (hb : R.heap b = some (LCObject.lambda l))
    (hl : l.captured_values.get? 0 = some ⟨LC_TY_REFCELL, p⟩)
    (hc : R.heap p = some (LCObject.refcell c)) :
    LCLambdaGetRefValue R ⟨LC_TY_LAMBDA, b⟩ 0 = .ok c.value := by
  have hpb : (⟨LC_TY_LAMBDA, (b : Int)⟩ : LCValue).ptr_val = b := ptr_val_mk _ _
  have hpv : (⟨LC_TY_REFCELL, (p : Int)⟩ : LCValue).ptr_val = p := ptr_val_mk _ _
  unfold LCLambdaGetRefValue lambda_slot LCRefCellGetValue
  rw [hpb]
  simp only [hb, lt_self_iff_false, if_false, Int.toNat_zero, hl, ne_eq, not_true_eq_false, hpv,
    hc]

theorem release_lambda_last (pf : Platform) (fuel : Nat) (R : LCRuntime) (a p : Nat) (f : Nat)
    (k : Int) (val : LCValue) (hsent : pf.LC_NO_GC ≤ 0)
    (ha : R.heap a
      = some (LCObject.lambda
          { header := { count := 1, class_id := 0 }, c_fun := f, captured_values_size := 1,
            captured_values := [⟨LC_TY_REFCELL, p⟩] }))
    (hp : R.heap p
      = some (LCObject.refcell { header := { count := k, class_id := 0 }, value := val }))
    (hk : 2 ≤ k) (hap : a ≠ p) :
    ∃ R1, LCRelease pf (fuel + 1 + 1) R ⟨LC_TY_LAMBDA, a⟩ = .ok R1 ∧ R1.heap a = none ∧
      R1.heap p
        = some (LCObject.refcell { header := { count := k - 1, class_id := 0 }, value := val }) ∧
      (∀ q, q ≠ a → q ≠ p → R1.heap q = R.heap q) ∧
      R1.malloc_count = R.malloc_count - 1 := by
  have hpa : (⟨LC_TY_LAMBDA, (a : Int)⟩ : LCValue).ptr_val = a := ptr_val_mk _ _
  have hpv : (⟨LC_TY_REFCELL, (p : Int)⟩ : LCValue).ptr_val = p := ptr_val_mk _ _
  have hpa2 : ¬ p = a := fun h => hap h.symm
  have hrel := release_mortal pf fuel
    (heap_store R a (LCObject.lambda
      { header := { count := 1 - 1, class_id := 0 }, c_fun := f, captured_values_size := 1,
        captured_values := [⟨LC_TY_REFCELL, p⟩] }))
    ⟨LC_TY_REFCELL, p⟩
    (LCObject.refcell { header := { count := k, class_id := 0 }, value := val })
    { count := k, class_id := 0 } hsent rfl
    (by rw [hpv, heap_store_heap_ne _ _ _ _ hpa2]; exact hp) rfl hk
  rw [LCRelease]
  have hprim : (⟨LC_TY_LAMBDA, (a : Int)⟩ : LCValue).tag.is_primitive = false := rfl
  simp only [hprim, Bool.false_eq_true, if_false, hpa, ha, LCObject.header]
  rw [if_neg (by omega), if_pos (by norm_num)]
  unfold LCFreeObject
  simp only [LCFreeLambda, hpa, LCObject.set_count, heap_store_heap_self, slots,
    List.length_singleton, le_refl, if_true, List.take_succ_cons, List.take_zero, release_all,
    hrel]
  rw [hpv]
  refine ⟨_, rfl, by simp [lc_free_at], ?_, ?_, rfl⟩
  · simp [lc_free_at, heap_store, hpa2, LCObject.set_count]
  · intro q h1 h2
    simp [lc_free_at, heap_store, h1, h2]

theorem release_cell_last (pf : Platform) (fuel : Nat) (R : LCRuntime) (p : Nat) (val : LCValue)
    (hsent : pf.LC_NO_GC ≤ 0)
    (hp : R.heap p
      = some (LCObject.refcell { header := { count := 1, class_id := 0 }, value := val }))
    (hval : val.tag.is_primitive = true) :
    ∃ R1, LCRelease pf (fuel + 1 + 1) R ⟨LC_TY_REFCELL, p⟩ = .ok R1 ∧ R1.heap p = none ∧
      (∀ q, q ≠ p → R1.heap q = R.heap q) ∧ R1.malloc_count = R.malloc_count - 1 := by
  have hpv : (⟨LC_TY_REFCELL, (p : Int)⟩ : LCValue).ptr_val = p := ptr_val_mk _ _
  rw [LCRelease]
  have hprim : (⟨LC_TY_REFCELL, (p : Int)⟩ : LCValue).tag.is_primitive = false := rfl
  simp only [hprim, Bool.false_eq_true, if_false, hpv, hp, LCObject.header]
  rw [if_neg (by omega), if_pos (by norm_num)]
  unfold LCFreeObject
  simp only [LCFreeRefCell, hpv, LCObject.set_count, heap_store_heap_self,
    release_primitive pf fuel _ val hval]
  refine ⟨_, rfl, by simp [lc_free_at], ?_, rfl⟩
  intro q h1
  simp [lc_free_at, heap_store, h1]

/-- Whenever `LCLambdaSetRefValue(A, i, w)` returns, for a lambda `A` whose
captured value `i` is the ref-cell at `p`, the cell at `p` holds `w`; so
`LCLambdaGetRefValue(B, j)` returns `w` for every lambda `B` that is live then
and whose captured value `j` is that ref-cell. -/
theorem lambda_set_then_get (pf : Platform) (fuel : Nat) (R R1 : LCRuntime) (a b i j p : Nat)
    (lA lB : LCLambda) (w : LCValue)
    (ha : R.heap a = some (LCObject.lambda lA))
    (hi : lA.captured_values.get? i = some ⟨LC_TY_REFCELL, p⟩)
    (hset : LCLambdaSetRefValue pf fuel R ⟨LC_TY_LAMBDA, a⟩ i w = .ok R1)
    (hb : R1.heap b = some (LCObject.lambda lB))
    (hj : lB.captured_values.get? j = some ⟨LC_TY_REFCELL, p⟩) :
    LCLambdaGetRefValue R1 ⟨LC_TY_LAMBDA, b⟩ j = .ok w := by
  have hpa : (⟨LC_TY_LAMBDA, (a : Int)⟩ : LCValue).ptr_val = a := ptr_val_mk _ _
  have hpb : (⟨LC_TY_LAMBDA, (b : Int)⟩ : LCValue).ptr_val = b := ptr_val_mk _ _
  have hpv : (⟨LC_TY_REFCELL, (p : Int)⟩ : LCValue).ptr_val = p := ptr_val_mk _ _
  have hcell : ∃ c : LCRefCell, R1.heap p = some (LCObject.refcell c) ∧ c.value = w := by
    unfold LCLambdaSetRefValue lambda_slot at hset
    rw [hpa] at hset
    simp only [ha, Int.toNat_ofNat, hi] at hset
    rw [if_neg (by omega)] at hset
    simp only [ne_eq, not_true_eq_false, if_false] at hset
    unfold LCRefCellSetValue at hset
    rw [hpv] at hset
    cases h0 : R.heap p with
    | none => rw [h0] at hset; simp at hset
    | some o =>
      rw [h0] at hset
      cases o with
      | refcell ref =>
        simp only [] at hset
        cases h1 : LCRelease pf fuel R ref.value with
        | error e => rw [h1] at hset; simp at hset
        | ok r1 =>
          rw [h1] at hset
          simp only [] at hset
          cases h2 : LCRetain pf r1 w with
          | error e => rw [h2] at hset; simp at hset
          | ok r2 =>
            rw [h2] at hset
            simp only [] at hset
            cases h3 : r2.heap p with
            | none => rw [h3] at hset; simp at hset
            | some o2 =>
              rw [h3] at hset
              cases o2 with
              | refcell ref2 =>
                simp only [Except.ok.injEq] at hset
                exact ⟨_, by rw [← hset]; exact heap_store_heap_self _ _ _, rfl⟩
              | _ => simp at hset
      | _ => simp at hset
  obtain ⟨c, hc, hcw⟩ := hcell
  unfold LCLambdaGetRefValue lambda_slot LCRefCellGetValue
  rw [hpb]
  simp only [hb, Int.toNat_ofNat, hj]
  rw [if_neg (by omega)]
  simp only [ne_eq, not_true_eq_false, if_false, hpv, hc, hcw]

theorem lambda_set_then_get_witness :
    LCLambdaGetRefValue
      (heap_store
        (example_heap
          [LCObject.lambda
            { header := { count := 1, class_id := 0 }, c_fun := 11, captured_values_size := 2,
              captured_values := [MK_I32 1, ⟨LC_TY_REFCELL, 2⟩] },
           LCObject.refcell { header := { count := 2, class_id := 0 }, value := MK_I32 0 }])
        2 (LCObject.refcell { header := { count := 2, class_id := 0 }, value := MK_I32 7 }))
      ⟨LC_TY_LAMBDA, 1⟩ 1 = .ok (MK_I32 7) :=
  lambda_set_then_get example_platform 1
    (example_heap
      [LCObject.lambda
        { header := { count := 1, class_id := 0 }, c_fun := 11, captured_values_size := 2,
          captured_values := [MK_I32 1, ⟨LC_TY_REFCELL, 2⟩] },
       LCObject.refcell { header := { count := 2, class_id := 0 }, value := MK_I32 0 }])
    _ 1 1 1 1 2 _ _ (MK_I32 7) rfl rfl rfl rfl rfl

/-- C29: for a tag `t`, a size `n`, a payload whose first `n` values are valid
in `rt`, and an index `i < n` (`LC_NO_GC` not being a positive count, the
address handed out being unused): `LCNewUnionObject` returns a union object,
`LCUnionObjectGet` on it at `i` returns the value `v_i` of the payload after one
`LCRetain` of it, so that every count is its count in `rt` plus the number of
times the object occurs in the payload plus one for the object of `v_i`;
`LCUnionGetType` returns `t` for the union object and `d` for the immediate
union value with discriminant `d`. -/
theorem union_round_trip (pf : Platform) (rt : LCRuntime) (t : Int) (n : Nat)
    (payload : List LCValue) (i : Nat) (hsent : pf.LC_NO_GC ≤ 0)
    (hfresh : rt.heap rt.next = none) (hn : n ≤ payload.length)
    (hval : ∀ v ∈ payload.take n, valid_value pf rt v) (hi : i < n) :
    ∃ rt1 rt2 vi, payload.get? i = some vi ∧
      LCNewUnionObject pf rt t n payload = .ok (rt1, ⟨LC_TY_UNION_OBJECT, rt.next⟩) ∧
      LCUnionObjectGet pf rt1 ⟨LC_TY_UNION_OBJECT, rt.next⟩ i = .ok (rt2, vi) ∧
      LCRetain pf rt1 vi = .ok rt2 ∧
      rt1 = bump pf (heap_new { rt with malloc_count := rt.malloc_count + 1 }
          (LCObject.union_object
            { header := { count := 1, class_id := 0 }, tag := t, size := n,
              value := payload.take n })).1
          (fun q => mult (payload.take n) q) ∧
      rt2 = bump pf (heap_new { rt with malloc_count := rt.malloc_count + 1 }
          (LCObject.union_object
            { header := { count := 1, class_id := 0 }, tag := t, size := n,
              value := payload.take n })).1
          (fun q => mult (payload.take n) q + delta vi q) ∧
      LCUnionGetType rt1 ⟨LC_TY_UNION_OBJECT, rt.next⟩ = .ok t ∧
      LCUnionGetType rt2 ⟨LC_TY_UNION_OBJECT, rt.next⟩ = .ok t ∧
      ∀ d, LCUnionGetType rt (MK_UNION d) = .ok d := by
  have hil : i < payload.length := by omega
  have hvi : payload.get? i = some (payload.get ⟨i, hil⟩) := List.get?_eq_get hil
  have hti : (payload.take n).get? i = some (payload.get ⟨i, hil⟩) := by
    rw [List.get?_eq_getElem?, List.getElem?_take_of_lt hi, ← List.get?_eq_getElem?, hvi]
  have hmem : payload.get ⟨i, hil⟩ ∈ payload.take n := List.get?_mem hti
  have hvv := hval _ hmem
  have hpu : (⟨LC_TY_UNION_OBJECT, (rt.next : Int)⟩ : LCValue).ptr_val = rt.next :=
    ptr_val_mk _ _
  have hR0 : ∀ c ∈ payload.take n,
      valid_value pf { rt with malloc_count := rt.malloc_count + 1 } c :=
    fun c hc => valid_value_of_heap_eq pf rt _ c rfl (hval c hc)
  have hret := retain_all_bump pf { rt with malloc_count := rt.malloc_count + 1 } hsent
    (payload.take n) (fun _ => 0) hR0 (fun _ _ _ => le_refl _)
  rw [bump_zero] at hret
  simp only [zero_add] at hret
  have hmp : mult (payload.take n) rt.next = 0 := mult_fresh pf rt _ rt.next hfresh hval
  have hdp : delta (payload.get ⟨i, hil⟩) rt.next = 0 := by
    have := mult_fresh pf rt [payload.get ⟨i, hil⟩] rt.next hfresh
      (fun c hc => by rw [List.mem_singleton] at hc; rw [hc]; exact hvv)
    simpa [mult] using this
  have hnew : LCNewUnionObject pf rt t n payload
      = .ok (bump pf (heap_new { rt with malloc_count := rt.malloc_count + 1 }
          (LCObject.union_object
            { header := { count := 1, class_id := 0 }, tag := t, size := n,
              value := payload.take n })).1
          (fun q => mult (payload.take n) q), ⟨LC_TY_UNION_OBJECT, rt.next⟩) := by
    unfold LCNewUnionObject lc_mallocz
    simp only [Int.toNat_ofNat, slots, hn, if_true]
    rw [lc_malloc_pos pf rt _ (by unfold sizeof_object; omega), hret]
    simp only []
    rw [heap_new_bump pf { rt with malloc_count := rt.malloc_count + 1 } _ _ hmp]
    rfl
  have hlook : ∀ d : Nat → Int, d rt.next = 0 →
      (bump pf (heap_new { rt with malloc_count := rt.malloc_count + 1 }
          (LCObject.union_object
            { header := { count := 1, class_id := 0 }, tag := t, size := n,
              value := payload.take n })).1 d).heap rt.next
      = some (LCObject.union_object
            { header := { count := 1, class_id := 0 }, tag := t, size := n,
              value := payload.take n }) := by
    intro d hd
    rw [bump_heap_at, hd]
    simp [heap_new, bump_obj_zero]
  have hvn : valid_value pf (heap_new { rt with malloc_count := rt.malloc_count + 1 }
      (LCObject.union_object
        { header := { count := 1, class_id := 0 }, tag := t, size := n,
          value := payload.take n })).1 (payload.get ⟨i, hil⟩) :=
    valid_value_heap_new pf _ _ _ hfresh (hR0 _ hmem)
  have hret1 := retain_bump pf _ (fun q => mult (payload.take n) q) (payload.get ⟨i, hil⟩) hsent
    hvn (fun _ => mult_nonneg _ _)
  have htype : ∀ d : Nat → Int, d rt.next = 0 →
      LCUnionGetType (bump pf (heap_new { rt with malloc_count := rt.malloc_count + 1 }
          (LCObject.union_object
            { header := { count := 1, class_id := 0 }, tag := t, size := n,
              value := payload.take n })).1 d) ⟨LC_TY_UNION_OBJECT, rt.next⟩ = .ok t := by
    intro d hd
    unfold LCUnionGetType
    have hne : ¬ (⟨LC_TY_UNION_OBJECT, (rt.next : Int)⟩ : LCValue).tag = LC_TY_UNION :=
      fun h => by cases h
    rw [if_neg hne, hpu, hlook d hd]
  refine ⟨_, _, payload.get ⟨i, hil⟩, hvi, hnew, ?_, hret1, rfl, rfl, htype _ hmp,
    htype _ (by simp only [hmp, hdp, add_zero]), ?_⟩
  · unfold LCUnionObjectGet
    rw [hpu, hlook _ hmp]
    simp only [Int.toNat_ofNat, hti, hret1]
    rw [if_neg (by omega)]
  · intro d
    unfold LCUnionGetType MK_UNION
    rw [if_pos rfl]
    rfl

theorem union_round_trip_witness :
    ∃ rt1 rt2, LCNewUnionObject example_platform
        (example_heap [LCObject.string example_narrow_a]) 5 2 [MK_I32 4, MK_STRING 1]
        = .ok (rt1, ⟨LC_TY_UNION_OBJECT, 2⟩) ∧
      LCUnionObjectGet example_platform rt1 ⟨LC_TY_UNION_OBJECT, 2⟩ 1
        = .ok (rt2, MK_STRING 1) ∧
      LCUnionGetType rt2 ⟨LC_TY_UNION_OBJECT, 2⟩ = .ok 5 := by
  obtain ⟨rt1, rt2, vi, h0, h1, h2, _, _, _, _, h7, _⟩ := union_round_trip example_platform
    (example_heap [LCObject.string example_narrow_a]) 5 2 [MK_I32 4, MK_STRING 1] 1 (by decide)
    rfl (by decide)
    (by
      intro v hv
      simp only [List.take, List.mem_cons, List.mem_singleton, List.not_mem_nil, or_false] at hv
      rcases hv with hv | hv
      · subst hv; exact Or.inl rfl
      · subst hv
        exact Or.inr ⟨LCObject.string example_narrow_a, example_narrow_a.header, rfl, rfl,
          Or.inr (by decide)⟩)
    (by decide)
  have hv : vi = MK_STRING 1 := (Option.some.inj h0).symm
  subst hv
  exact ⟨rt1, rt2, h1, h2, h7⟩

/-! ## Class registry -/

/-- One `LCDefineClass` in a runtime whose class vector has a free slot and
fewer than `2^30` classes: the id is the number of classes registered before,
the descriptor is appended, the slots registered before are unchanged, and the
vector has a free slot again. -/
theorem define_class_step (rt : LCRuntime) (d : LCClassDef)
    (hlt : rt.cls_meta_data.length < rt.cls_meta_cap)
    (hcap : rt.cls_meta_cap ≤ max 8 (2 * rt.cls_meta_data.length))
    (hl : rt.cls_meta_data.length < 2 ^ 30) :
    ∃ rt1, LCDefineClass rt d = .ok (rt1, rt.cls_meta_data.length) ∧
      rt1.cls_meta_data = rt.cls_meta_data ++ [{ cls_def := d }] ∧
      rt1.cls_meta_data.length < rt1.cls_meta_cap ∧
      rt1.cls_meta_cap ≤ max 8 (2 * rt1.cls_meta_data.length) ∧
      (rt1.cls_meta_cap = rt.cls_meta_cap ∨ rt1.cls_meta_cap = 2 * rt.cls_meta_cap) ∧
      rt1.heap = rt.heap ∧ rt1.malloc_count = rt.malloc_count := by
  have hs : (rt.cls_meta_data.length + 1) % 4294967296 = rt.cls_meta_data.length + 1 :=
    Nat.mod_eq_of_lt (by omega)
  unfold LCDefineClass
  simp only [hs]
  by_cases hfull : rt.cls_meta_data.length + 1 ≥ rt.cls_meta_cap
  · have hc : rt.cls_meta_cap * 2 % 4294967296 = 2 * rt.cls_meta_cap := by
      rw [Nat.mod_eq_of_lt (by omega)]; ring
    simp only [hfull, if_true, hc]
    rw [if_pos (by omega)]
    refine ⟨_, rfl, rfl, ?_, ?_, Or.inr rfl, rfl, rfl⟩
    · simp only [List.length_append, List.length_singleton]; omega
    · simp only [List.length_append, List.length_singleton]; omega
  · simp only [hfull, if_false]
    rw [if_pos hlt]
    refine ⟨_, rfl, rfl, ?_, ?_, Or.inl rfl, rfl, rfl⟩
    · simp only [List.length_append, List.length_singleton]; omega
    · simp only [List.length_append, List.length_singleton]; omega

theorem define_classes_spec (ds : List LCClassDef) :
    ∀ rt : LCRuntime, rt.cls_meta_data.length < rt.cls_meta_cap →
      rt.cls_meta_cap ≤ max 8 (2 * rt.cls_meta_data.length) →
      rt.cls_meta_data.length + ds.length < 2 ^ 30 →
      ∃ rt1, define_classes rt ds
          = .ok (rt1, List.range' rt.cls_meta_data.length ds.length) ∧
        rt1.cls_meta_data = rt.cls_meta_data ++ ds.map (fun d => { cls_def := d }) ∧
        rt.cls_meta_cap ≤ rt1.cls_meta_cap := by
  induction ds with
  | nil =>
    intro rt _ _ _
    exact ⟨rt, rfl, by simp, le_refl _⟩
  | cons d ds ih =>
    intro rt hlt hcap hl
    simp only [List.length_cons] at hl
    obtain ⟨r1, e1, d1, l1, c1, g1, _, _⟩ := define_class_step rt d hlt hcap (by omega)
    have hlen1 : r1.cls_meta_data.length = rt.cls_meta_data.length + 1 := by
      rw [d1]; simp
    obtain ⟨r2, e2, d2, g2⟩ := ih r1 l1 c1 (by omega)
    refine ⟨r2, ?_, ?_, ?_⟩
    · simp only [define_classes, e1, e2, List.length_cons, List.range'_succ, hlen1]
    · rw [d2, d1]; simp
    · rcases g1 with g | g <;> omega

/-- C30: the runtime `LCNewRuntime` returns has the single class 0, whose
descriptor has the display name `"Object"`; for at most `2^30 - 2` further
descriptors, the `k`-th call of `LCDefineClass` returns the id `k`, and after
all the calls the class vector holds the slot of class 0 as it was and the
descriptors in the order of their registration, whatever the number of times
the capacity was doubled. -/
theorem class_ids_dense_and_stable (seed : Nat) (ds : List LCClassDef)
    (hlen : ds.length + 1 < 2 ^ 30) :
    ∃ rt0 rt1, LCNewRuntime seed = .ok rt0 ∧
      rt0.cls_meta_data = [{ cls_def := Object_def, cls_method := some Object_method_def }] ∧
      Object_def.name = "Object" ∧
      define_classes rt0 ds = .ok (rt1, List.range' 1 ds.length) ∧
      rt1.cls_meta_data
        = { cls_def := Object_def, cls_method := some Object_method_def }
          :: ds.map (fun d => { cls_def := d }) ∧
      8 ≤ rt1.cls_meta_cap := by
  have h0 : ∃ rt0, LCNewRuntime seed = .ok rt0 ∧
      rt0.cls_meta_data = [{ cls_def := Object_def, cls_method := some Object_method_def }] ∧
      rt0.cls_meta_cap = 8 := ⟨_, rfl, rfl, rfl⟩
  obtain ⟨rt0, e0, d0, c0⟩ := h0
  obtain ⟨rt1, e1, d1, g1⟩ := define_classes_spec ds rt0 (by rw [d0, c0]; decide)
    (by rw [d0, c0]; decide) (by rw [d0]; simp only [List.length_singleton]; omega)
  rw [d0] at e1 d1
  exact ⟨rt0, rt1, e0, d0, rfl, e1, d1, by omega⟩

theorem class_ids_dense_and_stable_witness :
    ∃ rt0 rt1, LCNewRuntime 7 = .ok rt0 ∧
      define_classes rt0 ((List.range 9).map (fun i => { name := "C", finalizer := some i }))
        = .ok (rt1, [1, 2, 3, 4, 5, 6, 7, 8, 9]) ∧
      rt1.cls_meta_data.map (fun m => m.cls_def)
        = Object_def :: (List.range 9).map (fun i => { name := "C", finalizer := some i }) := by
  obtain ⟨rt0, rt1, h0, _, _, h3, h4, _⟩ := class_ids_dense_and_stable 7
    ((List.range 9).map (fun i => { name := "C", finalizer := some i })) (by decide)
  exact ⟨rt0, rt1, h0, h3, by rw [h4]; rfl⟩


/-! ## Five- and six-byte encodings -/

theorem enc5 (c : Nat) (h1 : 0x200000 ≤ c) (h2 : c < 0x4000000) :
    unicode_to_utf8 c
      = (5, [c / 16777216 + 0xf8, c / 262144 % 64 + 0x80, c / 4096 % 64 + 0x80,
             c / 64 % 64 + 0x80, c % 64 + 0x80]) := by
  unfold unicode_to_utf8
  rw [if_neg (by omega), if_neg (by omega), if_neg (by omega), if_neg (by omega), if_pos h2]
  simp only [cont_byte, Nat.shiftRight_eq_div_pow]
  rw [lor_f8 _ (by omega)]
  simp [u8]; omega

theorem enc6 (c : Nat) (h1 : 0x4000000 ≤ c) (h2 : c < 0x80000000) :
    unicode_to_utf8 c
      = (6, [c / 1073741824 + 0xfc, c / 16777216 % 64 + 0x80, c / 262144 % 64 + 0x80,
             c / 4096 % 64 + 0x80, c / 64 % 64 + 0x80, c % 64 + 0x80]) := by
  unfold unicode_to_utf8
  rw [if_neg (by omega), if_neg (by omega), if_neg (by omega), if_neg (by omega),
    if_neg (by omega), if_pos h2]
  simp only [cont_byte, Nat.shiftRight_eq_div_pow]
  rw [lor_fc _ (by omega)]
  simp [u8]; omega

theorem from_utf8_enc5 (buf : List Nat) (p : Nat) (max_len : Int) (pp c : Nat)
    (rest : List Nat) (h1 : 0x200000 ≤ c) (h2 : c < 0x4000000) (hmax : 5 ≤ max_len)
    (hd : buf.drop p = (unicode_to_utf8 c).2 ++ rest) :
    unicode_from_utf8 buf p max_len pp = ((c : Int), p + 5) := by
  rw [enc5 c h1 h2] at hd
  have h0 : byteAt buf p = c / 16777216 + 0xf8 := by
    have := byteAt_drop buf p 0
    rw [hd] at this; simpa using this
  have hb1 : byteAt buf (p + 1) = c / 262144 % 64 + 0x80 := by
    have := byteAt_drop buf p 1
    rw [hd] at this; simpa using this
  have hb2 : byteAt buf (p + 1 + 1) = c / 4096 % 64 + 0x80 := by
    have := byteAt_drop buf p 2
    rw [hd] at this; simpa using this
  have hb3 : byteAt buf (p + 1 + 1 + 1) = c / 64 % 64 + 0x80 := by
    have := byteAt_drop buf p 3
    rw [hd] at this; simpa using this
  have hb4 : byteAt buf (p + 1 + 1 + 1 + 1) = c % 64 + 0x80 := by
    have := byteAt_drop buf p 4
    rw [hd] at this; simpa using this
  have hsw : utf8_switch (byteAt buf p) = some 4 := by
    rw [h0]; unfold utf8_switch
    rw [if_neg (by omega), if_neg (by omega), if_neg (by omega), if_pos (by omega)]
  have hmask : byteAt buf p &&& utf8_first_code_mask.getD (4 - 1) 0 = c / 16777216 := by
    rw [h0]
    show (c / 16777216 + 0xf8) &&& (2 ^ 2 - 1) = c / 16777216
    rw [Nat.and_pow_two_sub_one_eq_mod]; omega
  have hpay : utf8_payload buf 4 (p + 1) (c / 16777216) = c := by
    simp only [utf8_payload, hb1, hb2, hb3, hb4]; omega
  have := from_utf8_bytes buf p max_len pp 4 (by omega) hsw (by push_cast; omega)
    (fun i hi => by
      have : i = 0 ∨ i = 1 ∨ i = 2 ∨ i = 3 := by omega
      rcases this with rfl | rfl | rfl | rfl
      · simp [utf8_is_cont, hb1]; omega
      · simp [utf8_is_cont, hb2]; omega
      · simp [utf8_is_cont, hb3]; omega
      · simp [utf8_is_cont, hb4]; omega)
    (by rw [hmask, hpay]; simp [utf8_min_code]; omega)
  rw [this, hmask, hpay]

theorem from_utf8_enc6 (buf : List Nat) (p : Nat) (max_len : Int) (pp c : Nat)
    (rest : List Nat) (h1 : 0x4000000 ≤ c) (h2 : c < 0x80000000) (hmax : 6 ≤ max_len)
    (hd : buf.drop p = (unicode_to_utf8 c).2 ++ rest) :
    unicode_from_utf8 buf p max_len pp = ((c : Int), p + 6) := by
  rw [enc6 c h1 h2] at hd
  have h0 : byteAt buf p = c / 1073741824 + 0xfc := by
    have := byteAt_drop buf p 0
    rw [hd] at this; simpa using this
  have hb1 : byteAt buf (p + 1) = c / 16777216 % 64 + 0x80 := by
    have := byteAt_drop buf p 1
    rw [hd] at this; simpa using this
  have hb2 : byteAt buf (p + 1 + 1) = c / 262144 % 64 + 0x80 := by
    have := byteAt_drop buf p 2
    rw [hd] at this; simpa using this
  have hb3 : byteAt buf (p + 1 + 1 + 1) = c / 4096 % 64 + 0x80 := by
    have := byteAt_drop buf p 3
    rw [hd] at this; simpa using this
  have hb4 : byteAt buf (p + 1 + 1 + 1 + 1) = c / 64 % 64 + 0x80 := by
    have := byteAt_drop buf p 4
    rw [hd] at this; simpa using this
  have hb5 : byteAt buf (p + 1 + 1 + 1 + 1 + 1) = c % 64 + 0x80 := by
    have := byteAt_drop buf p 5
    rw [hd] at this; simpa using this
  have hsw : utf8_switch (byteAt buf p) = some 5 := by
    rw [h0]; unfold utf8_switch
    rw [if_neg (by omega), if_neg (by omega), if_neg (by omega), if_neg (by omega),
      if_pos (by omega)]
  have hmask : byteAt buf p &&& utf8_first_code_mask.getD (5 - 1) 0 = c / 1073741824 := by
    rw [h0]
    show (c / 1073741824 + 0xfc) &&& (2 ^ 1 - 1) = c / 1073741824
    rw [Nat.and_pow_two_sub_one_eq_mod]; omega
  have hpay : utf8_payload buf 5 (p + 1) (c / 1073741824) = c := by
    simp only [utf8_payload, hb1, hb2, hb3, hb4, hb5]; omega
  have := from_utf8_bytes buf p max_len pp 5 (by omega) hsw (by push_cast; omega)
    (fun i hi => by
      have : i = 0 ∨ i = 1 ∨ i = 2 ∨ i = 3 ∨ i = 4 := by omega
      rcases this with rfl | rfl | rfl | rfl | rfl
      · simp [utf8_is_cont, hb1]; omega
      · simp [utf8_is_cont, hb2]; omega
      · simp [utf8_is_cont, hb3]; omega
      · simp [utf8_is_cont, hb4]; omega
      · simp [utf8_is_cont, hb5]; omega)
    (by rw [hmask, hpay]; simp [utf8_min_code]; omega)
  rw [this, hmask, hpay]

/-- C36: for every code point `c < 2^31`, with `n` the value returned by
`unicode_to_utf8(buf, c)`, decoding the bytes it wrote with
`unicode_from_utf8(buf, n, &p)` returns `c` and sets `p` to `buf + n`; the
bytes may sit at any offset of a larger buffer. -/
theorem decode_undoes_encode (c : Nat) (hc : c < 2 ^ 31) (buf rest : List Nat) (p pp : Nat)
    (hd : buf.drop p = (unicode_to_utf8 c).2 ++ rest) :
    unicode_from_utf8 buf p ((unicode_to_utf8 c).1 : Int) pp
      = ((c : Int), p + (unicode_to_utf8 c).1) := by
  by_cases h1 : c < 0x80
  · rw [from_utf8_enc1 buf p _ pp c rest h1 hd, enc1 c h1]
  by_cases h2 : c < 0x800
  · rw [from_utf8_enc2 buf p _ pp c rest (by omega) h2 (by rw [enc2 c (by omega) h2]; simp) hd,
      enc2 c (by omega) h2]
  by_cases h3 : c < 0x10000
  · rw [from_utf8_enc3 buf p _ pp c rest (by omega) h3 (by rw [enc3 c (by omega) h3]; simp) hd,
      enc3 c (by omega) h3]
  by_cases h4 : c < 0x200000
  · rw [from_utf8_enc4 buf p _ pp c rest (by omega) h4 (by rw [enc4 c (by omega) h4]; simp) hd,
      enc4 c (by omega) h4]
  by_cases h5 : c < 0x4000000
  · rw [from_utf8_enc5 buf p _ pp c rest (by omega) h5 (by rw [enc5 c (by omega) h5]; simp) hd,
      enc5 c (by omega) h5]
  · rw [from_utf8_enc6 buf p _ pp c rest (by omega) (by omega)
      (by rw [enc6 c (by omega) (by omega)]; simp) hd, enc6 c (by omega) (by omega)]

theorem decode_undoes_encode_witness :
    (0x20AC : Nat) < 2 ^ 31 ∧
    unicode_from_utf8 [0xE2, 0x82, 0xAC] 0 ((unicode_to_utf8 0x20AC).1 : Int) 7
      = ((0x20AC : Int), 0 + (unicode_to_utf8 0x20AC).1) :=
  ⟨by decide, decode_undoes_encode 0x20AC (by decide) [0xE2, 0x82, 0xAC] [] 0 7 (by decide)⟩

/-! ## Accepted encodings are canonical -/

theorem take_drop_bytes (buf : List Nat) (p n : Nat) (h : p + n ≤ buf.length) :
    (buf.drop p).take n = (List.range n).map (fun i => byteAt buf (p + i)) := by
  apply List.ext_getElem
  · simp; omega
  · intro i h1 h2
    simp only [List.length_map, List.length_range] at h2
    simp only [List.getElem_take, List.getElem_drop, List.getElem_map, List.getElem_range]
    unfold byteAt
    rw [List.getD_eq_getElem?_getD, List.getElem?_eq_getElem (by omega)]
    rfl

theorem utf8_cont_loop_inv (buf : List Nat) (n q c c1 : Nat)
    (h : utf8_cont_loop buf n q c = some c1) :
    (∀ i, i < n → 0x80 ≤ byteAt buf (q + i) ∧ byteAt buf (q + i) < 0xc0) ∧
      c1 = utf8_payload buf n q c := by
  have hall : ∀ i, i < n → utf8_is_cont (byteAt buf (q + i)) = true := by
    intro i hi
    by_contra hne
    have hf : utf8_is_cont (byteAt buf (q + i)) = false := by
      cases hb : utf8_is_cont (byteAt buf (q + i)) with
      | false => rfl
      | true => exact absurd hb hne
    have := (utf8_cont_loop_none buf n q c).2 ⟨i, hi, hf⟩
    rw [this] at h
    cases h
  refine ⟨fun i hi => ?_, ?_⟩
  · have := hall i hi
    simp [utf8_is_cont] at this
    omega
  · rw [utf8_cont_loop_some buf n q c hall] at h
    cases h
    rfl

/-- What a successful decode of a multi-byte sequence establishes: the lead
byte announces `l` continuation bytes, all of them have the form `10xxxxxx`,
and the assembled value is at least the minimum for that length. -/
theorem from_utf8_success (buf : List Nat) (p : Nat) (max_len : Int) (pp c q : Nat)
    (h : unicode_from_utf8 buf p max_len pp = ((c : Int), q))
    (h1 : ¬ byteAt buf p < 0x80) :
    ∃ l, utf8_switch (byteAt buf p) = some l ∧ (l : Int) ≤ max_len - 1 ∧ q = p + 1 + l ∧
      (∀ i, i < l → 0x80 ≤ byteAt buf (p + 1 + i) ∧ byteAt buf (p + 1 + i) < 0xc0) ∧
      c = utf8_payload buf l (p + 1) (byteAt buf p &&& utf8_first_code_mask.getD (l - 1) 0) ∧
      utf8_min_code.getD (l - 1) 0 ≤ c := by
  unfold unicode_from_utf8 at h
  simp only [h1, if_false] at h
  cases hsw : utf8_switch (byteAt buf p) with
  | none =>
    rw [hsw] at h
    have := congrArg Prod.fst h
    simp at this
  | some l =>
    rw [hsw] at h
    simp only at h
    by_cases hm : (l : Int) > max_len - 1
    · rw [if_pos hm] at h
      have := congrArg Prod.fst h
      simp at this
    rw [if_neg hm] at h
    cases hloop : utf8_cont_loop buf l (p + 1)
        (byteAt buf p &&& utf8_first_code_mask.getD (l - 1) 0) with
    | none =>
      rw [hloop] at h
      have := congrArg Prod.fst h
      simp at this
    | some c1 =>
      rw [hloop] at h
      simp only at h
      by_cases hmin : c1 < utf8_min_code.getD (l - 1) 0
      · rw [if_pos hmin] at h
        have := congrArg Prod.fst h
        simp at this
      rw [if_neg hmin] at h
      have e1 := congrArg Prod.fst h
      have e2 := congrArg Prod.snd h
      simp only at e1 e2
      have e3 : c1 = c := by exact_mod_cast e1
      obtain ⟨hc, hp⟩ := utf8_cont_loop_inv buf l (p + 1) _ c1 hloop
      subst e3
      exact ⟨l, rfl, by omega, e2.symm, hc, hp, by omega⟩

theorem canon2 (buf : List Nat) (p c : Nat) (hlen : p + 2 ≤ buf.length)
    (hlead : 0xc0 ≤ byteAt buf p ∧ byteAt buf p ≤ 0xdf)
    (hcont : ∀ i, i < 1 → 0x80 ≤ byteAt buf (p + 1 + i) ∧ byteAt buf (p + 1 + i) < 0xc0)
    (hc : c = utf8_payload buf 1 (p + 1)
      (byteAt buf p &&& utf8_first_code_mask.getD (1 - 1) 0))
    (hmin : utf8_min_code.getD (1 - 1) 0 ≤ c) :
    unicode_to_utf8 c = (2, (buf.drop p).take 2) := by
  have b1 : 0x80 ≤ byteAt buf (p + 1) ∧ byteAt buf (p + 1) < 0xc0 := hcont 0 (by omega)
  have hk : utf8_first_code_mask.getD (1 - 1) 0 = 2 ^ 5 - 1 := rfl
  rw [hk, Nat.and_pow_two_sub_one_eq_mod] at hc
  simp only [utf8_payload] at hc
  have hm : 0x80 ≤ c := hmin
  have ht : (buf.drop p).take 2 = [byteAt buf p, byteAt buf (p + 1)] := by
    rw [take_drop_bytes buf p 2 hlen]
    rfl
  rw [ht, enc2 c hm (by omega)]
  have e0 : c / 64 + 0xc0 = byteAt buf p := by omega
  have e1 : c % 64 + 0x80 = byteAt buf (p + 1) := by omega
  rw [e0, e1]

theorem canon3 (buf : List Nat) (p c : Nat) (hlen : p + 3 ≤ buf.length)
    (hlead : 0xe0 ≤ byteAt buf p ∧ byteAt buf p ≤ 0xef)
    (hcont : ∀ i, i < 2 → 0x80 ≤ byteAt buf (p + 1 + i) ∧ byteAt buf (p + 1 + i) < 0xc0)
    (hc : c = utf8_payload buf 2 (p + 1)
      (byteAt buf p &&& utf8_first_code_mask.getD (2 - 1) 0))
    (hmin : utf8_min_code.getD (2 - 1) 0 ≤ c) :
    unicode_to_utf8 c = (3, (buf.drop p).take 3) := by
  have b1 : 0x80 ≤ byteAt buf (p + 1) ∧ byteAt buf (p + 1) < 0xc0 := hcont 0 (by omega)
  have b2 : 0x80 ≤ byteAt buf (p + 1 + 1) ∧ byteAt buf (p + 1 + 1) < 0xc0 := hcont 1 (by omega)
  have hk : utf8_first_code_mask.getD (2 - 1) 0 = 2 ^ 4 - 1 := rfl
  rw [hk, Nat.and_pow_two_sub_one_eq_mod] at hc
  simp only [utf8_payload] at hc
  have hm : 0x800 ≤ c := hmin
  have ht : (buf.drop p).take 3 = [byteAt buf p, byteAt buf (p + 1), byteAt buf (p + 1 + 1)] := by
    rw [take_drop_bytes buf p 3 hlen]
    rfl
  rw [ht, enc3 c hm (by omega)]
  have e0 : c / 4096 + 0xe0 = byteAt buf p := by omega
  have e1 : c / 64 % 64 + 0x80 = byteAt buf (p + 1) := by omega
  have e2 : c % 64 + 0x80 = byteAt buf (p + 1 + 1) := by omega
  rw [e0, e1, e2]

theorem canon4 (buf : List Nat) (p c : Nat) (hlen : p + 4 ≤ buf.length)
    (hlead : 0xf0 ≤ byteAt buf p ∧ byteAt buf p ≤ 0xf7)
    (hcont : ∀ i, i < 3 → 0x80 ≤ byteAt buf (p + 1 + i) ∧ byteAt buf (p + 1 + i) < 0xc0)
    (hc : c = utf8_payload buf 3 (p + 1)
      (byteAt buf p &&& utf8_first_code_mask.getD (3 - 1) 0))
    (hmin : utf8_min_code.getD (3 - 1) 0 ≤ c) :
    unicode_to_utf8 c = (4, (buf.drop p).take 4) := by
  have b1 : 0x80 ≤ byteAt buf (p + 1) ∧ byteAt buf (p + 1) < 0xc0 := hcont 0 (by omega)
  have b2 : 0x80 ≤ byteAt buf (p + 1 + 1) ∧ byteAt buf (p + 1 + 1) < 0xc0 := hcont 1 (by omega)
  have b3 : 0x80 ≤ byteAt buf (p + 1 + 1 + 1) ∧ byteAt buf (p + 1 + 1 + 1) < 0xc0 := hcont 2 (by omega)
  have hk : utf8_first_code_mask.getD (3 - 1) 0 = 2 ^ 3 - 1 := rfl
  rw [hk, Nat.and_pow_two_sub_one_eq_mod] at hc
  simp only [utf8_payload] at hc
  have hm : 0x10000 ≤ c := hmin
  have ht : (buf.drop p).take 4 = [byteAt buf p, byteAt buf (p + 1), byteAt buf (p + 1 + 1), byteAt buf (p + 1 + 1 + 1)] := by
    rw [take_drop_bytes buf p 4 hlen]
    rfl
  rw [ht, enc4 c hm (by omega)]
  have e0 : c / 262144 + 0xf0 = byteAt buf p := by omega
  have e1 : c / 4096 % 64 + 0x80 = byteAt buf (p + 1) := by omega
  have e2 : c / 64 % 64 + 0x80 = byteAt buf (p + 1 + 1) := by omega
  have e3 : c % 64 + 0x80 = byteAt buf (p + 1 + 1 + 1) := by omega
  rw [e0, e1, e2, e3]

theorem canon5 (buf : List Nat) (p c : Nat) (hlen : p + 5 ≤ buf.length)
    (hlead : 0xf8 ≤ byteAt buf p ∧ byteAt buf p ≤ 0xfb)
    (hcont : ∀ i, i < 4 → 0x80 ≤ byteAt buf (p + 1 + i) ∧ byteAt buf (p + 1 + i) < 0xc0)
    (hc : c = utf8_payload buf 4 (p + 1)
      (byteAt buf p &&& utf8_first_code_mask.getD (4 - 1) 0))
    (hmin : utf8_min_code.getD (4 - 1) 0 ≤ c) :
    unicode_to_utf8 c = (5, (buf.drop p).take 5) := by
  have b1 : 0x80 ≤ byteAt buf (p + 1) ∧ byteAt buf (p + 1) < 0xc0 := hcont 0 (by omega)
  have b2 : 0x80 ≤ byteAt buf (p + 1 + 1) ∧ byteAt buf (p + 1 + 1) < 0xc0 := hcont 1 (by omega)
  have b3 : 0x80 ≤ byteAt buf (p + 1 + 1 + 1) ∧ byteAt buf (p + 1 + 1 + 1) < 0xc0 := hcont 2 (by omega)
  have b4 : 0x80 ≤ byteAt buf (p + 1 + 1 + 1 + 1) ∧ byteAt buf (p + 1 + 1 + 1 + 1) < 0xc0 := hcont 3 (by omega)
  have hk : utf8_first_code_mask.getD (4 - 1) 0 = 2 ^ 2 - 1 := rfl
  rw [hk, Nat.and_pow_two_sub_one_eq_mod] at hc
  simp only [utf8_payload] at hc
  have hm : 0x200000 ≤ c := hmin
  have ht : (buf.drop p).take 5 = [byteAt buf p, byteAt buf (p + 1), byteAt buf (p + 1 + 1), byteAt buf (p + 1 + 1 + 1), byteAt buf (p + 1 + 1 + 1 + 1)] := by
    rw [take_drop_bytes buf p 5 hlen]
    rfl
  rw [ht, enc5 c hm (by omega)]
  have e0 : c / 16777216 + 0xf8 = byteAt buf p := by omega
  have e1 : c / 262144 % 64 + 0x80 = byteAt buf (p + 1) := by omega
  have e2 : c / 4096 % 64 + 0x80 = byteAt buf (p + 1 + 1) := by omega
  have e3 : c / 64 % 64 + 0x80 = byteAt buf (p + 1 + 1 + 1) := by omega
  have e4 : c % 64 + 0x80 = byteAt buf (p + 1 + 1 + 1 + 1) := by omega
  rw [e0, e1, e2, e3, e4]

theorem canon6 (buf : List Nat) (p c : Nat) (hlen : p + 6 ≤ buf.length)
    (hlead : 0xfc ≤ byteAt buf p ∧ byteAt buf p ≤ 0xfd)
    (hcont : ∀ i, i < 5 → 0x80 ≤ byteAt buf (p + 1 + i) ∧ byteAt buf (p + 1 + i) < 0xc0)
    (hc : c = utf8_payload buf 5 (p + 1)
      (byteAt buf p &&& utf8_first_code_mask.getD (5 - 1) 0))
    (hmin : utf8_min_code.getD (5 - 1) 0 ≤ c) :
    unicode_to_utf8 c = (6, (buf.drop p).take 6) := by
  have b1 : 0x80 ≤ byteAt buf (p + 1) ∧ byteAt buf (p + 1) < 0xc0 := hcont 0 (by omega)
  have b2 : 0x80 ≤ byteAt buf (p + 1 + 1) ∧ byteAt buf (p + 1 + 1) < 0xc0 := hcont 1 (by omega)
  have b3 : 0x80 ≤ byteAt buf (p + 1 + 1 + 1) ∧ byteAt buf (p + 1 + 1 + 1) < 0xc0 := hcont 2 (by omega)
  have b4 : 0x80 ≤ byteAt buf (p + 1 + 1 + 1 + 1) ∧ byteAt buf (p + 1 + 1 + 1 + 1) < 0xc0 := hcont 3 (by omega)
  have b5 : 0x80 ≤ byteAt buf (p + 1 + 1 + 1 + 1 + 1) ∧ byteAt buf (p + 1 + 1 + 1 + 1 + 1) < 0xc0 := hcont 4 (by omega)
  have hk : utf8_first_code_mask.getD (5 - 1) 0 = 2 ^ 1 - 1 := rfl
  rw [hk, Nat.and_pow_two_sub_one_eq_mod] at hc
  simp only [utf8_payload] at hc
  have hm : 0x4000000 ≤ c := hmin
  have ht : (buf.drop p).take 6 = [byteAt buf p, byteAt buf (p + 1), byteAt buf (p + 1 + 1), byteAt buf (p + 1 + 1 + 1), byteAt buf (p + 1 + 1 + 1 + 1), byteAt buf (p + 1 + 1 + 1 + 1 + 1)] := by
    rw [take_drop_bytes buf p 6 hlen]
    rfl
  rw [ht, enc6 c hm (by omega)]
  have e0 : c / 1073741824 + 0xfc = byteAt buf p := by omega
  have e1 : c / 16777216 % 64 + 0x80 = byteAt buf (p + 1) := by omega
  have e2 : c / 262144 % 64 + 0x80 = byteAt buf (p + 1 + 1) := by omega
  have e3 : c / 4096 % 64 + 0x80 = byteAt buf (p + 1 + 1 + 1) := by omega
  have e4 : c / 64 % 64 + 0x80 = byteAt buf (p + 1 + 1 + 1 + 1) := by omega
  have e5 : c % 64 + 0x80 = byteAt buf (p + 1 + 1 + 1 + 1 + 1) := by omega
  rw [e0, e1, e2, e3, e4, e5]

/-- C37: when `unicode_from_utf8(b, max_len, &p)` succeeds on a buffer holding at
least `max_len >= 1` bytes from `b`, with code point `c` and advance `n`, then
`unicode_to_utf8` applied to `c` returns `n` and writes exactly the `n` bytes
`b[0..n)`: only the shortest encoding of a code point is accepted. -/
theorem accepted_encoding_is_canonical (buf : List Nat) (p : Nat) (max_len : Int)
    (pp c n : Nat) (hmax : 1 ≤ max_len) (hlen : (p : Int) + max_len ≤ buf.length)
    (h : unicode_from_utf8 buf p max_len pp = ((c : Int), p + n)) :
    unicode_to_utf8 c = (n, (buf.drop p).take n) := by
  by_cases h1 : byteAt buf p < 0x80
  · unfold unicode_from_utf8 at h
    simp only [h1, if_true] at h
    have e1 := congrArg Prod.fst h
    have e2 := congrArg Prod.snd h
    simp only at e1 e2
    have e3 : byteAt buf p = c := by exact_mod_cast e1
    obtain rfl : n = 1 := by omega
    rw [take_drop_bytes buf p 1 (by omega), enc1 c (by omega), ← e3]
    rfl
  obtain ⟨l, hsw, hl, hq, hcont, hc, hmin⟩ := from_utf8_success buf p max_len pp c _ h h1
  have hn : n = l + 1 := by omega
  subst hn
  have hb : p + (l + 1) ≤ buf.length := by omega
  unfold utf8_switch at hsw
  split_ifs at hsw with k1 k2 k3 k4 k5 <;> simp only [Option.some.injEq] at hsw <;> subst hsw
  · exact canon2 buf p c hb k1 hcont hc hmin
  · exact canon3 buf p c hb k2 hcont hc hmin
  · exact canon4 buf p c hb k3 hcont hc hmin
  · exact canon5 buf p c hb k4 hcont hc hmin
  · exact canon6 buf p c hb k5 hcont hc hmin

theorem accepted_encoding_is_canonical_witness :
    (1 : Int) ≤ 4 ∧ ((1 : Nat) : Int) + 4 ≤ ([0x41, 0xC3, 0xA9, 0x42, 0x43] : List Nat).length ∧
    unicode_from_utf8 [0x41, 0xC3, 0xA9, 0x42, 0x43] 1 4 0 = (((0xE9 : Nat) : Int), 1 + 2) ∧
    unicode_to_utf8 0xE9
      = (2, (([0x41, 0xC3, 0xA9, 0x42, 0x43] : List Nat).drop 1).take 2) :=
  ⟨by decide, by decide, by decide,
    accepted_encoding_is_canonical [0x41, 0xC3, 0xA9, 0x42, 0x43] 1 4 0 0xE9 2
      (by decide) (by decide) (by decide)⟩


/-! ## Immortal values -/

theorem retain_immortal (pf : Platform) (rt : LCRuntime) (v : LCValue)
    (h : v.tag.is_primitive = true ∨
      ∃ o hd, rt.heap v.ptr_val = some o ∧ o.header = some hd ∧ hd.count = pf.LC_NO_GC) :
    LCRetain pf rt v = .ok rt := by
  rcases h with hp | ⟨o, hd, ho, hh, hc⟩
  · exact retain_primitive pf rt v hp
  · unfold LCRetain
    by_cases hp : v.tag.is_primitive = true
    · rw [if_pos hp]
    · simp [hp, ho, hh, hc]

theorem release_immortal (pf : Platform) (fuel : Nat) (rt : LCRuntime) (v : LCValue)
    (h : v.tag.is_primitive = true ∨
      ∃ o hd, rt.heap v.ptr_val = some o ∧ o.header = some hd ∧ hd.count = pf.LC_NO_GC) :
    LCRelease pf (fuel + 1) rt v = .ok rt := by
  rcases h with hp | ⟨o, hd, ho, hh, hc⟩
  · exact release_primitive pf fuel rt v hp
  · rw [LCRelease]
    by_cases hp : v.tag.is_primitive = true
    · rw [if_pos hp]
    · simp [hp, ho, hh, hc]

/-- C35: for a value that is primitive, or that points to an object whose
count is `LC_NO_GC`, any number `m` of calls of `LCRetain` and any number `n`
of calls of `LCRelease` return normally and leave the runtime as it was: the
heap with every count, the set of live objects and `malloc_count`. -/
theorem retain_release_immortal_noop (pf : Platform) (fuel m n : Nat) (rt : LCRuntime)
    (v : LCValue)
    (h : v.tag.is_primitive = true ∨
      ∃ o hd, rt.heap v.ptr_val = some o ∧ o.header = some hd ∧ hd.count = pf.LC_NO_GC) :
    retain_n pf m rt v = .ok rt ∧ release_n pf (fuel + 1) n rt v = .ok rt := by
  constructor
  · induction m with
    | zero => rfl
    | succ m ih => rw [retain_n, retain_immortal pf rt v h]; exact ih
  · induction n with
    | zero => rfl
    | succ n ih => rw [release_n, release_immortal pf fuel rt v h]; exact ih

theorem retain_release_immortal_noop_witness :
    ((⟨LC_TY_SYMBOL, 1⟩ : LCValue).tag.is_primitive = true ∨
      ∃ o hd, example_symbol_heap.heap (⟨LC_TY_SYMBOL, 1⟩ : LCValue).ptr_val = some o ∧
        o.header = some hd ∧ hd.count = example_platform.LC_NO_GC) ∧
    (retain_n example_platform 3 example_symbol_heap ⟨LC_TY_SYMBOL, 1⟩
        = .ok example_symbol_heap ∧
      release_n example_platform (0 + 1) 5 example_symbol_heap ⟨LC_TY_SYMBOL, 1⟩
        = .ok example_symbol_heap) :=
  ⟨Or.inr ⟨_, _, rfl, rfl, rfl⟩,
    retain_release_immortal_noop example_platform 0 3 5 example_symbol_heap ⟨LC_TY_SYMBOL, 1⟩
      (Or.inr ⟨_, _, rfl, rfl, rfl⟩)⟩

/-! ## Method dispatch by name -/

theorem strcmp_zero_free (us vs : List Nat) (hu : 0 ∉ us) (hv : 0 ∉ vs) :
    strcmp us vs = 0 ↔ us = vs := by
  induction us generalizing vs with
  | nil =>
    cases vs with
    | nil => simp [strcmp]
    | cons b bs =>
      have hb : b ≠ 0 := fun h => hv (by simp [h])
      simp [strcmp]
      omega
  | cons a as ih =>
    have ha : a ≠ 0 := fun h => hu (by simp [h])
    have has : 0 ∉ as := fun h => hu (List.mem_cons_of_mem _ h)
    cases vs with
    | nil =>
      simp [strcmp]
      omega
    | cons b bs =>
      have hbs : 0 ∉ bs := fun h => hv (List.mem_cons_of_mem _ h)
      unfold strcmp
      by_cases hab : a = b
      · subst hab
        simp [ha, ih bs has hbs]
      · simp [hab]
        omega

theorem invoke_scan_find (m : List Nat) (tbl : List LCClassMethodDef) (hz : 0 ∉ m)
    (hzt : ∀ e ∈ tbl, 0 ∉ e.name) :
    invoke_scan m tbl
      = (tbl.find? (fun e => decide (e.name = m))).map (fun e => e.fun_ptr) := by
  induction tbl with
  | nil => rfl
  | cons e rest ih =>
    have he := hzt e (List.mem_cons_self _ _)
    have hr : ∀ x ∈ rest, 0 ∉ x.name := fun x hx => hzt x (List.mem_cons_of_mem _ hx)
    unfold invoke_scan
    rw [List.find?_cons]
    by_cases hn : e.name = m
    · rw [if_pos ((strcmp_zero_free _ _ he hz).2 hn)]
      simp [hn]
    · have hs : ¬ strcmp e.name m = 0 := fun h => hn ((strcmp_zero_free _ _ he hz).1 h)
      rw [if_neg hs, ih hr]
      simp [hn]

theorem invoke_lookup_heap (rt : LCRuntime) (this : LCValue) (m : List Nat) (obj : LCObject)
    (hd : LCObjectHeader) (cm : LCClassMeta) (tbl : List LCClassMethodDef)
    (hv : this.tag.is_primitive = false) (ho : rt.heap this.ptr_val = some obj)
    (hh : obj.header = some hd) (hm : rt.cls_meta_data.get? hd.class_id = some cm)
    (ht : cm.cls_method = some tbl) :
    invoke_lookup rt this m
      = match invoke_scan m tbl with
        | some fun_ptr => .ok fun_ptr
        | none => .error Fault.abort := by
  unfold invoke_lookup
  simp only [hv, Bool.false_eq_true, if_false, ho, hh, hm, ht]

/-- C31: for a heap receiver whose header holds class id `c`, class `c` having a
method table, and a method name `m`, `LCInvokeStr` returns the result of
calling, with `(rt, this, argc, args)`, the function of the first entry of the
table whose name equals `m`; it ends in `abort()` exactly when no entry of the
table is named `m`; and on every primitive receiver it ends in `abort()`. -/
theorem invoke_dispatches_first_match
    (call : Nat → LCRuntime → LCValue → List LCValue → Except Fault (LCRuntime × LCValue))
    (rt : LCRuntime) (this : LCValue) (m : List Nat) (args : List LCValue) (obj : LCObject)
    (hd : LCObjectHeader) (cm : LCClassMeta) (tbl : List LCClassMethodDef)
    (hv : this.tag.is_primitive = false) (ho : rt.heap this.ptr_val = some obj)
    (hh : obj.header = some hd) (hm : rt.cls_meta_data.get? hd.class_id = some cm)
    (ht : cm.cls_method = some tbl) (hz : 0 ∉ m) (hzt : ∀ e ∈ tbl, 0 ∉ e.name) :
    (∀ e, tbl.find? (fun e => decide (e.name = m)) = some e →
      LCInvokeStr call rt this m args = call e.fun_ptr rt this args) ∧
    (invoke_lookup rt this m = .error Fault.abort ↔ ∀ e ∈ tbl, e.name ≠ m) ∧
    ((∀ e ∈ tbl, e.name ≠ m) → LCInvokeStr call rt this m args = .error Fault.abort) ∧
    (∀ prim : LCValue, prim.tag.is_primitive = true →
      invoke_lookup rt prim m = .error Fault.abort ∧
      LCInvokeStr call rt prim m args = .error Fault.abort) := by
  have hl := invoke_lookup_heap rt this m obj hd cm tbl hv ho hh hm ht
  rw [invoke_scan_find m tbl hz hzt] at hl
  have hnone : (∀ e ∈ tbl, e.name ≠ m) → invoke_lookup rt this m = .error Fault.abort := by
    intro hall
    have : tbl.find? (fun e => decide (e.name = m)) = none := by
      rw [List.find?_eq_none]
      intro x hx
      simpa using hall x hx
    rw [hl, this]
    rfl
  refine ⟨?_, ⟨?_, hnone⟩, ?_, ?_⟩
  · intro e he
    unfold LCInvokeStr
    rw [hl, he]
    rfl
  · intro hab e he hn
    cases hf : tbl.find? (fun e => decide (e.name = m)) with
    | none =>
      rw [List.find?_eq_none] at hf
      have := hf e he
      simp [hn] at this
    | some x =>
      rw [hl, hf] at hab
      cases hab
  · intro hall
    unfold LCInvokeStr
    rw [hnone hall]
  · intro prim hp
    have : invoke_lookup rt prim m = .error Fault.abort := by
      unfold invoke_lookup
      rw [if_pos hp]
    exact ⟨this, by unfold LCInvokeStr; rw [this]⟩

theorem invoke_dispatches_first_match_witness :
    (LCInvokeStr example_call example_dispatch_runtime ⟨LC_TY_CLASS_OBJECT, 1⟩ [0x61] []
        = example_call 10 example_dispatch_runtime ⟨LC_TY_CLASS_OBJECT, 1⟩ []) ∧
    (invoke_lookup example_dispatch_runtime ⟨LC_TY_CLASS_OBJECT, 1⟩ [0x63]
        = .error Fault.abort) ∧
    (invoke_lookup example_dispatch_runtime (MK_I32 1) [0x61] = .error Fault.abort) :=
  have h := invoke_dispatches_first_match example_call example_dispatch_runtime
    ⟨LC_TY_CLASS_OBJECT, 1⟩ [0x61] [] (LCObject.class_object { count := 1, class_id := 1 })
    { count := 1, class_id := 1 }
    { cls_def := { name := "P", finalizer := none },
      cls_method := some [{ name := [0x61], flags := 0, fun_ptr := 10 },
                          { name := [0x62], flags := 0, fun_ptr := 11 },
                          { name := [0x61], flags := 0, fun_ptr := 12 }] }
    [{ name := [0x61], flags := 0, fun_ptr := 10 }, { name := [0x62], flags := 0, fun_ptr := 11 },
     { name := [0x61], flags := 0, fun_ptr := 12 }]
    rfl rfl rfl rfl rfl (by decide) (by decide)
  ⟨h.1 { name := [0x61], flags := 0, fun_ptr := 10 } rfl, rfl, (h.2.2.2 (MK_I32 1) rfl).1⟩


/-! ## In-place arithmetic -/

theorem int_result_ok (x : Int) (h1 : -2147483648 ≤ x) (h2 : x ≤ 2147483647) :
    int_result x = .ok x := by
  unfold int_result
  rw [if_pos ⟨h1, h2⟩]

theorem tdiv_range (a b : Int) (ha1 : -2147483648 ≤ a) (ha2 : a ≤ 2147483647)
    (hb : b ≠ 0) (hx : ¬ (a = -2147483648 ∧ b = -1)) :
    -2147483648 ≤ a.tdiv b ∧ a.tdiv b ≤ 2147483647 := by
  by_cases h1 : b = 1
  · subst h1
    rw [Int.tdiv_one]
    exact ⟨ha1, ha2⟩
  by_cases h2 : b = -1
  · subst h2
    rw [Int.tdiv_neg, Int.tdiv_one]
    omega
  have hn := Int.natAbs_tdiv a b
  have hb2 : 2 ≤ b.natAbs := by omega
  have hd : a.natAbs / b.natAbs ≤ a.natAbs / 2 := Nat.div_le_div_left hb2 (by omega)
  have hn2 : (a.tdiv b).natAbs = a.natAbs / b.natAbs := hn
  omega

theorem tmod_range (a b : Int) :
    (0 ≤ a → 0 ≤ a.tmod b ∧ a.tmod b ≤ a) ∧ (a ≤ 0 → a ≤ a.tmod b ∧ a.tmod b ≤ 0) := by
  have key : ∀ m n : Nat, 0 ≤ (m : Int).tmod n ∧ (m : Int).tmod n ≤ m := by
    intro m n
    rw [Int.tmod_eq_emod (Int.ofNat_nonneg m) (Int.ofNat_nonneg n)]
    have h1 : ((m % n : Nat) : Int) = (m : Int) % (n : Int) := by push_cast; rfl
    have h2 := Nat.mod_le m n
    omega
  have key2 : ∀ (x : Int) (n : Nat), x.tmod (-(n : Int)) = x.tmod n := fun x n => Int.tmod_neg x n
  have key3 : ∀ x y : Int, (-x).tmod y = -(x.tmod y) := by
    intro x y
    rw [Int.tmod_def, Int.tmod_def, Int.neg_tdiv]
    ring
  obtain ⟨m, rfl | rfl⟩ := Int.eq_nat_or_neg a <;> obtain ⟨n, rfl | rfl⟩ := Int.eq_nat_or_neg b
  · have := key m n; omega
  · rw [key2]; have := key m n; omega
  · rw [key3]; have := key m n; omega
  · rw [key2, key3]; have := key m n; omega

theorem shr_range (a : Int) (k : Nat) (ha1 : -2147483648 ≤ a) (ha2 : a ≤ 2147483647) :
    -2147483648 ≤ a / 2 ^ k ∧ a / 2 ^ k ≤ 2147483647 := by
  have hpos : (0 : Int) < 2 ^ k := by positivity
  by_cases h0 : 0 ≤ a
  · have h1 := Int.ediv_nonneg h0 (le_of_lt hpos)
    have h2 := Int.ediv_le_self (2 ^ k) h0
    omega
  · have h1 : a ≤ a / 2 ^ k := by
      apply Int.le_ediv_of_mul_le hpos
      nlinarith
    have h2 : a / 2 ^ k < 0 := Int.ediv_neg' (by omega) hpos
    omega

/-- On operands for which the arithmetic of `int` is defined, the `i32` branch
stores the 32-bit two's-complement result. -/
theorem update_i32_exact (op : LCArithmeticType) (a b : Int)
    (ha1 : -2147483648 ≤ a) (ha2 : a ≤ 2147483647)
    (hd : i32_defined op a b) : update_i32 op a b = .ok (i32_wrapped op a b) := by
  cases op <;> unfold update_i32 i32_wrapped <;> unfold i32_defined at hd <;> simp only at hd ⊢
  · rw [int_result_ok _ hd.1 hd.2, toI32_small _ (by omega) (by omega)]
  · rw [int_result_ok _ hd.1 hd.2, toI32_small _ (by omega) (by omega)]
  · rw [int_result_ok _ hd.1 hd.2, toI32_small _ (by omega) (by omega)]
  · obtain ⟨r1, r2⟩ := tdiv_range a b ha1 ha2 hd.1 hd.2
    rw [if_neg hd.1, int_result_ok _ r1 r2, toI32_small _ (by omega) (by omega)]
  · obtain ⟨r1, r2⟩ := tdiv_range a b ha1 ha2 hd.1 hd.2
    have hm := tmod_range a b
    rw [if_neg hd.1, int_result_ok _ r1 r2]
    simp only
    rw [toI32_small _ (by omega) (by omega)]
  · obtain ⟨h1, h2, h3, h4⟩ := hd
    have h5 : 0 ≤ a * 2 ^ b.toNat := Int.mul_nonneg h3 (by positivity)
    rw [if_neg (by omega), if_neg (by omega), int_result_ok _ (by omega) h4,
      toI32_small _ (by omega) (by omega)]
  · obtain ⟨r1, r2⟩ := shr_range a b.toNat ha1 ha2
    rw [if_neg (by omega), toI32_small _ (by omega) (by omega)]

theorem update_i32_never_aborts (op : LCArithmeticType) (a b : Int) :
    update_i32 op a b ≠ .error Fault.abort := by
  cases op <;> unfold update_i32 <;> simp only [int_result] <;> (try split_ifs) <;> simp

theorem update_value_i32 (fop : LCArithmeticType → Int → Int → Int) (op : LCArithmeticType)
    (a b : Int) (ha1 : -2147483648 ≤ a) (ha2 : a ≤ 2147483647) (hd : i32_defined op a b)
    (right : LCValue) (hr : right.int_val = b) :
    update_value fop op (MK_I32 a) right = .ok (MK_I32 (i32_wrapped op a b)) := by
  unfold update_value
  have ht : (MK_I32 a).tag = LC_TY_I32 := rfl
  have hv : (MK_I32 a).int_val = a := rfl
  rw [if_pos ht, hv, hr, update_i32_exact op a b ha1 ha2 hd]
  rfl

/-- C32, amended: for an `i32` target holding `a` and a right operand whose
`int_val` is `b`, where the arithmetic of `int` is defined for `a op b` (the
sum, difference or product is representable in 32 bits, the divisor is not zero
and the division is not `INT_MIN / -1`, the shift count is in `0 .. 31` and a
left shift has a non-negative operand and a representable result),
`LCUpdateValue(op, &left, right)` leaves in the target the 32-bit
two's-complement result of `a op b` with the tag `i32`; when `left` is a
ref-cell holding the `i32` the same result is stored in the inner value of the
cell, the rest of the cell and of the heap is as before, and `left` still
refers to the same cell. -/
theorem update_i32_defined_result (fop : LCArithmeticType → Int → Int → Int)
    (rt : LCRuntime) (op : LCArithmeticType) (a b : Int) (right : LCValue)
    (ha1 : -2147483648 ≤ a) (ha2 : a ≤ 2147483647) (hr : right.int_val = b)
    (hd : i32_defined op a b) :
    LCUpdateValue fop rt op (MK_I32 a) right = .ok (rt, MK_I32 (i32_wrapped op a b)) ∧
    ∀ (cell : LCValue) (c : LCRefCell), cell.tag = LC_TY_REFCELL →
      rt.heap cell.ptr_val = some (LCObject.refcell c) → c.value = MK_I32 a →
      LCUpdateValue fop rt op cell right
        = .ok (heap_store rt cell.ptr_val
            (LCObject.refcell { c with value := MK_I32 (i32_wrapped op a b) }), cell) := by
  have hu := update_value_i32 fop op a b ha1 ha2 hd right hr
  constructor
  · unfold LCUpdateValue
    have ht : ¬ (MK_I32 a).tag = LC_TY_REFCELL := fun h => by cases h
    rw [if_neg ht, hu]
  · intro cell c ht hc hv
    unfold LCUpdateValue
    rw [if_pos ht, hc]
    simp only [hv, hu]

theorem update_i32_defined_result_witness :
    ((-2147483648 : Int) ≤ 6 ∧ (6 : Int) ≤ 2147483647 ∧ (MK_I32 (-4)).int_val = -4 ∧
      i32_defined LC_ARTH_DIV 6 (-4)) ∧
    LCUpdateValue example_f32 example_i32_cell_heap LC_ARTH_DIV (MK_I32 6) (MK_I32 (-4))
      = .ok (example_i32_cell_heap, MK_I32 (i32_wrapped LC_ARTH_DIV 6 (-4))) ∧
    i32_wrapped LC_ARTH_DIV 6 (-4) = -1 ∧
    update_reading (LCUpdateValue example_f32 example_i32_cell_heap LC_ARTH_DIV
      ⟨LC_TY_REFCELL, 1⟩ (MK_I32 (-4))) = .ok (⟨LC_TY_REFCELL, 1⟩, some (MK_I32 (-1))) :=
  have h := update_i32_defined_result example_f32 example_i32_cell_heap LC_ARTH_DIV 6 (-4)
    (MK_I32 (-4)) (by decide) (by decide) rfl (by decide)
  ⟨⟨by decide, by decide, rfl, by decide⟩, h.1, by decide,
    by rw [h.2 ⟨LC_TY_REFCELL, 1⟩
      { header := { count := 1, class_id := 0 }, value := MK_I32 6 } rfl rfl rfl]; rfl⟩

/-- C32, as stated, fails: with the target `INT_MIN` and the right operand `-1`,
which is not zero, the division and the remainder of `LCUpdateValue` have no defined result,
where the 32-bit two's-complement results are `INT_MIN` and `0`; with the
target `INT_MAX` and the right operand `1` the addition has none, where the
two's-complement result is `INT_MIN`; and a left shift of `-1` by `1` has none,
where the two's-complement result is `-2`. -/
theorem update_int_min_div_undefined :
    (-1 : Int) ≠ 0 ∧
    result_value (LCUpdateValue example_f32 example_runtime LC_ARTH_DIV
      (MK_I32 (-2147483648)) (MK_I32 (-1))) = .error Fault.undefined ∧
    i32_wrapped LC_ARTH_DIV (-2147483648) (-1) = -2147483648 ∧
    result_value (LCUpdateValue example_f32 example_runtime LC_ARTH_MOD
      (MK_I32 (-2147483648)) (MK_I32 (-1))) = .error Fault.undefined ∧
    i32_wrapped LC_ARTH_MOD (-2147483648) (-1) = 0 ∧
    result_value (LCUpdateValue example_f32 example_runtime LC_ARTH_PLUS
      (MK_I32 2147483647) (MK_I32 1)) = .error Fault.undefined ∧
    i32_wrapped LC_ARTH_PLUS 2147483647 1 = -2147483648 ∧
    result_value (LCUpdateValue example_f32 example_runtime LC_ARTH_LSHIFT
      (MK_I32 (-1)) (MK_I32 1)) = .error Fault.undefined ∧
    i32_wrapped LC_ARTH_LSHIFT (-1) 1 = -2 := by
  refine ⟨by decide, ?_, ?_, ?_, ?_, ?_, ?_, ?_, ?_⟩ <;> rfl

/-- C33: `LCUpdateValue` on an `i32` target does not reach `abort()` for a
division or remainder by zero nor for a shift by 32 or by -1: the `i32` branch
has no test and the operation has no defined result.  Only the `default:` label
of the `f32` branch ends in `abort()`. -/
theorem update_i32_unchecked_operands :
    result_value (LCUpdateValue example_f32 example_runtime LC_ARTH_DIV (MK_I32 5) (MK_I32 0))
      = .error Fault.undefined ∧
    result_value (LCUpdateValue example_f32 example_runtime LC_ARTH_MOD (MK_I32 5) (MK_I32 0))
      = .error Fault.undefined ∧
    result_value (LCUpdateValue example_f32 example_runtime LC_ARTH_LSHIFT (MK_I32 1)
      (MK_I32 32)) = .error Fault.undefined ∧
    result_value (LCUpdateValue example_f32 example_runtime LC_ARTH_RSHIFT (MK_I32 1)
      (MK_I32 (-1))) = .error Fault.undefined ∧
    result_value (LCUpdateValue example_f32 example_runtime LC_ARTH_MOD (MK_F32 5) (MK_F32 3))
      = .error Fault.abort := by
  refine ⟨?_, ?_, ?_, ?_, ?_⟩ <;> rfl


/-! ## Runtime teardown -/

set_option maxRecDepth 100000 in
theorem teardown_one_symbol :
    example_teardown [[0x61, 0x62, 0x63]]
      = .ok { count_before := 6, count_at_test := 2, leak_reported := true,
              still_allocated := [true] } := rfl

set_option maxRecDepth 100000 in
theorem teardown_two_symbols :
    example_teardown [[0x61, 0x62, 0x63], [0x61, 0x62, 0x64]]
      = .ok { count_before := 7, count_at_test := 3, leak_reported := true,
              still_allocated := [true, true] } := rfl

set_option maxRecDepth 100000 in
theorem teardown_colliding_symbols :
    example_teardown [[0x61], [0x68, 0x63]]
      = .ok { count_before := 7, count_at_test := 2, leak_reported := true,
              still_allocated := [true, false] } := rfl

set_option maxRecDepth 100000 in
theorem teardown_no_symbol :
    example_teardown []
      = .ok { count_before := 5, count_at_test := 1, leak_reported := false,
              still_allocated := [] } := rfl

/-- C34: after `LCNewRuntime`, `LCNewSymbol(rt, "abc")` and `LCFreeRuntime`, the
string of the symbol is still allocated, `malloc_count` is 2 at the test and the
leak is reported: the walk of `LCFreeRuntime` starts at the bucket linked after
the head bucket of each slot, and the symbol is the content of a head bucket.
With the symbols `"abc"` and `"abd"` the count is 3; with `"a"` and `"hc"`, which
share a slot, the second string is freed and the first is not; with no symbol
the count is the baseline 1 and no leak is reported. -/
theorem teardown_leaks_interned_symbol :
    example_teardown [[0x61, 0x62, 0x63]]
      = .ok { count_before := 6, count_at_test := 2, leak_reported := true,
              still_allocated := [true] } ∧
    example_teardown [[0x61, 0x62, 0x63], [0x61, 0x62, 0x64]]
      = .ok { count_before := 7, count_at_test := 3, leak_reported := true,
              still_allocated := [true, true] } ∧
    example_teardown [[0x61], [0x68, 0x63]]
      = .ok { count_before := 7, count_at_test := 2, leak_reported := true,
              still_allocated := [true, false] } ∧
    example_teardown []
      = .ok { count_before := 5, count_at_test := 1, leak_reported := false,
              still_allocated := [] } :=
  ⟨teardown_one_symbol, teardown_two_symbols, teardown_colliding_symbols, teardown_no_symbol⟩

/-! ## Equality and inequality of strings -/

/-- C38: on the narrow string `"a"` and the wide string `"a"`, `lc_std_string_cmp`
answers false for `LC_CMP_EQ` and false for `LC_CMP_NEQ`; and so it does on the
strings built from the bytes `61 00 62` and `61 00 63` once `LCGetStringHash`
has cached their hashes, which differ.  The tests on width and on hashes are
made for `LC_CMP_EQ` only, before the contents are compared. -/
theorem neq_false_where_eq_false :
    example_eq_neq example_narrow_a example_wide_a = .ok (LCFalse, LCFalse) ∧
    example_eq_neq (example_narrow_a_hashed 5) (example_narrow_a_hashed 7)
      = .ok (LCFalse, LCFalse) ∧
    example_eq_neq_after_hash [0x61, 0, 0x62] [0x61, 0, 0x63]
      = .ok ((134049620, 134049621), LCFalse, LCFalse) := by
  refine ⟨?_, ?_, ?_⟩ <;> rfl

/-! ## Large maps made by `lc_std_map_new` -/

/-- C39: the maps made by `lc_std_map_new(rt, LC_TY_I32, 8)` and by
`lc_std_map_new(rt, LC_TY_I32, -1)` are in large mode with a null bucket array
and `bucket_size` 0, and on them `lc_std_map_get`, `lc_std_map_set` and
`lc_std_map_remove` have no defined result: each takes the remainder of the hash
by `bucket_size`. -/
theorem new_large_map_has_bucket_size_zero :
    example_new_map_mode LC_TY_I32 8 = .ok (false, false, 0) ∧
    example_new_map_mode LC_TY_I32 (-1) = .ok (false, false, 0) ∧
    example_read_map LC_TY_I32 8 [] (MK_I32 1) = .error Fault.undefined ∧
    example_typed_map LC_TY_I32 (-1) (example_pairs 1) = .error Fault.undefined ∧
    example_read_after_remove LC_TY_I32 8 [] (MK_I32 1) (MK_I32 1)
      = .error Fault.undefined := by
  refine ⟨?_, ?_, ?_, ?_, ?_⟩ <;> rfl

/-! ## A ref-cell set to its own value -/

/-- C40: when a ref-cell holds the only reference to a string (count 1),
`LCRefCellSetValue(rt, cell, LCRefCellGetValue(cell))` has no defined result:
`LCRelease` of the old value frees the string, and `LCRetain` of the new value
then reads the count of the freed object.  After the release alone the string
is no longer allocated and `malloc_count` has gone from 1 to 0.  When the count
is 2 the call leaves the cell, the count and `malloc_count` as they were. -/
theorem refcell_set_own_value_frees_it :
    cell_reading (.ok example_cell_last_ref_heap) ⟨LC_TY_REFCELL, 1⟩
      = .ok (MK_STRING 2, some 1, 1) ∧
    cell_reading (refcell_set_own_value example_platform 4 example_cell_last_ref_heap
      ⟨LC_TY_REFCELL, 1⟩) ⟨LC_TY_REFCELL, 1⟩ = .error Fault.undefined ∧
    cell_reading (LCRelease example_platform 4 example_cell_last_ref_heap (MK_STRING 2))
      ⟨LC_TY_REFCELL, 1⟩ = .ok (MK_STRING 2, none, 0) ∧
    cell_reading (.ok example_refcell_heap) ⟨LC_TY_REFCELL, 1⟩
      = .ok (MK_STRING 2, some 2, 1) ∧
    cell_reading (refcell_set_own_value example_platform 4 example_refcell_heap
      ⟨LC_TY_REFCELL, 1⟩) ⟨LC_TY_REFCELL, 1⟩ = .ok (MK_STRING 2, some 2, 1) := by
  refine ⟨?_, ?_, ?_, ?_, ?_⟩ <;> rfl


/-- Where the tests made for `LC_CMP_EQ` alone do not decide (same width, and
cached hashes that are not both non-zero and different), `LC_CMP_NEQ` answers
true exactly when `LC_CMP_EQ` answers false. -/
theorem neq_iff_not_eq_without_fast_path (s1 s2 : LCString)
    (hl1 : s1.length < 4294967296) (hl2 : s2.length < 4294967296)
    (hw : s1.is_wide_char = s2.is_wide_char)
    (hh : ¬ (s1.hash ≠ 0 ∧ s2.hash ≠ 0 ∧ s1.hash ≠ s2.hash)) :
    lc_std_string_cmp_str LC_CMP_NEQ s1 s2 = LCTrue ↔
      lc_std_string_cmp_str LC_CMP_EQ s1 s2 = LCFalse := by
  have hTF : LCTrue ≠ LCFalse := by decide
  have hFT : LCFalse ≠ LCTrue := by decide
  have hne : ¬ (LC_CMP_NEQ = LC_CMP_EQ) := by decide
  have hw2 : ¬ (s1.is_wide_char ≠ s2.is_wide_char) := fun h => h hw
  unfold lc_std_string_cmp_str
  simp only [hne, false_and, if_false, true_and, hw2, hh]
  by_cases hlen : s1.length = s2.length
  · simp only [hlen, ne_eq, not_true_eq_false, if_false]
    split_ifs <;> simp_all
  · have hd : toI32 ((s1.length : Int) - (s2.length : Int)) ≠ 0 := by
      unfold toI32
      omega
    simp only [ne_eq, hlen, not_false_eq_true, if_true, hd, if_false]

end Lichen
